import Mathlib

/-!
# go-jvm: class-file decoder and bytecode interpreter

A shallow embedding of the Go package `jvm` (files `utils.go`, `constants.go`,
`attribute.go`, `fields.go`, `method.go`, `class.go`, `jvm.go`,
`descriptor.go`), followed by the properties proved of it.

Conventions of the embedding

* A Go `byte` is a `Fin 256`; `uint16`, `uint32`, `int32`, `int64` values are
  natural numbers or integers reduced explicitly modulo the word size where the
  Go arithmetic wraps.
* A Go `string` is its sequence of bytes (`List Byte`): Go strings carry
  arbitrary bytes and `string(buf)` performs no validation.
* A Go function returning `(value, error)` that may also panic is a function
  into `Except Err _`; a runtime panic (index out of range, failed type
  assertion, slice bounds) is the error value `Err.panic`.
* An `interface{}` field is an inductive type with one constructor per dynamic
  type that the program stores in it, plus `nil`.
* A `*bufio.Reader` is the pair of the bytes in its buffer and the bytes left
  in its source. `Read` follows the method of package `bufio` for the default
  buffer of 4096 bytes: it copies what is buffered and reads the source at most
  once, so it can deliver fewer bytes than asked for.
-/

namespace GoJvm

/-- A Go `byte`. -/
abbrev Byte := Fin 256

/-- The bytes of an ASCII string literal of the source. -/
def ascii (s : String) : List Byte :=
  s.data.map (fun c => Fin.ofNat c.toNat)

/-- Outcomes other than a normal return: the errors the decoder returns to its
caller, and `panic` for a Go runtime panic. `fuel` is the outcome of a bounded
model loop that was given too small a bound; it has no counterpart in Go. -/
inductive Err where
  /-- The error `io.EOF` returned by `bufio.Reader.Read`. -/
  | eof
  /-- The error `Give me CAFEBABE`. -/
  | badMagic
  /-- The error `Invalid constant pool tag`. -/
  | invalidTag
  /-- The error `unknow attribute type %s`. -/
  | unknownAttribute (name : List Byte)
  /-- A Go runtime panic. -/
  | panic
  /-- The recursion bound of the model was exhausted. -/
  | fuel
  deriving DecidableEq, Repr

/-- Equality of outcomes is decidable, so that runs on concrete inputs can be
evaluated. -/
instance instDecidableEqExcept {ε α : Type} [DecidableEq ε] [DecidableEq α] :
    DecidableEq (Except ε α)
  | .ok a, .ok b =>
    if h : a = b then isTrue (by rw [h]) else isFalse (fun h' => h (Except.ok.inj h'))
  | .error a, .error b =>
    if h : a = b then isTrue (by rw [h]) else isFalse (fun h' => h (Except.error.inj h'))
  | .ok _, .error _ => isFalse (fun h => by cases h)
  | .error _, .ok _ => isFalse (fun h => by cases h)

/-! ## utils.go -/

/-- The constant `defaultBufSize` of package `bufio`: the size of the buffer of
a reader made by `bufio.NewReader`. -/
def defaultBufSize : Nat := 4096

/-- The state of a `*bufio.Reader` made by `bufio.NewReader` over a source
that holds a fixed sequence of bytes (the `*os.File` of a regular file in
`NewJvm`, the `*bytes.Buffer` of the nested loop of `ReadAttribute`). One call
of `Read` on such a source delivers as many bytes as the slice takes or the
source has left, and `io.EOF` when nothing is left. In a reader that the
program reaches, `buf` holds at most `defaultBufSize` bytes. -/
structure Reader where
  /-- The bytes `b.buf[b.r:b.w]`: taken from the source into the buffer and not
  yet delivered. -/
  buf : List Byte
  /-- The bytes that the source `b.rd` has not delivered yet. -/
  rd : List Byte
  deriving DecidableEq, Repr

/-- The function `bufio.NewReader` on a source that holds the bytes `rd`: the
buffer is empty. -/
def NewReader (rd : List Byte) : Reader := ⟨[], rd⟩

/-- The method `(*bufio.Reader).Read(p)`. A read into an empty slice delivers
nothing and reports no error. With bytes in the buffer, `Read` copies as many
of them as `p` takes and does not touch the source, so it comes back short
when fewer than `len(p)` bytes are buffered. With an empty buffer it reads
from the source once: straight into `p` when `p` is at least as long as the
buffer, and otherwise into the buffer (at most `defaultBufSize` bytes), from
which it then copies; it reports `io.EOF` when the source has nothing left.
The cells of `p` after the copied bytes keep their contents. The count of
bytes copied is the first component. -/
def Reader.Read (b : Reader) (p : List Byte) : Except Err (Nat × List Byte × Reader) :=
  if p.length = 0 then .ok (0, p, b)
  else if b.buf.length = 0 then
    if b.rd.length = 0 then .error .eof
    else if defaultBufSize ≤ p.length then
      let n := min p.length b.rd.length
      .ok (n, b.rd.take n ++ p.drop n, ⟨[], b.rd.drop n⟩)
    else
      let filled := b.rd.take defaultBufSize
      let n := min p.length filled.length
      .ok (n, filled.take n ++ p.drop n, ⟨filled.drop n, b.rd.drop defaultBufSize⟩)
  else
    let n := min p.length b.buf.length
    .ok (n, b.buf.take n ++ p.drop n, ⟨b.buf.drop n, b.rd⟩)

/-- The function `ReadSection` of `utils.go`: one `Read` into `buffer` whose
byte count is discarded; only the error of `Read` is returned. The result is
the contents of `buffer` after the call and the reader after the call. -/
def ReadSection (javaClassFile : Reader) (buffer : List Byte) :
    Except Err (List Byte × Reader) :=
  match javaClassFile.Read buffer with
  | .error err => .error err
  | .ok (_, buffer', r') => .ok (buffer', r')

/-- The slice expression `b[:k]` followed by a call that overwrites it: the
first `k` cells of `b`. Panics when `k` exceeds the length. -/
def sliceTo (b : List Byte) (k : Nat) : Except Err (List Byte) :=
  if k ≤ b.length then .ok (b.take k) else .error .panic

/-- The slice expression `b[k:]`. Panics when `k` exceeds the length. -/
def sliceFrom (b : List Byte) (k : Nat) : Except Err (List Byte) :=
  if k ≤ b.length then .ok (b.drop k) else .error .panic

/-- The function `binary.BigEndian.Uint16`: panics on fewer than 2 bytes. -/
def Uint16 (b : List Byte) : Except Err Nat :=
  match b with
  | b0 :: b1 :: _ => .ok (b0.val * 256 + b1.val)
  | _ => .error .panic

/-- The function `binary.BigEndian.Uint32`: panics on fewer than 4 bytes. -/
def Uint32 (b : List Byte) : Except Err Nat :=
  match b with
  | b0 :: b1 :: b2 :: b3 :: _ =>
    .ok (b0.val * 16777216 + b1.val * 65536 + b2.val * 256 + b3.val)
  | _ => .error .panic

/-- Subtraction of one in `uint16`: `0 - 1` wraps to `65535`. -/
def pred16 (i : Nat) : Nat := if i = 0 then 65535 else i - 1

/-- Two's-complement reading of a 32-bit pattern: the Go conversion to `int32`
and the result of `int32` arithmetic. -/
def toInt32 (x : Int) : Int := (x + 2147483648) % 4294967296 - 2147483648

/-- Two's-complement reading of a 64-bit pattern: the Go conversion to `int64`
and the result of `int64` arithmetic. -/
def toInt64 (x : Int) : Int :=
  (x + 9223372036854775808) % 18446744073709551616 - 9223372036854775808

/-- The call `ReadSection(javaClassFile, buffer[:k])`: the slice shares the
array of `buffer`, so the bytes read land in the first `k` cells of `buffer`
and the cells after them keep their contents. -/
def ReadSectionTo (javaClassFile : Reader) (buffer : List Byte) (k : Nat) :
    Except Err (List Byte × Reader) := do
  let s ← sliceTo buffer k
  let (s', r') ← ReadSection javaClassFile s
  pure (s' ++ buffer.drop k, r')

/-! ## Floating point

A `float32` or `float64` value is represented by its IEEE-754 bit pattern. -/

/-- A Go `float32`, by its bit pattern. -/
structure F32 where
  /-- The 32 bits: sign, 8 exponent bits, 23 fraction bits. -/
  bits : Nat
  deriving DecidableEq, Repr

/-- A Go `float64`, by its bit pattern. -/
structure F64 where
  /-- The 64 bits: sign, 11 exponent bits, 52 fraction bits. -/
  bits : Nat
  deriving DecidableEq, Repr

/-- Position of the highest set bit of `n` (0 for `n ≤ 1`), looking at no more
than `fuel` bits. -/
def log2Fuel : Nat → Nat → Nat
  | 0, _ => 0
  | fuel + 1, n => if 2 ≤ n then log2Fuel fuel (n / 2) + 1 else 0

/-- Rounds the positive integer `m` to `p` significant bits, to nearest and
ties to even: the result `(sig, e)` has `2^(p-1) ≤ sig < 2^p` and stands for
`sig * 2^(e - (p-1))`. -/
def roundSig (p m : Nat) : Nat × Nat :=
  let e := log2Fuel 64 m
  if e < p then (m * 2 ^ (p - 1 - e), e)
  else
    let s := e - (p - 1)
    let q := m / 2 ^ s
    let r := m % 2 ^ s
    let half := 2 ^ (s - 1)
    let q' := if half < r ∨ (r = half ∧ q % 2 = 1) then q + 1 else q
    if q' = 2 ^ p then (2 ^ (p - 1), e + 1) else (q', e)

/-- The Go conversion `float32(x)` of an integer `x` of magnitude below `2^64`:
the nearest `float32`. -/
def float32OfInt (x : Int) : F32 :=
  if x = 0 then ⟨0⟩
  else
    let (sig, e) := roundSig 24 x.natAbs
    ⟨(if x < 0 then 2147483648 else 0) + (e + 127) * 8388608 + (sig - 8388608)⟩

/-- The Go conversion `float64(x)` of an integer `x` of magnitude at most
`2^63`: the nearest `float64`. -/
def float64OfInt (x : Int) : F64 :=
  if x = 0 then ⟨0⟩
  else
    let (sig, e) := roundSig 53 x.natAbs
    ⟨(if x < 0 then 9223372036854775808 else 0) + (e + 1023) * 4503599627370496
      + (sig - 4503599627370496)⟩

/-! ## constants.go -/

/-- The type `ConstantPoolTag`. -/
abbrev ConstantPoolTag := Byte

def ConstantClassTag : ConstantPoolTag := 7
def ConstantFieldRefTag : ConstantPoolTag := 9
def ConstantMethodRefTag : ConstantPoolTag := 10
def ConstantInterfaceMethodRefTag : ConstantPoolTag := 11
def ConstantStringTag : ConstantPoolTag := 8
def ConstantIntegerTag : ConstantPoolTag := 3
def ConstantFloatTag : ConstantPoolTag := 4
def ConstantLongTag : ConstantPoolTag := 5
def ConstantDoubleTag : ConstantPoolTag := 6
def ConstantNameAndTypeTag : ConstantPoolTag := 12
def ConstantUtf8Tag : ConstantPoolTag := 1
def ConstantMethodHandleTag : ConstantPoolTag := 15
def ConstantMethodTypeTag : ConstantPoolTag := 16
def ConstantInvokeDynamicTag : ConstantPoolTag := 18

/-- The function `IsConstantPoolTag`. -/
def IsConstantPoolTag (v : ConstantPoolTag) : Bool :=
  v = ConstantClassTag || v = ConstantDoubleTag || v = ConstantFieldRefTag
    || v = ConstantFloatTag || v = ConstantIntegerTag
    || v = ConstantInterfaceMethodRefTag || v = ConstantInvokeDynamicTag
    || v = ConstantLongTag || v = ConstantMethodHandleTag
    || v = ConstantMethodTypeTag || v = ConstantMethodRefTag
    || v = ConstantNameAndTypeTag || v = ConstantStringTag || v = ConstantUtf8Tag

/-- The dynamic values stored in `ConstantInfo.Data`: one constructor for each
Go type that `ReadConstantPool` stores there. A method reference is stored as
a pointer (`*ConstantMethodRef`), every other record by value. -/
inductive ConstantData where
  | nil
  | ConstantMethodRefPtr (ClassIndex NameAndTypeIndex : Nat)
  | ConstantClass (NameIndex : Nat)
  | ConstantDouble (v : F64)
  | ConstantFieldRef (ClassIndex NameAndTypeIndex : Nat)
  | ConstantFloat (v : F32)
  | ConstantInteger (v : Int)
  | ConstantInterfaceMethodRef (ClassIndex NameAndTypeIndex : Nat)
  | ConstantInvokeDynamic (BootstrapMethodAttrIndex NameAndTypeIndex : Nat)
  | ConstantLong (v : Int)
  | ConstantMethodHandle (ReferenceKind : Byte) (ReferenceIndex : Nat)
  | ConstantMethodType (DescriptorIndex : Nat)
  | ConstantNameAndType (NameIndex DescriptorIndex : Nat)
  | ConstantString (StringIndex : Nat)
  | ConstantUtf8 (s : List Byte)
  deriving DecidableEq, Repr

/-- The struct `ConstantInfo`. -/
structure ConstantInfo where
  Tag : ConstantPoolTag
  Data : ConstantData
  deriving DecidableEq, Repr

/-- The two `uint16` fields that six of the constant kinds read from the
4-byte buffer: `Uint16(buf)` and `Uint16(buf[2:])`. -/
def twoUint16 (buf : List Byte) : Except Err (Nat × Nat) := do
  let a ← Uint16 buf
  let b ← Uint16 (← sliceFrom buf 2)
  pure (a, b)

/-- The function `ReadConstantPool`: reads one constant-pool entry. -/
def ReadConstantPool (javaClassFile : Reader) (sectionsReadBuffer : List Byte) :
    Except Err (ConstantInfo × Reader) := do
  let (buf, r) ← ReadSectionTo javaClassFile sectionsReadBuffer 1
  let tag ← match buf with
    | t :: _ => pure t
    | [] => throw Err.panic
  if !IsConstantPoolTag tag then throw Err.invalidTag
  match tag.val with
  | 10 => do
    let (buf, r) ← ReadSection r buf
    let (c, n) ← twoUint16 buf
    pure (⟨tag, .ConstantMethodRefPtr c n⟩, r)
  | 7 => do
    let (buf, r) ← ReadSectionTo r buf 2
    pure (⟨tag, .ConstantClass (← Uint16 buf)⟩, r)
  | 6 => do
    let (buf, r) ← ReadSection r buf
    let high ← Uint32 buf
    let (buf, r) ← ReadSection r buf
    let low ← Uint32 buf
    pure (⟨tag, .ConstantDouble (float64OfInt (toInt64 (toInt64 (high * 4294967296) + low)))⟩, r)
  | 9 => do
    let (buf, r) ← ReadSection r buf
    let (c, n) ← twoUint16 buf
    pure (⟨tag, .ConstantFieldRef c n⟩, r)
  | 4 => do
    let (buf, r) ← ReadSection r buf
    pure (⟨tag, .ConstantFloat (float32OfInt (← Uint32 buf))⟩, r)
  | 3 => do
    let (buf, r) ← ReadSection r buf
    pure (⟨tag, .ConstantInteger (toInt32 (← Uint32 buf))⟩, r)
  | 11 => do
    let (buf, r) ← ReadSection r buf
    let (c, n) ← twoUint16 buf
    pure (⟨tag, .ConstantInterfaceMethodRef c n⟩, r)
  | 18 => do
    let (buf, r) ← ReadSection r buf
    let (c, n) ← twoUint16 buf
    pure (⟨tag, .ConstantInvokeDynamic c n⟩, r)
  | 5 => do
    let (buf, r) ← ReadSection r buf
    let high ← Uint32 buf
    let (buf, r) ← ReadSection r buf
    let low ← Uint32 buf
    pure (⟨tag, .ConstantLong (toInt64 (toInt64 (high * 4294967296) + low))⟩, r)
  | 15 => do
    let (buf, r) ← ReadSectionTo r buf 3
    let kind ← match buf with
      | k :: _ => pure k
      | [] => throw Err.panic
    pure (⟨tag, .ConstantMethodHandle kind (← Uint16 (← sliceFrom buf 1))⟩, r)
  | 16 => do
    let (buf, r) ← ReadSectionTo r buf 2
    pure (⟨tag, .ConstantMethodType (← Uint16 buf)⟩, r)
  | 12 => do
    let (buf, r) ← ReadSection r buf
    let (c, n) ← twoUint16 buf
    pure (⟨tag, .ConstantNameAndType c n⟩, r)
  | 8 => do
    let (buf, r) ← ReadSectionTo r buf 2
    pure (⟨tag, .ConstantString (← Uint16 buf)⟩, r)
  | 1 => do
    let (buf, r) ← ReadSectionTo r buf 2
    let lenght ← Uint16 buf
    let (ut8Buffer, r) ← ReadSection r (List.replicate lenght 0)
    pure (⟨tag, .ConstantUtf8 ut8Buffer⟩, r)
  | _ => throw Err.panic

/-! ## attribute.go -/

/-- The type `AttributeType`, a Go string. -/
abbrev AttributeType := List Byte

def ConstantValueAttr : AttributeType := ascii "ConstantValue"
def CodeAttr : AttributeType := ascii "Code"
def StackMapTableAttr : AttributeType := ascii "StackMapTable"
def ExceptionsAttr : AttributeType := ascii "Exceptions"
def InnerClassesAttr : AttributeType := ascii "InnerClasses"
def EnclosingMethodAttr : AttributeType := ascii "EnclosingMethod"
def SyntheticAttr : AttributeType := ascii "Synthetic"
def SignatureAttr : AttributeType := ascii "Signature"
def SourceFileAttr : AttributeType := ascii "SourceFile"
def SourceDebugExtensionAttr : AttributeType := ascii "SourceDebugExtension"
def LineNumberTableAttr : AttributeType := ascii "LineNumberTable"
def LocalVariableTableAttr : AttributeType := ascii "LocalVariableTable"
def LocalVariableTypeTableAttr : AttributeType := ascii "LocalVariableTypeTable"
def DeprecatedAttr : AttributeType := ascii "Deprecated"
def RuntimeVisibleAnnotationsAttr : AttributeType := ascii "RuntimeVisibleAnnotations"
def RuntimeInvisibleAnnotationsAttr : AttributeType := ascii "RuntimeInvisibleAnnotations"
def RuntimeVisibleParameterAnnotationsAttr : AttributeType :=
  ascii "RuntimeVisibleParameterAnnotations"
def RuntimeInvisibleParameterAnnotationsAttr : AttributeType :=
  ascii "RuntimeInvisibleParameterAnnotations"
def AnnotationDefaultAttr : AttributeType := ascii "AnnotationDefault"
def BootstrapMethodsAttr : AttributeType := ascii "BootstrapMethods"

/-- The function `IsAttributeType`. -/
def IsAttributeType (attr : AttributeType) : Bool :=
  attr = AnnotationDefaultAttr || attr = BootstrapMethodsAttr || attr = CodeAttr
    || attr = ConstantValueAttr || attr = DeprecatedAttr || attr = EnclosingMethodAttr
    || attr = ExceptionsAttr || attr = InnerClassesAttr || attr = LineNumberTableAttr
    || attr = LocalVariableTableAttr || attr = LocalVariableTypeTableAttr
    || attr = RuntimeInvisibleAnnotationsAttr
    || attr = RuntimeInvisibleParameterAnnotationsAttr
    || attr = RuntimeVisibleAnnotationsAttr
    || attr = RuntimeVisibleParameterAnnotationsAttr || attr = SignatureAttr
    || attr = SourceDebugExtensionAttr || attr = SourceFileAttr
    || attr = StackMapTableAttr || attr = SyntheticAttr

/-- One entry of `CodeAttribute.ExceptionsTable`. -/
structure ExceptionEntry where
  StartPc : Nat
  EndPc : Nat
  HandlerPc : Nat
  CatchType : Nat
  deriving DecidableEq, Repr

/-- The struct `LineNumberTableAttributeData`. -/
structure LineNumberTableAttributeData where
  StartPc : Nat
  LineNumber : Nat
  deriving DecidableEq, Repr

/-- The struct `SourceFileAttribute`. -/
structure SourceFileAttribute where
  SourcefileIndex : Nat
  Sourcefile : List Byte
  deriving DecidableEq, Repr

mutual
/-- The struct `CodeAttribute`. -/
inductive CodeAttribute where
  | mk (MaxStack MaxLocals CodeLength : Nat) (Code : List Byte)
      (ExceptionsTable : List ExceptionEntry) (Attributes : List AttributeInfo)
/-- The dynamic values stored in `AttributeInfo.Data`. -/
inductive AttributeData where
  | nil
  | Code (c : CodeAttribute)
  | LineNumberTable (t : List LineNumberTableAttributeData)
  | SourceFile (s : SourceFileAttribute)
/-- The struct `AttributeInfo`. -/
inductive AttributeInfo where
  | mk (AttributeNameIndex : Nat) (AttributeType : AttributeType) (Data : AttributeData)
end

def CodeAttribute.MaxStack : CodeAttribute → Nat
  | .mk x _ _ _ _ _ => x
def CodeAttribute.MaxLocals : CodeAttribute → Nat
  | .mk _ x _ _ _ _ => x
def CodeAttribute.CodeLength : CodeAttribute → Nat
  | .mk _ _ x _ _ _ => x
def CodeAttribute.Code : CodeAttribute → List Byte
  | .mk _ _ _ x _ _ => x
def CodeAttribute.ExceptionsTable : CodeAttribute → List ExceptionEntry
  | .mk _ _ _ _ x _ => x
def CodeAttribute.Attributes : CodeAttribute → List AttributeInfo
  | .mk _ _ _ _ _ x => x
def AttributeInfo.AttributeNameIndex : AttributeInfo → Nat
  | .mk x _ _ => x
def AttributeInfo.AttributeType : AttributeInfo → AttributeType
  | .mk _ x _ => x
def AttributeInfo.Data : AttributeInfo → AttributeData
  | .mk _ _ x => x

/-- The expression `constantPool[i-1].Data.(ConstantUtf8)` for a `uint16`
index `i`: panics when `i-1` (computed in `uint16`) is outside the pool or the
entry does not hold a string. -/
def poolUtf8 (constantPool : List ConstantInfo) (i : Nat) : Except Err (List Byte) :=
  match constantPool[pred16 i]? with
  | some ⟨_, .ConstantUtf8 s⟩ => .ok s
  | _ => .error .panic

/-- A loop `for i := range n` whose body can return an error and otherwise
yields the element stored at position `i` of a result slice. -/
def forRange {α : Type} (body : Nat → Except Err α) : Nat → Nat → Except Err (List α)
  | _, 0 => .ok []
  | i, n + 1 => do
    let x ← body i
    let xs ← forRange body (i + 1) n
    pure (x :: xs)

/-- A loop `for i := range n` whose body reads one record from the stream. -/
def readMany {α : Type} (f : Reader → Except Err (α × Reader)) :
    Nat → Reader → Except Err (List α × Reader)
  | 0, r => .ok ([], r)
  | n + 1, r => do
    let (x, r) ← f r
    let (xs, r) ← readMany f n r
    pure (x :: xs, r)

/-- The body of the function `ReadAttribute`. The first argument bounds the
nesting depth of the recursion through Code attributes; the Go function has no
such bound, and the outcome `Err.fuel` marks a bound that was too small. -/
def ReadAttributeFuel : Nat → List ConstantInfo → Reader → List Byte →
    Except Err (AttributeInfo × Reader)
  | 0, _, _, _ => .error .fuel
  | fuel + 1, constantPool, javaClassFile, readBuffer => do
    let (readBuffer, r) ← ReadSectionTo javaClassFile readBuffer 2
    let nameIndex ← Uint16 readBuffer
    let attributeType ← poolUtf8 constantPool nameIndex
    if !IsAttributeType attributeType then throw (Err.unknownAttribute attributeType)
    let (readBuffer, r) ← ReadSection r readBuffer
    let attributeLength ← Uint32 readBuffer
    let (_, info, r) ← r.Read (List.replicate attributeLength 0)
    if attributeType = CodeAttr then do
      let maxStack ← Uint16 info
      let maxLocals ← Uint16 (← sliceFrom info 2)
      let codeLength ← Uint32 (← sliceFrom info 4)
      let hi := (8 + codeLength) % 4294967296
      if hi < 8 ∨ info.length < hi then throw Err.panic
      let code := (info.take hi).drop 8
      let offset := hi
      let exceptionTableLength ← Uint16 (← sliceFrom info offset)
      let offset := (offset + (2 + exceptionTableLength * 8) % 4294967296) % 4294967296
      let attributesCount ← Uint16 (← sliceFrom info offset)
      let offset := (offset + 2) % 4294967296
      let attributes ← forRange (fun _ => do
        let attrBuff ← sliceFrom info offset
        let (attr, _) ←
          ReadAttributeFuel fuel constantPool (NewReader attrBuff) (List.replicate 4 0)
        pure attr) 0 attributesCount
      pure (.mk nameIndex attributeType
        (.Code (.mk maxStack maxLocals codeLength code [] attributes)), r)
    else if attributeType = LineNumberTableAttr then do
      let lenght ← Uint16 info
      let lineNumberTable ← forRange (fun i => do
        let startPc ← Uint16 (← sliceFrom info ((i * 4 + 2) % 65536))
        let lineNumber ← Uint16 (← sliceFrom info ((i * 4 + 2 + 2) % 65536))
        pure (⟨startPc, lineNumber⟩ : LineNumberTableAttributeData)) 0 lenght
      pure (.mk nameIndex attributeType (.LineNumberTable lineNumberTable), r)
    else if attributeType = SourceFileAttr then do
      let sourcefileIndex ← Uint16 info
      let sourcefile ← poolUtf8 constantPool sourcefileIndex
      pure (.mk nameIndex attributeType (.SourceFile ⟨sourcefileIndex, sourcefile⟩), r)
    else
      pure (.mk nameIndex attributeType .nil, r)

/-- The function `ReadAttribute`: its body with a nesting bound of one more
than the number of bytes left in the stream and in the buffer passed. That
bound is never exhausted (`ReadAttribute_ne_fuel`), and every bound above the
number of nonzero bytes among them gives the same outcome
(`ReadAttributeFuel_eq_ReadAttribute`). -/
def ReadAttribute (constantPool : List ConstantInfo) (javaClassFile : Reader)
    (readBuffer : List Byte) : Except Err (AttributeInfo × Reader) :=
  ReadAttributeFuel
    (javaClassFile.buf.length + javaClassFile.rd.length + readBuffer.length + 1)
    constantPool javaClassFile readBuffer

/-! ## fields.go, method.go -/

/-- The struct `FieldInfo`. -/
structure FieldInfo where
  AccessFlags : Nat
  NameIndex : Nat
  DescriptorIndex : Nat
  AttributesCount : Nat
  Attributes : List AttributeInfo

/-- The struct `MethodInfo`. -/
structure MethodInfo where
  AccessFlags : Nat
  NameIndex : Nat
  Name : List Byte
  DescriptorIndex : Nat
  AttributesCount : Nat
  Attributes : List AttributeInfo

/-- The function `ReadField`. -/
def ReadField (constantPool : List ConstantInfo) (javaClassFile : Reader)
    (sectionsReadBuffer : List Byte) : Except Err (FieldInfo × Reader) := do
  let (buf, r) ← ReadSection javaClassFile sectionsReadBuffer
  let accessFlags ← Uint16 buf
  let nameIndex ← Uint16 (← sliceFrom buf 2)
  let descriptorIndex ← Uint16 (← sliceFrom buf 4)
  let attributesCount ← Uint16 (← sliceFrom buf 6)
  let (attributes, r) ←
    readMany (fun r => ReadAttribute constantPool r (List.replicate 4 0)) attributesCount r
  pure (⟨accessFlags, nameIndex, descriptorIndex, attributesCount, attributes⟩, r)

/-- The function `ReadMethod`. -/
def ReadMethod (constantPool : List ConstantInfo) (javaClassFile : Reader)
    (sectionsReadBuffer : List Byte) : Except Err (MethodInfo × Reader) := do
  let (buf, r) ← ReadSection javaClassFile sectionsReadBuffer
  let accessFlags ← Uint16 buf
  let nameIndex ← Uint16 (← sliceFrom buf 2)
  let descriptorIndex ← Uint16 (← sliceFrom buf 4)
  let attributesCount ← Uint16 (← sliceFrom buf 6)
  let name ← poolUtf8 constantPool nameIndex
  let (attributes, r) ←
    readMany (fun r => ReadAttribute constantPool r (List.replicate 4 0)) attributesCount r
  pure (⟨accessFlags, nameIndex, name, descriptorIndex, attributesCount, attributes⟩, r)

/-! ## class.go -/

/-- The struct `JavaClass`. `Version` is the string `major.minor` in decimal. -/
structure JavaClass where
  Version : List Byte
  ConstantPool : List ConstantInfo
  Interfaces : List Nat
  Fields : List FieldInfo
  Methods : List MethodInfo
  Attributes : List AttributeInfo
  AccessFlags : Nat
  ThisClass : Nat
  SuperClass : Nat

/-- The interface loop of `NewJavaClass`: each index is read into the first
two cells of the shared 4-byte buffer. -/
def readInterfaces : Nat → Reader → List Byte → Except Err (List Nat × List Byte × Reader)
  | 0, r, buf => .ok ([], buf, r)
  | n + 1, r, buf => do
    let (buf, r) ← ReadSectionTo r buf 2
    let x ← Uint16 (← sliceTo buf 2)
    let (xs, buf, r) ← readInterfaces n r buf
    pure (x :: xs, buf, r)

/-- The part of `NewJavaClass` after the constant pool has been decoded: access
flags, this class, super class, interfaces, fields, methods, attributes. -/
def decodeAfterPool (version : List Byte) (constantPool : List ConstantInfo)
    (r : Reader) (buf : List Byte) : Except Err JavaClass := do
  let (buf, r) ← ReadSectionTo r buf 2
  let accessFlags ← Uint16 (← sliceTo buf 2)
  let (buf, r) ← ReadSectionTo r buf 2
  let thisClass ← Uint16 (← sliceTo buf 2)
  let (buf, r) ← ReadSectionTo r buf 2
  let superClass ← Uint16 (← sliceTo buf 2)
  let (buf, r) ← ReadSectionTo r buf 2
  let interfacesCount ← Uint16 (← sliceTo buf 2)
  let (interfaces, buf, r) ← readInterfaces interfacesCount r buf
  let (buf, r) ← ReadSectionTo r buf 2
  let fieldsCount ← Uint16 (← sliceTo buf 2)
  let (fields, r) ←
    readMany (fun r => ReadField constantPool r (List.replicate 8 0)) fieldsCount r
  let (buf, r) ← ReadSectionTo r buf 2
  let methodsCount ← Uint16 (← sliceTo buf 2)
  let (methods, r) ←
    readMany (fun r => ReadMethod constantPool r (List.replicate 8 0)) methodsCount r
  let (buf, r) ← ReadSectionTo r buf 2
  let attributesCount ← Uint16 (← sliceTo buf 2)
  let (attributes, _) ←
    readMany (fun r => ReadAttribute constantPool r (List.replicate 4 0)) attributesCount r
  pure ⟨version, constantPool, interfaces, fields, methods, attributes, accessFlags,
    thisClass, superClass⟩

/-- The function `NewJavaClass`. The part after the constant pool is
`decodeAfterPool`, which continues with the same 4-byte buffer. -/
def NewJavaClass (javaClassFile : Reader) : Except Err JavaClass := do
  let (buf, r) ← ReadSection javaClassFile (List.replicate 4 0)
  let magicNumber ← Uint32 buf
  if magicNumber ≠ 0xCAFEBABE then throw Err.badMagic
  let (buf, r) ← ReadSection r buf
  let minorVersion ← Uint16 (← sliceTo buf 2)
  let majorVersion ← Uint16 (← sliceFrom buf 2)
  let version := ascii (toString majorVersion ++ "." ++ toString minorVersion)
  let (buf, r) ← ReadSectionTo r buf 2
  let constantPoolCount ← Uint16 (← sliceTo buf 2)
  let (constantPool, r) ←
    readMany (fun r => ReadConstantPool r (List.replicate 4 0)) (pred16 constantPoolCount) r
  decodeAfterPool version constantPool r buf

/-! ## jvm.go -/

/-- The type `StackType`. -/
inductive StackType where
  | StackTypeInt
  | StackTypeConstant
  | StackTypeStaticClass
  deriving DecidableEq, Repr

/-- The dynamic values stored in `StackData.Data`: `nil` (the zero value of a
fresh local), an `int32`, a `uint16` pool index, or a string. -/
inductive StackValue where
  | nil
  | int32 (v : Int)
  | uint16 (v : Nat)
  | string (s : List Byte)
  deriving DecidableEq, Repr

/-- The struct `StackData`; `Typ` is its field `Type`. -/
structure StackData where
  Typ : StackType
  Data : StackValue
  deriving DecidableEq, Repr

/-- The struct `Jvm`. -/
structure Jvm where
  Class : JavaClass

/-- The messages written to the standard error stream. -/
inductive Diag where
  /-- `At instruction 0x%X expected stack value of type int`. -/
  | expectedStackInt (opcode : Byte)
  /-- `Expected value type int`. -/
  | expectedInt
  /-- `Unsupported static class %s method %s`. -/
  | unsupportedStatic (className methodName : List Byte)
  /-- `expected two arguments in class %s on method %s, found %d`. -/
  | expectedTwoArguments (className methodName : List Byte) (found : Nat)
  /-- `expected %s class, found %s`. -/
  | expectedClass (found : List Byte)
  /-- `Unsupported class %s method %s`. -/
  | unsupportedMethod (className methodName : List Byte)
  /-- `opcode 0x%02X not supported`. -/
  | opcodeNotSupported (opcode : Byte)
  deriving DecidableEq, Repr

/-- The variables of `RunCodeAttr` together with what it has written so far:
`out` holds the lines printed on standard output, `diag` the messages printed
on standard error, oldest first. The stack grows at the end of the list, as
the Go slice does. -/
structure Machine where
  pc : Nat
  stack : List StackData
  locals : List StackData
  out : List (List Byte)
  diag : List Diag
  deriving DecidableEq, Repr

/-- The index expression `code[pc]`. -/
def codeAt (code : List Byte) (pc : Nat) : Except Err Byte :=
  match code[pc]? with
  | some b => .ok b
  | none => .error .panic

/-- The index expression `s[i]` on stack or locals. -/
def slot (s : List StackData) (i : Nat) : Except Err StackData :=
  match s[i]? with
  | some v => .ok v
  | none => .error .panic

/-- The expression `stack[len(stack)-k]` for `k` = 1 or 2: the index is
negative, and the access panics, when the stack has fewer than `k` values. -/
def fromTop (stack : List StackData) (k : Nat) : Except Err StackData :=
  if stack.length < k then .error .panic else slot stack (stack.length - k)

/-- The type assertion `v.Data.(int32)`. -/
def asInt32 (v : StackData) : Except Err Int :=
  match v.Data with
  | .int32 x => .ok x
  | _ => .error .panic

/-- The lines shared by getstatic and invokevirtual: from a class index and a
name-and-type index to the class name and the member name. -/
def resolveNames (pool : List ConstantInfo) (classIndex nameAndTypeIndex : Nat) :
    Except Err (List Byte × List Byte) := do
  let nameIndex ← match pool[pred16 classIndex]? with
    | some ⟨_, .ConstantClass n⟩ => pure n
    | _ => throw Err.panic
  let className ← poolUtf8 pool nameIndex
  let methodIndex ← match pool[pred16 nameAndTypeIndex]? with
    | some ⟨_, .ConstantNameAndType n _⟩ => pure n
    | _ => throw Err.panic
  let methodName ← poolUtf8 pool methodIndex
  pure (className, methodName)

/-- The resolution done by getstatic: `ConstantPool[index-1].Data` must hold a
`ConstantFieldRef`. -/
def resolveFieldRef (pool : List ConstantInfo) (index : Nat) :
    Except Err (List Byte × List Byte) :=
  match pool[pred16 index]? with
  | some ⟨_, .ConstantFieldRef c n⟩ => resolveNames pool c n
  | _ => .error .panic

/-- The resolution done by invokevirtual: `ConstantPool[index-1].Data` must
hold a `*ConstantMethodRef`. -/
def resolveMethodRef (pool : List ConstantInfo) (index : Nat) :
    Except Err (List Byte × List Byte) :=
  match pool[pred16 index]? with
  | some ⟨_, .ConstantMethodRefPtr c n⟩ => resolveNames pool c n
  | _ => .error .panic

/-- The text `fmt.Println` writes for an `int32`, without the newline. -/
def decimal (v : Int) : List Byte := ascii (toString v)

/-- The body of `istore_1` / `istore_2` for local `n`. -/
def istore (m : Machine) (opcode : Byte) (n : Nat) : Except Err Machine := do
  let v ← fromTop m.stack 1
  if v.Typ ≠ .StackTypeInt then
    pure { m with diag := m.diag ++ [.expectedStackInt opcode] }
  else if n < m.locals.length then
    pure { m with locals := m.locals.set n v, stack := m.stack.take (m.stack.length - 1) }
  else throw Err.panic

/-- The body of `iload_1` / `iload_2` / `iload_3` for local `n`. -/
def iload (m : Machine) (n : Nat) : Except Err Machine := do
  let v ← slot m.locals n
  if v.Typ ≠ .StackTypeInt then
    pure { m with diag := m.diag ++ [.expectedInt] }
  else
    pure { m with stack := m.stack ++ [⟨.StackTypeInt, v.Data⟩] }

/-- The body of `iadd` / `imul` with the `int32` operation `op`. -/
def arith (m : Machine) (opcode : Byte) (op : Int → Int → Int) : Except Err Machine := do
  let v1 ← fromTop m.stack 1
  let v2 ← fromTop m.stack 2
  let stack := m.stack.take (m.stack.length - 2)
  let diag :=
    if v1.Typ ≠ .StackTypeInt ∧ v2.Typ ≠ .StackTypeInt then
      m.diag ++ [.expectedStackInt opcode]
    else m.diag
  let a ← asInt32 v1
  let b ← asInt32 v2
  pure { m with stack := stack ++ [⟨.StackTypeInt, .int32 (toInt32 (op a b))⟩], diag := diag }

/-- The body of getstatic once its two operand bytes have been read. -/
def getstatic (pool : List ConstantInfo) (m : Machine) (index : Nat) : Except Err Machine := do
  let (className, methodName) ← resolveFieldRef pool index
  if className = ascii "java/lang/System" ∧ methodName = ascii "out" then
    pure { m with stack := m.stack ++ [⟨.StackTypeStaticClass, .string (ascii "JavaPrintStream")⟩] }
  else
    pure { m with diag := m.diag ++ [.unsupportedStatic className methodName] }

/-- The `switch value.Type` of invokevirtual: what println writes for the
argument `value`. A constant is printed only when its tag is that of a string
constant; the `default` case, which comes before the int case in the source,
has an empty body. -/
def printValue (pool : List ConstantInfo) (m : Machine) (value : StackData) :
    Except Err Machine :=
  match value.Typ with
  | .StackTypeConstant => do
    let index ← match value.Data with
      | .uint16 i => pure i
      | _ => throw Err.panic
    let constant ← match pool[pred16 index]? with
      | some c => pure c
      | none => throw Err.panic
    if constant.Tag = ConstantStringTag then do
      let stringIndex ← match constant.Data with
        | .ConstantString i => pure i
        | _ => throw Err.panic
      let str ← poolUtf8 pool stringIndex
      pure { m with out := m.out ++ [str] }
    else pure m
  | .StackTypeInt => do
    let v ← asInt32 value
    pure { m with out := m.out ++ [decimal v] }
  | .StackTypeStaticClass => pure m

/-- The body of invokevirtual once its two operand bytes have been read. -/
def invokevirtual (pool : List ConstantInfo) (m : Machine) (index : Nat) :
    Except Err Machine := do
  let (className, methodName) ← resolveMethodRef pool index
  if className = ascii "java/io/PrintStream" ∧ methodName = ascii "println" then
    if m.stack.length < 2 then
      pure { m with diag := m.diag ++ [.expectedTwoArguments className methodName m.stack.length] }
    else do
      let value ← fromTop m.stack 1
      let cls ← fromTop m.stack 2
      let m := { m with stack := m.stack.take (m.stack.length - 2) }
      if cls.Typ = .StackTypeStaticClass then
        match cls.Data with
        | .string s =>
          if s ≠ ascii "JavaPrintStream" then
            pure { m with diag := m.diag ++ [.expectedClass s] }
          else printValue pool m value
        | _ => throw Err.panic
      else printValue pool m value
  else
    pure { m with diag := m.diag ++ [.unsupportedMethod className methodName] }

/-- The `switch code[pc]` of `RunCodeAttr`, entered with `opcode = code[pc]`.
A `break` inside a case leaves the `switch`, not the loop. -/
def dispatch (jvm : Jvm) (code : List Byte) (m : Machine) (opcode : Byte) :
    Except Err Machine :=
  match opcode.val with
  | 0x10 => do
    let m := { m with pc := m.pc + 1 }
    let b ← codeAt code m.pc
    pure { m with stack := m.stack ++ [⟨.StackTypeInt, .int32 b.val⟩] }
  | 0x3C => istore m opcode 1
  | 0x3D => istore m opcode 2
  | 0x03 => pure { m with stack := m.stack ++ [⟨.StackTypeInt, .int32 0⟩] }
  | 0x04 => pure { m with stack := m.stack ++ [⟨.StackTypeInt, .int32 1⟩] }
  | 0x05 => pure { m with stack := m.stack ++ [⟨.StackTypeInt, .int32 2⟩] }
  | 0x06 => pure { m with stack := m.stack ++ [⟨.StackTypeInt, .int32 3⟩] }
  | 0x60 => arith m opcode (fun a b => a + b)
  | 0x68 => arith m opcode (fun a b => a * b)
  | 0xB2 => do
    let m := { m with pc := m.pc + 1 }
    let indexByte1 ← codeAt code m.pc
    let m := { m with pc := m.pc + 1 }
    let indexByte2 ← codeAt code m.pc
    getstatic jvm.Class.ConstantPool m (indexByte1.val * 256 + indexByte2.val)
  | 0x12 => do
    let m := { m with pc := m.pc + 1 }
    let index ← codeAt code m.pc
    pure { m with stack := m.stack ++ [⟨.StackTypeConstant, .uint16 index.val⟩] }
  | 0x1B => iload m 1
  | 0x1C => iload m 2
  | 0x1D => iload m 3
  | 0x84 => do
    let m := { m with pc := m.pc + 1 }
    let index ← codeAt code m.pc
    let m := { m with pc := m.pc + 1 }
    let v ← codeAt code m.pc
    let l ← slot m.locals index.val
    if l.Typ ≠ .StackTypeInt then
      pure { m with diag := m.diag ++ [.expectedInt] }
    else do
      let x ← asInt32 l
      pure { m with locals := m.locals.set index.val ⟨l.Typ, .int32 (toInt32 (x + v.val))⟩ }
  | 0xB6 => do
    let m := { m with pc := m.pc + 1 }
    let indexByte1 ← codeAt code m.pc
    let m := { m with pc := m.pc + 1 }
    let indexByte2 ← codeAt code m.pc
    invokevirtual jvm.Class.ConstantPool m (indexByte1.val * 256 + indexByte2.val)
  | 0xB1 => pure m
  | _ => pure { m with diag := m.diag ++ [.opcodeNotSupported opcode] }

/-- One iteration of the loop of `RunCodeAttr`: the `switch` on `code[pc]`
followed by `pc += 1`, which every case that does not panic reaches. -/
def step (jvm : Jvm) (code : List Byte) (m : Machine) : Except Err Machine := do
  let opcode ← codeAt code m.pc
  let m ← dispatch jvm code m opcode
  pure { m with pc := m.pc + 1 }

/-- The loop `for pc < len(code)` of `RunCodeAttr`, for at most `n`
iterations. -/
def runLoop (jvm : Jvm) (code : List Byte) : Nat → Machine → Except Err Machine
  | 0, m => if m.pc < code.length then .error .fuel else .ok m
  | n + 1, m =>
    if m.pc < code.length then do
      let m ← step jvm code m
      runLoop jvm code n m
    else .ok m

/-- The function `RunCodeAttr`: `pc` starts at 0, the stack empty, and the
locals are `MaxLocals` zero values of `StackData` (type 0, which is
`StackTypeInt`, and a nil `Data`). The loop is given as many iterations as the
code has bytes. The result is the machine when the loop ends. -/
def RunCodeAttr (jvm : Jvm) (codeAttr : CodeAttribute) : Except Err Machine :=
  runLoop jvm codeAttr.Code codeAttr.Code.length
    ⟨0, [], List.replicate codeAttr.MaxLocals ⟨.StackTypeInt, .nil⟩, [], []⟩

/-! ## Example inputs -/

/-- A class with an empty constant pool and no members. -/
def emptyClass : JavaClass := ⟨[], [], [], [], [], [], 0, 0, 0⟩

/-- A constant pool in which entry 1 is the field `java/lang/System.out` and
entry 7 is the method `java/io/PrintStream.println`. -/
def printlnPool : List ConstantInfo :=
  [⟨9, .ConstantFieldRef 2 3⟩, ⟨7, .ConstantClass 4⟩, ⟨12, .ConstantNameAndType 5 6⟩,
   ⟨1, .ConstantUtf8 (ascii "java/lang/System")⟩, ⟨1, .ConstantUtf8 (ascii "out")⟩,
   ⟨1, .ConstantUtf8 (ascii "Ljava/io/PrintStream;")⟩,
   ⟨10, .ConstantMethodRefPtr 8 9⟩, ⟨7, .ConstantClass 10⟩, ⟨12, .ConstantNameAndType 11 12⟩,
   ⟨1, .ConstantUtf8 (ascii "java/io/PrintStream")⟩, ⟨1, .ConstantUtf8 (ascii "println")⟩,
   ⟨1, .ConstantUtf8 (ascii "(I)V")⟩]

/-- A class whose constant pool is `printlnPool`. -/
def printlnClass : JavaClass := { emptyClass with ConstantPool := printlnPool }

/-! ## Predicates used in the statements about the interpreter -/

/-- An outcome of an instruction body started in `m`: a panic, or a machine
whose `pc` is that of `m`. -/
def KeepsPc (m : Machine) (r : Except Err Machine) : Prop :=
  r = .error .panic ∨ ∃ m', r = .ok m' ∧ m'.pc = m.pc

/-- An outcome of the `switch` started in `m`: a panic, or a machine whose
`pc` has advanced by at most 2 (the operand bytes). -/
def Advances (m : Machine) (r : Except Err Machine) : Prop :=
  r = .error .panic ∨ ∃ m', r = .ok m' ∧ m.pc ≤ m'.pc ∧ m'.pc ≤ m.pc + 2

/-- The `uint16` operand of the instruction at `pc`: the two bytes after the
opcode, high byte first. -/
def operand16 (code : List Byte) (pc : Nat) : Nat :=
  (code.getD (pc + 1) 0).val * 256 + (code.getD (pc + 2) 0).val

/-- What println needs of its argument in order not to panic: an Int-typed
value holds an `int32`; a Constant-typed value holds a `uint16` index of an
existing pool entry, and when that entry has the string tag it holds a
`ConstantString` whose index resolves to text. -/
def Printable (pool : List ConstantInfo) (value : StackData) : Prop :=
  match value.Typ with
  | .StackTypeInt => ∃ x, value.Data = .int32 x
  | .StackTypeConstant => ∃ i c, value.Data = .uint16 i ∧ pool[pred16 i]? = some c ∧
      (c.Tag = ConstantStringTag →
        ∃ si s, c.Data = .ConstantString si ∧ poolUtf8 pool si = .ok s)
  | .StackTypeStaticClass => True

/-- The instruction at `m.pc` finds what it accesses: its operand bytes inside
the code, the local it addresses inside the locals, the stack values it reads,
pool entries of the asserted kinds, and `int32` data where it asserts one. -/
def Ready (jvm : Jvm) (code : List Byte) (m : Machine) : Prop :=
  match code[m.pc]? with
  | none => False
  | some opcode =>
    match opcode.val with
    | 0x10 => m.pc + 1 < code.length
    | 0x12 => m.pc + 1 < code.length
    | 0x3C => m.stack ≠ [] ∧ 1 < m.locals.length
    | 0x3D => m.stack ≠ [] ∧ 2 < m.locals.length
    | 0x60 => ∃ s t2 b t1 a, m.stack = s ++ [⟨t2, .int32 b⟩, ⟨t1, .int32 a⟩]
    | 0x68 => ∃ s t2 b t1 a, m.stack = s ++ [⟨t2, .int32 b⟩, ⟨t1, .int32 a⟩]
    | 0x1B => 1 < m.locals.length
    | 0x1C => 2 < m.locals.length
    | 0x1D => 3 < m.locals.length
    | 0x84 => m.pc + 2 < code.length ∧
        ∃ l, m.locals[(code.getD (m.pc + 1) 0).val]? = some l ∧
          (l.Typ = .StackTypeInt → ∃ x, l.Data = .int32 x)
    | 0xB2 => m.pc + 2 < code.length ∧
        ∃ p, resolveFieldRef jvm.Class.ConstantPool (operand16 code m.pc) = .ok p
    | 0xB6 => m.pc + 2 < code.length ∧
        ∃ p, resolveMethodRef jvm.Class.ConstantPool (operand16 code m.pc) = .ok p ∧
          (p = (ascii "java/io/PrintStream", ascii "println") →
            ∀ s cls value, m.stack = s ++ [cls, value] →
              (cls.Typ = .StackTypeStaticClass → ∃ t, cls.Data = .string t) ∧
              Printable jvm.Class.ConstantPool value)
    | _ => True

/-! ## Encodings used in the statements about the decoder -/

/-- Big-endian bytes of a `uint16`. -/
def be16 (n : Nat) : List Byte := [Fin.ofNat (n / 256), Fin.ofNat n]

/-- Big-endian bytes of a `uint32`. -/
def be32 (n : Nat) : List Byte :=
  [Fin.ofNat (n / 16777216), Fin.ofNat (n / 65536), Fin.ofNat (n / 256), Fin.ofNat n]

/-- The class-file encoding of a constant-pool entry: the tag byte, then the
payload of the entry's kind, big-endian (two `u16` indices, one `u16` index,
the 4 bytes of an `i32` in two's complement, the 8 bytes of an `i64`, the bit
pattern of a float, a `u16` byte length followed by the bytes of the text, a
kind byte and a `u16` index). -/
def encodeConstant : ConstantInfo → List Byte
  | ⟨tag, .nil⟩ => [tag]
  | ⟨tag, .ConstantMethodRefPtr c n⟩ => tag :: (be16 c ++ be16 n)
  | ⟨tag, .ConstantClass n⟩ => tag :: be16 n
  | ⟨tag, .ConstantDouble v⟩ => tag :: (be32 (v.bits / 4294967296) ++ be32 (v.bits % 4294967296))
  | ⟨tag, .ConstantFieldRef c n⟩ => tag :: (be16 c ++ be16 n)
  | ⟨tag, .ConstantFloat v⟩ => tag :: be32 v.bits
  | ⟨tag, .ConstantInteger v⟩ => tag :: be32 (v % 4294967296).toNat
  | ⟨tag, .ConstantInterfaceMethodRef c n⟩ => tag :: (be16 c ++ be16 n)
  | ⟨tag, .ConstantInvokeDynamic b n⟩ => tag :: (be16 b ++ be16 n)
  | ⟨tag, .ConstantLong v⟩ =>
    tag :: (be32 ((v % 18446744073709551616).toNat / 4294967296)
      ++ be32 ((v % 18446744073709551616).toNat % 4294967296))
  | ⟨tag, .ConstantMethodHandle k i⟩ => tag :: k :: be16 i
  | ⟨tag, .ConstantMethodType d⟩ => tag :: be16 d
  | ⟨tag, .ConstantNameAndType n d⟩ => tag :: (be16 n ++ be16 d)
  | ⟨tag, .ConstantString i⟩ => tag :: be16 i
  | ⟨tag, .ConstantUtf8 s⟩ => tag :: (be16 s.length ++ s)

/-- A constant value of one of the kinds Class, FieldRef, MethodRef,
InterfaceMethodRef, StringRef, Integer, NameAndType, Utf8, MethodHandle,
MethodType, InvokeDynamic: the tag is that of the kind, every index is a
`u16`, the integer an `i32`, the text shorter than 65536 bytes. -/
def IsPlainConstant : ConstantInfo → Prop
  | ⟨tag, .ConstantMethodRefPtr c n⟩ => tag = ConstantMethodRefTag ∧ c < 65536 ∧ n < 65536
  | ⟨tag, .ConstantClass n⟩ => tag = ConstantClassTag ∧ n < 65536
  | ⟨tag, .ConstantFieldRef c n⟩ => tag = ConstantFieldRefTag ∧ c < 65536 ∧ n < 65536
  | ⟨tag, .ConstantInteger v⟩ => tag = ConstantIntegerTag ∧ -2147483648 ≤ v ∧ v < 2147483648
  | ⟨tag, .ConstantInterfaceMethodRef c n⟩ =>
    tag = ConstantInterfaceMethodRefTag ∧ c < 65536 ∧ n < 65536
  | ⟨tag, .ConstantInvokeDynamic b n⟩ => tag = ConstantInvokeDynamicTag ∧ b < 65536 ∧ n < 65536
  | ⟨tag, .ConstantMethodHandle _ i⟩ => tag = ConstantMethodHandleTag ∧ i < 65536
  | ⟨tag, .ConstantMethodType d⟩ => tag = ConstantMethodTypeTag ∧ d < 65536
  | ⟨tag, .ConstantNameAndType n d⟩ => tag = ConstantNameAndTypeTag ∧ n < 65536 ∧ d < 65536
  | ⟨tag, .ConstantString i⟩ => tag = ConstantStringTag ∧ i < 65536
  | ⟨tag, .ConstantUtf8 s⟩ => tag = ConstantUtf8Tag ∧ s.length < 65536
  | _ => False

/-- The reader as its next read of fewer than `defaultBufSize` bytes finds it:
a reader with bytes in the buffer is left as it is, and a reader with an empty
buffer has taken the next `defaultBufSize` bytes of the source (or all of
them, when fewer are left) into the buffer. Every reader that
`bufio.NewReader` has just made has an empty buffer. -/
def Reader.fill (r : Reader) : Reader :=
  if r.buf.length = 0 then ⟨r.rd.take defaultBufSize, r.rd.drop defaultBufSize⟩ else r

/-- The bytes of an attribute record: `u16` name index, `u32` byte length,
then the payload. -/
def attributeRecord (nameIndex : Nat) (payload : List Byte) : List Byte :=
  be16 nameIndex ++ (be32 payload.length ++ payload)

/-- The first ten bytes of a class file: the magic number, the minor and major
version and the constant-pool count. -/
def classHeader (minor major count : Nat) : List Byte :=
  [0xCA, 0xFE, 0xBA, 0xBE] ++ (be16 minor ++ (be16 major ++ be16 count))

/-- A constant pool naming the attributes Code, LineNumberTable,
StackMapTable, Signature and SourceFile at indices 1 to 5, followed by the
text `A.java` at index 6. -/
def attributePool : List ConstantInfo :=
  [⟨1, .ConstantUtf8 CodeAttr⟩, ⟨1, .ConstantUtf8 LineNumberTableAttr⟩,
   ⟨1, .ConstantUtf8 StackMapTableAttr⟩, ⟨1, .ConstantUtf8 SignatureAttr⟩,
   ⟨1, .ConstantUtf8 SourceFileAttr⟩, ⟨1, .ConstantUtf8 (ascii "A.java")⟩]

/-- A Code attribute record (name index 1, 32 payload bytes): max-stack 2,
max-locals 2, the one-byte code `return`, an empty exception table, and two
nested attributes: a LineNumberTable (name index 2) with the entry (0, 7),
then a StackMapTable (name index 3) with a one-byte payload. -/
def codeWithTwoAttributes : List Byte :=
  [0, 1, 0, 0, 0, 32,
   0, 2, 0, 2, 0, 0, 0, 1, 0xB1, 0, 0, 0, 2,
   0, 2, 0, 0, 0, 6, 0, 1, 0, 0, 0, 7,
   0, 3, 0, 0, 0, 1, 0]

/-- A class file of 53 bytes: version 52.0, a pool of four entries (class #1
named by the text `A` at #2, class #3 named by `java/lang/Object` at #4),
flags 0x21, this class #1, super class #3, and no interfaces, fields, methods
or attributes. -/
def smallClassFile : List Byte :=
  [0xCA, 0xFE, 0xBA, 0xBE, 0, 0, 0, 52, 0, 5,
   7, 0, 2,
   1, 0, 1, 0x41,
   7, 0, 4,
   1, 0, 16] ++ ascii "java/lang/Object" ++
  [0, 0x21, 0, 1, 0, 3, 0, 0, 0, 0, 0, 0, 0, 0]

/-- The class that `smallClassFile` encodes. -/
def smallClass : JavaClass :=
  ⟨ascii "52.0",
   [⟨7, .ConstantClass 2⟩, ⟨1, .ConstantUtf8 (ascii "A")⟩, ⟨7, .ConstantClass 4⟩,
    ⟨1, .ConstantUtf8 (ascii "java/lang/Object")⟩],
   [], [], [], [], 0x21, 1, 3⟩

/-- The rational value of a finite `float32`. -/
def F32.toRat (f : F32) : ℚ :=
  (if f.bits / 2147483648 % 2 = 1 then -1 else 1) *
    (if f.bits / 8388608 % 256 = 0 then (f.bits % 8388608 : ℚ) * 2 ^ (-149 : ℤ)
     else ((8388608 + f.bits % 8388608 : ℕ) : ℚ) * 2 ^ ((f.bits / 8388608 % 256 : ℤ) - 150))

/-- The rational value of a finite `float64`. -/
def F64.toRat (f : F64) : ℚ :=
  (if f.bits / 9223372036854775808 % 2 = 1 then -1 else 1) *
    (if f.bits / 4503599627370496 % 2048 = 0 then
      (f.bits % 4503599627370496 : ℚ) * 2 ^ (-1074 : ℤ)
     else ((4503599627370496 + f.bits % 4503599627370496 : ℕ) : ℚ)
       * 2 ^ ((f.bits / 4503599627370496 % 2048 : ℤ) - 1075))

/-! ## Measure for the nesting of attributes -/

/-- The number of bytes of `l` other than zero. -/
def nonzeroCount (l : List Byte) : Nat := l.countP (fun b => b ≠ 0)

/-! ## descriptor.go -/

/-- The byte of an ASCII character literal of the source. -/
def chr (c : Char) : Byte := Fin.ofNat c.toNat

/-- The index expression `s[i]` on a string: panics when `i` is not below the
length. -/
def byteAt (s : List Byte) (i : Nat) : Except Err Byte :=
  match s[i]? with
  | some c => .ok c
  | none => .error .panic

/-- The slice expression `s[lo:hi]` on a string with `int` bounds: panics unless
`0 ≤ lo ≤ hi ≤ len(s)`. -/
def sliceRange (s : List Byte) (lo hi : Int) : Except Err (List Byte) :=
  if 0 ≤ lo ∧ lo ≤ hi ∧ hi ≤ s.length then .ok ((s.take hi.toNat).drop lo.toNat)
  else .error .panic

/-- The library function `strings.IndexByte`: the index of the first occurrence
of `c` in `s`, or `-1` when there is none. -/
def IndexByte : List Byte → Byte → Int
  | [], _ => -1
  | b :: s, c =>
    if b = c then 0
    else
      let i := IndexByte s c
      if i < 0 then -1 else i + 1

/-- The library function `strings.ReplaceAll` for one-byte `old` and `new`
strings, the only way the package calls it. -/
def ReplaceAll (s : List Byte) (old new : Byte) : List Byte :=
  s.map (fun b => if b = old then new else b)

/-- The library function `strings.Join`. -/
def Join : List (List Byte) → List Byte → List Byte
  | [], _ => []
  | [a], _ => a
  | a :: b :: rest, sep => a ++ sep ++ Join (b :: rest) sep

/-- The function `ParseBaseType`. -/
def ParseBaseType (c : Byte) : List Byte :=
  if c = chr 'B' then ascii "byte"
  else if c = chr 'C' then ascii "char"
  else if c = chr 'D' then ascii "double"
  else if c = chr 'F' then ascii "float"
  else if c = chr 'I' then ascii "int"
  else if c = chr 'J' then ascii "long"
  else if c = chr 'Z' then ascii "boolean"
  else if c = chr 'V' then ascii "void"
  else []

/-- The body of the function `ParseFieldType`; the result is the returned string
and the value of `*pos` after the call. The first argument bounds the depth of
the recursion on `[`; the Go function has no such bound. -/
def ParseFieldTypeFuel : Nat → List Byte → Nat → Except Err (List Byte × Nat)
  | 0, _, _ => .error .fuel
  | fuel + 1, descriptor, pos => do
    let bt := ParseBaseType (← byteAt descriptor pos)
    if bt.length ≠ 0 then
      pure (bt, pos)
    else if (← byteAt descriptor pos) = chr '[' then
      let (t, pos) ← ParseFieldTypeFuel fuel descriptor (pos + 1)
      pure (t ++ ascii "[]", pos)
    else if (← byteAt descriptor pos) = chr 'L' then
      let semiColPos := IndexByte (← sliceFrom descriptor pos) (chr ';')
      let t ← sliceRange descriptor (pos + 1) semiColPos
      pure (ReplaceAll t (chr '/') (chr '.'), pos)
    else
      pure ([], pos)

/-- The function `ParseFieldType`: its body with a recursion bound of one more
than the length of the descriptor, which is never exhausted
(`ParseFieldType_ne_fuel`). -/
def ParseFieldType (descriptor : List Byte) (pos : Nat) : Except Err (List Byte × Nat) :=
  ParseFieldTypeFuel (descriptor.length + 1) descriptor pos

/-- The parameter loop of `ParseDescriptor`, `for pos < len(params)`, from the
position `pos` with the types collected so far. The first argument bounds the
number of iterations. -/
def paramsLoop (params : List Byte) :
    Nat → Nat → List (List Byte) → Except Err (List (List Byte))
  | 0, pos, paramsTypes => if pos < params.length then .error .fuel else .ok paramsTypes
  | fuel + 1, pos, paramsTypes =>
    if pos < params.length then do
      let (t, pos) ← ParseFieldType params pos
      let pos := pos + 1
      if t.length = 0 then
        pure paramsTypes
      else
        paramsLoop params fuel pos (paramsTypes ++ [t])
    else
      pure paramsTypes

/-- The function `ParseDescriptor`. The parameter loop runs with a bound of
`len(params)` iterations, which is never exhausted (`ParseDescriptor_ne_fuel`). -/
def ParseDescriptor (descriptor name : List Byte) : Except Err (List Byte) := do
  let isMethod := (ascii "(").isPrefixOf descriptor
  if isMethod then
    let returnType ← byteAt descriptor (descriptor.length - 1)
    let params ← sliceRange descriptor 1 ((descriptor.length : Int) - 2)
    let paramsTypes ←
      if params.length ≠ 0 then paramsLoop params params.length 0 [] else pure []
    pure (ParseBaseType returnType ++ ascii " " ++ name ++ ascii "("
      ++ Join paramsTypes (ascii ", ") ++ ascii ")")
  else
    let (t, _) ← ParseFieldType descriptor 0
    pure (t ++ ascii " " ++ name)

/-! ## Names and indices used in the statements about attributes -/

/-- The payload of a LineNumberTable attribute: the `u16` entry count, then for
each entry its start-pc and its line number, each a big-endian `u16`. -/
def lineNumberPayload (entries : List LineNumberTableAttributeData) : List Byte :=
  be16 entries.length ++ (entries.map (fun x => be16 x.StartPc ++ be16 x.LineNumber)).flatten

/-- What the loop of the LineNumberTable case stores at position `i`, given the
encoded entries: the offsets `(i*4)+2` and `(i*4)+2+2` are computed in `uint16`,
so they address entry `i mod 16384`, and the second one is 0, the offset of the
entry count, when `i mod 16384 = 16383`. -/
def lineNumberEntryRead (entries : List LineNumberTableAttributeData) (i : Nat) :
    LineNumberTableAttributeData :=
  ⟨(entries[i % 16384]?.getD ⟨0, 0⟩).StartPc,
    if i % 16384 = 16383 then entries.length
    else (entries[i % 16384]?.getD ⟨0, 0⟩).LineNumber⟩

/-! ## Names used in the statements about descriptors -/

/-- The base-type letters of a descriptor, each with its primitive name. -/
def baseTypeNames : List (Byte × List Byte) :=
  [(chr 'B', ascii "byte"), (chr 'C', ascii "char"), (chr 'D', ascii "double"),
   (chr 'F', ascii "float"), (chr 'I', ascii "int"), (chr 'J', ascii "long"),
   (chr 'Z', ascii "boolean"), (chr 'V', ascii "void")]

/-! ## Example inputs for the statements about single instructions -/

/-- A constant pool in which the field at entry 1 and the method at entry 7
both resolve to the member `err` of the class `java/lang/System`. -/
def errPool : List ConstantInfo :=
  [⟨9, .ConstantFieldRef 2 3⟩, ⟨7, .ConstantClass 4⟩, ⟨12, .ConstantNameAndType 5 6⟩,
   ⟨1, .ConstantUtf8 (ascii "java/lang/System")⟩, ⟨1, .ConstantUtf8 (ascii "err")⟩,
   ⟨1, .ConstantUtf8 (ascii "Ljava/io/PrintStream;")⟩,
   ⟨10, .ConstantMethodRefPtr 2 3⟩]

/-- A class whose constant pool is `errPool`. -/
def errClass : JavaClass := { emptyClass with ConstantPool := errPool }

/-- The opcode bytes that have a case in the `switch` of `RunCodeAttr`. -/
def recognizedOpcodes : List Nat :=
  [0x03, 0x04, 0x05, 0x06, 0x10, 0x12, 0x1B, 0x1C, 0x1D, 0x3C, 0x3D, 0x60, 0x68, 0x84, 0xB1,
   0xB2, 0xB6]

/-- The pool `printlnPool` followed by a string constant at entry 13 whose text,
at entry 14, is `hello`. -/
def helloPool : List ConstantInfo :=
  printlnPool ++ [⟨8, .ConstantString 14⟩, ⟨1, .ConstantUtf8 (ascii "hello")⟩]

/-- A class whose constant pool is `helloPool`. -/
def helloClass : JavaClass := { emptyClass with ConstantPool := helloPool }

/-! ## Lemmas about the interpreter -/

theorem codeAt_cases (code : List Byte) (pc : Nat) :
    (codeAt code pc = .error .panic ∧ code.length ≤ pc) ∨
      ∃ b, codeAt code pc = .ok b ∧ code[pc]? = some b ∧ pc < code.length := by
  unfold codeAt
  cases h : code[pc]? with
  | none => left; exact ⟨rfl, by simpa using h⟩
  | some b =>
    right
    exact ⟨b, rfl, rfl, by
      rcases Nat.lt_or_ge pc code.length with h' | h'
      · exact h'
      · rw [List.getElem?_eq_none h'] at h; cases h⟩

theorem slot_cases (s : List StackData) (i : Nat) :
    slot s i = .error .panic ∨ ∃ v, slot s i = .ok v := by
  unfold slot
  cases s[i]? with
  | none => left; rfl
  | some v => right; exact ⟨v, rfl⟩

theorem fromTop_cases (s : List StackData) (k : Nat) :
    fromTop s k = .error .panic ∨ ∃ v, fromTop s k = .ok v := by
  unfold fromTop
  split
  · left; rfl
  · exact slot_cases _ _

theorem asInt32_cases (v : StackData) :
    asInt32 v = .error .panic ∨ ∃ x, asInt32 v = .ok x := by
  unfold asInt32
  cases v.Data <;> simp

theorem poolUtf8_cases (pool : List ConstantInfo) (i : Nat) :
    poolUtf8 pool i = .error .panic ∨ ∃ s, poolUtf8 pool i = .ok s := by
  unfold poolUtf8
  split <;> simp

theorem istore_keepsPc (m : Machine) (opcode : Byte) (n : Nat) : KeepsPc m (istore m opcode n) := by
  unfold istore KeepsPc
  rcases fromTop_cases m.stack 1 with h | ⟨v, h⟩
  · left; simp [h, bind, Except.bind]
  · simp only [h, bind, Except.bind, pure, Except.pure]
    split_ifs <;> simp [throw, throwThe, MonadExceptOf.throw]

theorem iload_keepsPc (m : Machine) (n : Nat) : KeepsPc m (iload m n) := by
  unfold iload KeepsPc
  rcases slot_cases m.locals n with h | ⟨v, h⟩
  · left; simp [h, bind, Except.bind]
  · simp only [h, bind, Except.bind, pure, Except.pure]
    split_ifs <;> simp

theorem arith_keepsPc (m : Machine) (opcode : Byte) (op : Int → Int → Int) :
    KeepsPc m (arith m opcode op) := by
  unfold arith KeepsPc
  rcases fromTop_cases m.stack 1 with h | ⟨v1, h⟩
  · left; simp [h, bind, Except.bind]
  rcases fromTop_cases m.stack 2 with h2 | ⟨v2, h2⟩
  · left; simp [h, h2, bind, Except.bind]
  rcases asInt32_cases v1 with h3 | ⟨a, h3⟩
  · left; simp [h, h2, h3, bind, Except.bind]
  rcases asInt32_cases v2 with h4 | ⟨b, h4⟩
  · left; simp [h, h2, h3, h4, bind, Except.bind]
  · right; simp [h, h2, h3, h4, bind, Except.bind, pure, Except.pure]

theorem resolveNames_cases (pool : List ConstantInfo) (c n : Nat) :
    resolveNames pool c n = .error .panic ∨ ∃ p, resolveNames pool c n = .ok p := by
  unfold resolveNames
  cases h1 : pool[pred16 c]? with
  | none => left; simp [bind, Except.bind, throw, throwThe, MonadExceptOf.throw]
  | some e1 =>
    obtain ⟨t1, d1⟩ := e1
    cases d1 <;> try (left; simp [bind, Except.bind, throw, throwThe, MonadExceptOf.throw]; done)
    rename_i ni
    rcases poolUtf8_cases pool ni with h2 | ⟨cn, h2⟩
    · left; simp [h2, bind, Except.bind, pure, Except.pure]
    cases h3 : pool[pred16 n]? with
    | none => left; simp [h2, bind, Except.bind, pure, Except.pure, throw, throwThe, MonadExceptOf.throw]
    | some e3 =>
      obtain ⟨t3, d3⟩ := e3
      cases d3 <;> try (left; simp [h2, bind, Except.bind, pure, Except.pure, throw, throwThe, MonadExceptOf.throw]; done)
      rename_i mi di
      rcases poolUtf8_cases pool mi with h4 | ⟨mn, h4⟩
      · left; simp [h2, h4, bind, Except.bind, pure, Except.pure]
      · right; simp [h2, h4, bind, Except.bind, pure, Except.pure]

theorem resolveFieldRef_cases (pool : List ConstantInfo) (i : Nat) :
    resolveFieldRef pool i = .error .panic ∨ ∃ p, resolveFieldRef pool i = .ok p := by
  unfold resolveFieldRef
  split
  · exact resolveNames_cases _ _ _
  · left; rfl

theorem resolveMethodRef_cases (pool : List ConstantInfo) (i : Nat) :
    resolveMethodRef pool i = .error .panic ∨ ∃ p, resolveMethodRef pool i = .ok p := by
  unfold resolveMethodRef
  split
  · exact resolveNames_cases _ _ _
  · left; rfl

theorem getstatic_keepsPc (pool : List ConstantInfo) (m : Machine) (i : Nat) :
    KeepsPc m (getstatic pool m i) := by
  unfold getstatic KeepsPc
  rcases resolveFieldRef_cases pool i with h | ⟨⟨c, n⟩, h⟩
  · left; simp [h, bind, Except.bind]
  · simp only [h, bind, Except.bind, pure, Except.pure]
    split_ifs <;> simp

theorem printValue_keepsPc (pool : List ConstantInfo) (m : Machine) (v : StackData) :
    KeepsPc m (printValue pool m v) := by
  unfold printValue KeepsPc
  split
  · cases hd : v.Data <;>
      simp only [bind, Except.bind, pure, Except.pure, throw, throwThe, MonadExceptOf.throw,
        true_or]
    rename_i i
    cases hp : pool[pred16 i]? with
    | none => simp
    | some c =>
      simp only []
      split_ifs
      · cases hc : c.Data <;> simp only [true_or]
        rename_i si
        rcases poolUtf8_cases pool si with h | ⟨s, h⟩
        · simp [h]
        · simp [h]
      · simp
  · rcases asInt32_cases v with h | ⟨x, h⟩
    · left; simp [h, bind, Except.bind]
    · right; simp [h, bind, Except.bind, pure, Except.pure]
  · right; exact ⟨m, rfl, rfl⟩

theorem invokevirtual_keepsPc (pool : List ConstantInfo) (m : Machine) (i : Nat) :
    KeepsPc m (invokevirtual pool m i) := by
  unfold invokevirtual
  rcases resolveMethodRef_cases pool i with h | ⟨⟨c, n⟩, h⟩
  · left; simp [h, bind, Except.bind]
  · simp only [h, bind, Except.bind, pure, Except.pure]
    split_ifs with h1 h2
    · right; simp
    · rcases fromTop_cases m.stack 1 with h3 | ⟨v, h3⟩
      · left; simp [h3]
      rcases fromTop_cases m.stack 2 with h4 | ⟨w, h4⟩
      · left; simp [h3, h4]
      simp only [h3, h4]
      split_ifs with h5
      · cases hw : w.Data <;>
          simp only [KeepsPc, throw, throwThe, MonadExceptOf.throw, true_or]
        split_ifs
        · right; simp
        · exact printValue_keepsPc pool _ v
      · exact printValue_keepsPc pool _ v
    · right; simp

theorem KeepsPc.advances {m m0 : Machine} {r : Except Err Machine} (h : KeepsPc m r)
    (h1 : m0.pc ≤ m.pc) (h2 : m.pc ≤ m0.pc + 2) : Advances m0 r := by
  rcases h with h | ⟨m', h, hpc⟩
  · exact Or.inl h
  · exact Or.inr ⟨m', h, by omega, by omega⟩

theorem dispatch_advances (jvm : Jvm) (code : List Byte) (m : Machine) (opcode : Byte) :
    Advances m (dispatch jvm code m opcode) := by
  unfold dispatch
  split
  · rcases codeAt_cases code (m.pc + 1) with ⟨h, _⟩ | ⟨b, h, _⟩
    · left; simp [h, bind, Except.bind]
    · right; simp [h, bind, Except.bind, pure, Except.pure]
  · exact (istore_keepsPc m opcode 1).advances (Nat.le_refl _) (by omega)
  · exact (istore_keepsPc m opcode 2).advances (Nat.le_refl _) (by omega)
  · right; simp [pure, Except.pure]
  · right; simp [pure, Except.pure]
  · right; simp [pure, Except.pure]
  · right; simp [pure, Except.pure]
  · exact (arith_keepsPc m opcode _).advances (Nat.le_refl _) (by omega)
  · exact (arith_keepsPc m opcode _).advances (Nat.le_refl _) (by omega)
  · rcases codeAt_cases code (m.pc + 1) with ⟨h, _⟩ | ⟨b1, h, _⟩
    · left; simp [h, bind, Except.bind]
    rcases codeAt_cases code (m.pc + 1 + 1) with ⟨h', _⟩ | ⟨b2, h', _⟩
    · left; simp [h, h', bind, Except.bind]
    simp only [h, h', bind, Except.bind]
    exact (getstatic_keepsPc _ _ _).advances (by simp; omega) (by simp)
  · rcases codeAt_cases code (m.pc + 1) with ⟨h, _⟩ | ⟨b, h, _⟩
    · left; simp [h, bind, Except.bind]
    · right; simp [h, bind, Except.bind, pure, Except.pure]
  · exact (iload_keepsPc m 1).advances (Nat.le_refl _) (by omega)
  · exact (iload_keepsPc m 2).advances (Nat.le_refl _) (by omega)
  · exact (iload_keepsPc m 3).advances (Nat.le_refl _) (by omega)
  · rcases codeAt_cases code (m.pc + 1) with ⟨h, _⟩ | ⟨b1, h, _⟩
    · left; simp [h, bind, Except.bind]
    rcases codeAt_cases code (m.pc + 1 + 1) with ⟨h', _⟩ | ⟨b2, h', _⟩
    · left; simp [h, h', bind, Except.bind]
    rcases slot_cases m.locals b1.val with h3 | ⟨l, h3⟩
    · left; simp [h, h', h3, bind, Except.bind]
    simp only [h, h', h3, bind, Except.bind, pure, Except.pure]
    split_ifs
    · right; simp; omega
    · rcases asInt32_cases l with h4 | ⟨x, h4⟩
      · left; simp [h4]
      · right; simp [h4]; omega
  · rcases codeAt_cases code (m.pc + 1) with ⟨h, _⟩ | ⟨b1, h, _⟩
    · left; simp [h, bind, Except.bind]
    rcases codeAt_cases code (m.pc + 1 + 1) with ⟨h', _⟩ | ⟨b2, h', _⟩
    · left; simp [h, h', bind, Except.bind]
    simp only [h, h', bind, Except.bind]
    exact (invokevirtual_keepsPc _ _ _).advances (by simp; omega) (by simp)
  · right; simp [pure, Except.pure]
  · right; simp [pure, Except.pure]

theorem step_cases (jvm : Jvm) (code : List Byte) (m : Machine) :
    step jvm code m = .error .panic ∨
      ∃ m', step jvm code m = .ok m' ∧ m.pc + 1 ≤ m'.pc ∧ m'.pc ≤ m.pc + 3 := by
  unfold step
  rcases codeAt_cases code m.pc with ⟨h, _⟩ | ⟨b, h, _⟩
  · left; simp [h, bind, Except.bind]
  rcases dispatch_advances jvm code m b with h' | ⟨m', h', h1, h2⟩
  · left; simp [h, h', bind, Except.bind]
  · right
    exact ⟨{ m' with pc := m'.pc + 1 }, by simp [h, h', bind, Except.bind, pure, Except.pure],
      by simp; omega, by simp; omega⟩

theorem runLoop_cases (jvm : Jvm) (code : List Byte) (n : Nat) :
    ∀ m : Machine, code.length ≤ m.pc + n →
      runLoop jvm code n m = .error .panic ∨
        ∃ m', runLoop jvm code n m = .ok m' ∧ code.length ≤ m'.pc := by
  induction n with
  | zero =>
    intro m h
    right
    exact ⟨m, by simp [runLoop]; omega, by omega⟩
  | succ n ih =>
    intro m h
    by_cases hpc : m.pc < code.length
    · rcases step_cases jvm code m with hs | ⟨m', hs, h1, _⟩
      · left; simp [runLoop, hpc, hs, bind, Except.bind]
      · have := ih m' (by omega)
        simpa [runLoop, hpc, hs, bind, Except.bind] using this
    · right
      exact ⟨m, by simp [runLoop, hpc], by omega⟩

theorem fromTop_one (s : List StackData) (v : StackData) : fromTop (s ++ [v]) 1 = .ok v := by
  simp [fromTop, slot]

theorem fromTop_one_two (s : List StackData) (w v : StackData) :
    fromTop (s ++ [w, v]) 1 = .ok v := by
  have : s ++ [w, v] = (s ++ [w]) ++ [v] := by simp
  rw [this, fromTop_one]

theorem fromTop_two (s : List StackData) (w v : StackData) :
    fromTop (s ++ [w, v]) 2 = .ok w := by
  have h : (s ++ [w, v])[s.length]? = some w := by
    rw [List.getElem?_append_right (Nat.le_refl _)]; simp
  simp [fromTop, slot, h]

theorem codeAt_of_lt (code : List Byte) (pc : Nat) (h : pc < code.length) :
    codeAt code pc = .ok (code.getD pc 0) := by
  simp [codeAt, List.getD, List.getElem?_eq_getElem h]

theorem printValue_ok (pool : List ConstantInfo) (m : Machine) (value : StackData)
    (h : Printable pool value) : ∃ m', printValue pool m value = .ok m' := by
  unfold Printable at h
  unfold printValue
  split at h
  · rename_i ht
    obtain ⟨x, hx⟩ := h
    simp [ht, asInt32, hx, bind, Except.bind, pure, Except.pure]
  · rename_i ht
    obtain ⟨i, c, hd, hc, hs⟩ := h
    simp only [ht, hd, hc, bind, Except.bind, pure, Except.pure]
    split_ifs with htag
    · obtain ⟨si, s, h1, h2⟩ := hs htag
      simp [h1, h2]
    · simp
  · rename_i ht
    simp [ht, pure, Except.pure]

theorem istore_ok (m : Machine) (opcode : Byte) (n : Nat) (hs : m.stack ≠ [])
    (hn : n < m.locals.length) : ∃ m', istore m opcode n = .ok m' := by
  rcases List.eq_nil_or_concat m.stack with h | ⟨s, v, h⟩
  · exact absurd h hs
  · unfold istore
    rw [h, List.concat_eq_append, fromTop_one]
    simp only [bind, Except.bind, pure, Except.pure]
    split_ifs <;> simp

theorem iload_ok (m : Machine) (n : Nat) (hn : n < m.locals.length) :
    ∃ m', iload m n = .ok m' := by
  unfold iload
  simp only [slot, List.getElem?_eq_getElem hn, bind, Except.bind, pure, Except.pure]
  split_ifs <;> simp

theorem arith_ok (m : Machine) (opcode : Byte) (op : Int → Int → Int)
    (h : ∃ s t2 b t1 a, m.stack = s ++ [⟨t2, .int32 b⟩, ⟨t1, .int32 a⟩]) :
    ∃ m', arith m opcode op = .ok m' := by
  obtain ⟨s, t2, b, t1, a, h⟩ := h
  unfold arith
  rw [h, fromTop_one_two, fromTop_two]
  simp [asInt32, bind, Except.bind, pure, Except.pure]

theorem getstatic_ok (pool : List ConstantInfo) (m : Machine) (i : Nat)
    (p : List Byte × List Byte) (hp : resolveFieldRef pool i = .ok p) :
    ∃ m', getstatic pool m i = .ok m' := by
  unfold getstatic
  simp only [hp, bind, Except.bind, pure, Except.pure]
  split_ifs <;> simp

theorem invokevirtual_ok (pool : List ConstantInfo) (m : Machine) (i : Nat)
    (p : List Byte × List Byte) (hp : resolveMethodRef pool i = .ok p)
    (h : p = (ascii "java/io/PrintStream", ascii "println") →
      ∀ s cls value, m.stack = s ++ [cls, value] →
        (cls.Typ = .StackTypeStaticClass → ∃ t, cls.Data = .string t) ∧ Printable pool value) :
    ∃ m', invokevirtual pool m i = .ok m' := by
  obtain ⟨c, n⟩ := p
  unfold invokevirtual
  simp only [hp, bind, Except.bind, pure, Except.pure]
  split_ifs with h1 h2
  · simp
  · obtain ⟨s, cls, value, hst⟩ : ∃ s cls value, m.stack = s ++ [cls, value] := by
      rcases List.eq_nil_or_concat m.stack with h0 | ⟨s1, v, h0⟩
      · rw [h0] at h2; simp at h2
      rcases List.eq_nil_or_concat s1 with h0' | ⟨s2, w, h0'⟩
      · rw [h0, h0'] at h2; simp at h2
      · exact ⟨s2, w, v, by rw [h0, h0']; simp⟩
    obtain ⟨hcls, hval⟩ := h (by rw [h1.1, h1.2]) s cls value hst
    rw [hst, fromTop_one_two, fromTop_two]
    simp only []
    split_ifs with h5
    · obtain ⟨t, ht⟩ := hcls h5
      simp only [ht]
      split_ifs
      · simp
      · exact printValue_ok pool _ value hval
    · exact printValue_ok pool _ value hval
  · simp

theorem step_ok_of_ready (jvm : Jvm) (code : List Byte) (m : Machine)
    (h : Ready jvm code m) : ∃ m', step jvm code m = .ok m' := by
  unfold Ready at h
  cases hc : code[m.pc]? with
  | none => simp [hc] at h
  | some opcode =>
    simp only [hc] at h
    have hb : ∀ (r : Except Err Machine), (∃ m', r = .ok m') →
        ∃ m', (do let m ← r; pure { m with pc := m.pc + 1 } : Except Err Machine) = .ok m' := by
      rintro r ⟨m', rfl⟩
      exact ⟨_, rfl⟩
    unfold step
    simp only [codeAt, hc]
    apply hb
    unfold dispatch
    split at h
    all_goals rename_i hop
    all_goals try simp only [hop]
    · simp [codeAt_of_lt code _ h, bind, Except.bind, pure, Except.pure]
    · simp [codeAt_of_lt code _ h, bind, Except.bind, pure, Except.pure]
    · exact istore_ok m opcode 1 h.1 h.2
    · exact istore_ok m opcode 2 h.1 h.2
    · exact arith_ok m opcode _ h
    · exact arith_ok m opcode _ h
    · exact iload_ok m 1 h
    · exact iload_ok m 2 h
    · exact iload_ok m 3 h
    · obtain ⟨h1, l, hl, hx⟩ := h
      simp only [codeAt_of_lt code (m.pc + 1) (by omega),
        codeAt_of_lt code (m.pc + 1 + 1) (by omega), slot, hl, bind, Except.bind, pure,
        Except.pure]
      split_ifs with ht
      · simp
      · obtain ⟨x, hx⟩ := hx (by simpa using ht)
        simp [asInt32, hx]
    · obtain ⟨h1, p, hp⟩ := h
      simp only [codeAt_of_lt code (m.pc + 1) (by omega),
        codeAt_of_lt code (m.pc + 1 + 1) (by omega), bind, Except.bind]
      exact getstatic_ok _ _ _ p hp
    · obtain ⟨h1, p, hp, hpr⟩ := h
      simp only [codeAt_of_lt code (m.pc + 1) (by omega),
        codeAt_of_lt code (m.pc + 1 + 1) (by omega), bind, Except.bind]
      exact invokevirtual_ok _ _ _ p hp hpr
    · rename_i h1 h2 h3 h4 h5 h6 h7 h8 h9 h10 h11 h12
      split <;> first | contradiction | simp [pure, Except.pure]

theorem toInt32_small (x : Int) (h1 : -2147483648 ≤ x) (h2 : x < 2147483648) : toInt32 x = x := by
  unfold toInt32; omega

theorem runLoop_step (jvm : Jvm) (code : List Byte) (n : Nat) (m m' : Machine)
    (hpc : m.pc < code.length) (hs : step jvm code m = .ok m') :
    runLoop jvm code (n + 1) m = runLoop jvm code n m' := by
  simp [runLoop, hpc, hs, bind, Except.bind]

theorem runLoop_done (jvm : Jvm) (code : List Byte) (n : Nat) (m : Machine)
    (hpc : code.length ≤ m.pc) : runLoop jvm code n m = .ok m := by
  cases n <;> simp [runLoop, Nat.not_lt.mpr hpc]

theorem step_getstatic (jvm : Jvm) (code : List Byte) (hi lo : Byte) (m : Machine)
    (h0 : code[m.pc]? = some 0xB2) (h1 : code[m.pc + 1]? = some hi)
    (h2 : code[m.pc + 2]? = some lo) :
    step jvm code m =
      (getstatic jvm.Class.ConstantPool { m with pc := m.pc + 2 } (hi.val * 256 + lo.val)).bind
        (fun m => .ok { m with pc := m.pc + 1 }) := by
  simp only [step, dispatch, codeAt, h0, h1, h2, Nat.add_assoc, bind, Except.bind, pure, Except.pure]

theorem step_invokevirtual (jvm : Jvm) (code : List Byte) (hi lo : Byte) (m : Machine)
    (h0 : code[m.pc]? = some 0xB6) (h1 : code[m.pc + 1]? = some hi)
    (h2 : code[m.pc + 2]? = some lo) :
    step jvm code m =
      (invokevirtual jvm.Class.ConstantPool { m with pc := m.pc + 2 }
        (hi.val * 256 + lo.val)).bind (fun m => .ok { m with pc := m.pc + 1 }) := by
  simp only [step, dispatch, codeAt, h0, h1, h2, Nat.add_assoc, bind, Except.bind, pure, Except.pure]

/-- C1. For every class whose pool resolves the getstatic operand to
`java/lang/System.out` and the invokevirtual operand to
`java/io/PrintStream.println`, and every code attribute with at least two
locals whose code is iconst_2, iconst_3, imul, istore_1, getstatic, iload_1,
invokevirtual, return, `RunCodeAttr` ends normally with `pc` at the end of the
code, having printed exactly the line `6` and no diagnostic; the stack is empty
and local 1 holds the int 6. -/
theorem RunCodeAttr_scenario_prints_six (jvm : Jvm) (maxStack maxLocals codeLength : Nat)
    (exc : List ExceptionEntry) (attrs : List AttributeInfo) (hi lo hi2 lo2 : Byte)
    (hl : 2 ≤ maxLocals)
    (hf : resolveFieldRef jvm.Class.ConstantPool (hi.val * 256 + lo.val)
      = .ok (ascii "java/lang/System", ascii "out"))
    (hm : resolveMethodRef jvm.Class.ConstantPool (hi2.val * 256 + lo2.val)
      = .ok (ascii "java/io/PrintStream", ascii "println")) :
    RunCodeAttr jvm (.mk maxStack maxLocals codeLength
        [0x05, 0x06, 0x68, 0x3C, 0xB2, hi, lo, 0x1B, 0xB6, hi2, lo2, 0xB1] exc attrs)
      = .ok ⟨12, [], (List.replicate maxLocals ⟨.StackTypeInt, .nil⟩).set 1
          ⟨.StackTypeInt, .int32 6⟩, [ascii "6"], []⟩ := by
  obtain ⟨k, rfl⟩ : ∃ k, maxLocals = k + 2 := ⟨maxLocals - 2, by omega⟩
  have h6 : decimal 6 = ascii "6" := by decide
  simp only [RunCodeAttr, CodeAttribute.Code, CodeAttribute.MaxLocals, List.length_cons,
    List.length_nil, List.replicate_succ, List.set_cons_succ, List.set_cons_zero]
  generalize List.replicate k (⟨.StackTypeInt, .nil⟩ : StackData) = tl
  rw [runLoop_step jvm _ _ _ ⟨1, [⟨.StackTypeInt, .int32 2⟩],
      ⟨.StackTypeInt, .nil⟩ :: ⟨.StackTypeInt, .nil⟩ :: tl, [], []⟩ (by simp)
    (by simp [step, dispatch, codeAt, bind, Except.bind, pure, Except.pure])]
  rw [runLoop_step jvm _ _ _ ⟨2, [⟨.StackTypeInt, .int32 2⟩, ⟨.StackTypeInt, .int32 3⟩],
      ⟨.StackTypeInt, .nil⟩ :: ⟨.StackTypeInt, .nil⟩ :: tl, [], []⟩
    (by simp) (by simp [step, dispatch, codeAt, bind, Except.bind, pure, Except.pure])]
  rw [runLoop_step jvm _ _ _ ⟨3, [⟨.StackTypeInt, .int32 6⟩],
      ⟨.StackTypeInt, .nil⟩ :: ⟨.StackTypeInt, .nil⟩ :: tl, [], []⟩
    (by simp) (by simp [step, dispatch, codeAt, arith, fromTop, slot, asInt32, toInt32_small, bind,
      Except.bind, pure, Except.pure])]
  rw [runLoop_step jvm _ _ _ ⟨4, [], ⟨.StackTypeInt, .nil⟩ :: ⟨.StackTypeInt, .int32 6⟩ :: tl,
      [], []⟩
    (by simp) (by simp [step, dispatch, codeAt, istore, fromTop, slot, bind, Except.bind, pure,
      Except.pure])]
  rw [runLoop_step jvm _ _ _ ⟨7, [⟨.StackTypeStaticClass, .string (ascii "JavaPrintStream")⟩],
      ⟨.StackTypeInt, .nil⟩ :: ⟨.StackTypeInt, .int32 6⟩ :: tl, [], []⟩
    (by simp) (by rw [step_getstatic jvm _ hi lo _ rfl rfl rfl]; simp [getstatic, hf, bind, Except.bind, pure, Except.pure])]
  rw [runLoop_step jvm _ _ _ ⟨8, [⟨.StackTypeStaticClass, .string (ascii "JavaPrintStream")⟩,
      ⟨.StackTypeInt, .int32 6⟩],
      ⟨.StackTypeInt, .nil⟩ :: ⟨.StackTypeInt, .int32 6⟩ :: tl, [], []⟩
    (by simp) (by simp [step, dispatch, codeAt, iload, slot, bind, Except.bind, pure, Except.pure])]
  rw [runLoop_step jvm _ _ _ ⟨11, [],
      ⟨.StackTypeInt, .nil⟩ :: ⟨.StackTypeInt, .int32 6⟩ :: tl, [ascii "6"], []⟩
    (by simp) (by rw [step_invokevirtual jvm _ hi2 lo2 _ rfl rfl rfl]; simp [invokevirtual, printValue, fromTop, slot, asInt32, hm, h6,
      bind, Except.bind, pure, Except.pure])]
  rw [runLoop_step jvm _ _ _ ⟨12, [],
      ⟨.StackTypeInt, .nil⟩ :: ⟨.StackTypeInt, .int32 6⟩ :: tl, [ascii "6"], []⟩
    (by simp) (by simp [step, dispatch, codeAt, bind, Except.bind, pure, Except.pure])]
  rw [runLoop_done _ _ _ _ (by simp)]

/-- Witness of C1 on the class `printlnClass`, with operands 1 and 7 and two
locals. -/
theorem RunCodeAttr_scenario_prints_six_witness :
    RunCodeAttr ⟨printlnClass⟩ (.mk 2 2 12
        [0x05, 0x06, 0x68, 0x3C, 0xB2, 0, 1, 0x1B, 0xB6, 0, 7, 0xB1] [] [])
      = .ok ⟨12, [], (List.replicate 2 ⟨.StackTypeInt, .nil⟩).set 1
          ⟨.StackTypeInt, .int32 6⟩, [ascii "6"], []⟩ :=
  RunCodeAttr_scenario_prints_six ⟨printlnClass⟩ 2 2 12 [] [] 0 1 0 7 (by decide) (by decide)
    (by decide)

/-- C2 (the code at the failing input). The return opcode does not end the
loop: wherever it stands, one step at 0xB1 only advances `pc` by 1, because the
`break` of the return case leaves only the `switch`. On the code
`return, iconst_2` the instruction after the return is executed and the run
ends at `pc = 2` with the int 2 on the stack. -/
theorem RunCodeAttr_continues_after_return (jvm : Jvm) :
    (∀ (code : List Byte) (m : Machine), code[m.pc]? = some 0xB1 →
      step jvm code m = .ok { m with pc := m.pc + 1 }) ∧
    RunCodeAttr jvm (.mk 0 0 2 [0xB1, 0x05] [] [])
      = .ok ⟨2, [⟨.StackTypeInt, .int32 2⟩], [], [], []⟩ := by
  refine ⟨fun code m h => ?_, rfl⟩
  simp [step, dispatch, codeAt, h, bind, Except.bind, pure, Except.pure]

/-- C3 (counterexample). A bipush whose operand byte is missing at the end of
the code aborts the run with a panic instead of producing a diagnostic. -/
theorem RunCodeAttr_panics_on_missing_operand :
    RunCodeAttr ⟨emptyClass⟩ (.mk 0 0 1 [0x10] [] []) = .error .panic := by
  decide

theorem runLoop_ok_of_invariant (jvm : Jvm) (code : List Byte) (Inv : Machine → Prop)
    (hstep : ∀ m, Inv m → m.pc < code.length →
      Ready jvm code m ∧ ∀ m', step jvm code m = .ok m' → Inv m') (n : Nat) :
    ∀ m : Machine, Inv m → code.length ≤ m.pc + n →
      ∃ m', runLoop jvm code n m = .ok m' ∧ Inv m' ∧ code.length ≤ m'.pc := by
  induction n with
  | zero =>
    intro m hi h
    exact ⟨m, by simp [runLoop]; omega, hi, by omega⟩
  | succ n ih =>
    intro m hi h
    by_cases hpc : m.pc < code.length
    · obtain ⟨hr, hpres⟩ := hstep m hi hpc
      obtain ⟨m', hs⟩ := step_ok_of_ready jvm code m hr
      rcases step_cases jvm code m with hp | ⟨m'', hs', h1, _⟩
      · rw [hs] at hp; cases hp
      · rw [hs] at hs'; cases hs'
        obtain ⟨mf, hf, hif, hlen⟩ := ih m' (hpres m' hs) (by omega)
        exact ⟨mf, by rw [runLoop_step jvm code n m m' hpc hs]; exact hf, hif, hlen⟩
    · exact ⟨m, by simp [runLoop, hpc], hi, by omega⟩

theorem step_istore_mismatch (jvm : Jvm) (code : List Byte) (m : Machine) (opcode : Byte)
    (n : Nat) (s : List StackData) (v : StackData) (hc : code[m.pc]? = some opcode)
    (hop : (opcode = 0x3C ∧ n = 1) ∨ (opcode = 0x3D ∧ n = 2))
    (hs : m.stack = s ++ [v]) (hv : v.Typ ≠ .StackTypeInt) :
    step jvm code m
      = .ok { m with pc := m.pc + 1, diag := m.diag ++ [.expectedStackInt opcode] } := by
  have hi : istore m opcode n = .ok { m with diag := m.diag ++ [.expectedStackInt opcode] } := by
    unfold istore
    rw [hs, fromTop_one]
    simp [hv, bind, Except.bind, pure, Except.pure]
  rcases hop with ⟨rfl, rfl⟩ | ⟨rfl, rfl⟩ <;>
    simp [step, dispatch, codeAt, hc, hi, bind, Except.bind, pure, Except.pure]

/-- C3 (amended). `RunCodeAttr` always terminates, either at the end of the
code or in a runtime panic. It reaches the end of the code without a panic
whenever every instruction it executes is `Ready` (operand bytes inside the
code, local inside the locals, the stack values it reads present, pool entries
of the asserted kind, `int32` data where asserted); this is stated for any
invariant `Inv` of the run that implies `Ready`. An istore_1 or istore_2 whose
top of stack is not Int-typed only appends a diagnostic and advances `pc`. -/
theorem RunCodeAttr_runs_or_panics (jvm : Jvm) (codeAttr : CodeAttribute) :
    (RunCodeAttr jvm codeAttr = .error .panic ∨
      ∃ m, RunCodeAttr jvm codeAttr = .ok m ∧ codeAttr.Code.length ≤ m.pc) ∧
    (∀ Inv : Machine → Prop,
      Inv ⟨0, [], List.replicate codeAttr.MaxLocals ⟨.StackTypeInt, .nil⟩, [], []⟩ →
      (∀ m, Inv m → m.pc < codeAttr.Code.length →
        Ready jvm codeAttr.Code m ∧ ∀ m', step jvm codeAttr.Code m = .ok m' → Inv m') →
      ∃ m, RunCodeAttr jvm codeAttr = .ok m ∧ Inv m ∧ codeAttr.Code.length ≤ m.pc) ∧
    (∀ (m : Machine) (opcode : Byte) (s : List StackData) (v : StackData),
      codeAttr.Code[m.pc]? = some opcode → (opcode = 0x3C ∨ opcode = 0x3D) →
      m.stack = s ++ [v] → v.Typ ≠ .StackTypeInt →
      step jvm codeAttr.Code m
        = .ok { m with pc := m.pc + 1, diag := m.diag ++ [.expectedStackInt opcode] }) := by
  refine ⟨?_, ?_, ?_⟩
  · exact runLoop_cases jvm codeAttr.Code codeAttr.Code.length _ (by simp)
  · intro Inv h0 hstep
    exact runLoop_ok_of_invariant jvm codeAttr.Code Inv hstep codeAttr.Code.length _ h0 (by simp)
  · intro m opcode s v hc hop hs hv
    rcases hop with h | h
    · exact step_istore_mismatch jvm _ m opcode 1 s v hc (Or.inl ⟨h, rfl⟩) hs hv
    · exact step_istore_mismatch jvm _ m opcode 2 s v hc (Or.inr ⟨h, rfl⟩) hs hv

/-- Witness of C3 (amended): on the code `ldc 1, istore_1` with two locals every
instruction is ready, and the run ends at `pc = 3` with the single diagnostic
of the istore_1 that met a constant reference. -/
theorem RunCodeAttr_runs_or_panics_witness :
    ∃ m, RunCodeAttr ⟨emptyClass⟩ (.mk 1 2 3 [0x12, 0x01, 0x3C] [] []) = .ok m ∧
      (m = ⟨0, [], [⟨.StackTypeInt, .nil⟩, ⟨.StackTypeInt, .nil⟩], [], []⟩ ∨
        m = ⟨2, [⟨.StackTypeConstant, .uint16 1⟩],
          [⟨.StackTypeInt, .nil⟩, ⟨.StackTypeInt, .nil⟩], [], []⟩ ∨
        m = ⟨3, [⟨.StackTypeConstant, .uint16 1⟩],
          [⟨.StackTypeInt, .nil⟩, ⟨.StackTypeInt, .nil⟩], [], [.expectedStackInt 0x3C]⟩) ∧
      3 ≤ m.pc :=
  (RunCodeAttr_runs_or_panics ⟨emptyClass⟩ (.mk 1 2 3 [0x12, 0x01, 0x3C] [] [])).2.1
    (fun m => m = ⟨0, [], [⟨.StackTypeInt, .nil⟩, ⟨.StackTypeInt, .nil⟩], [], []⟩ ∨
        m = ⟨2, [⟨.StackTypeConstant, .uint16 1⟩],
          [⟨.StackTypeInt, .nil⟩, ⟨.StackTypeInt, .nil⟩], [], []⟩ ∨
        m = ⟨3, [⟨.StackTypeConstant, .uint16 1⟩],
          [⟨.StackTypeInt, .nil⟩, ⟨.StackTypeInt, .nil⟩], [], [.expectedStackInt 0x3C]⟩)
    (Or.inl rfl)
    (by
      intro m hm hpc
      rcases hm with rfl | rfl | rfl
      · refine ⟨by show 0 + 1 < 3; decide, fun m' h => ?_⟩
        have hs : step ⟨emptyClass⟩ [0x12, 0x01, 0x3C]
            ⟨0, [], [⟨.StackTypeInt, .nil⟩, ⟨.StackTypeInt, .nil⟩], [], []⟩
            = .ok ⟨2, [⟨.StackTypeConstant, .uint16 1⟩],
              [⟨.StackTypeInt, .nil⟩, ⟨.StackTypeInt, .nil⟩], [], []⟩ := by decide
        rw [CodeAttribute.Code, hs] at h
        cases h
        exact Or.inr (Or.inl rfl)
      · refine ⟨⟨by decide, by decide⟩, fun m' h => ?_⟩
        have hs : step ⟨emptyClass⟩ [0x12, 0x01, 0x3C]
            ⟨2, [⟨.StackTypeConstant, .uint16 1⟩],
              [⟨.StackTypeInt, .nil⟩, ⟨.StackTypeInt, .nil⟩], [], []⟩
            = .ok ⟨3, [⟨.StackTypeConstant, .uint16 1⟩],
              [⟨.StackTypeInt, .nil⟩, ⟨.StackTypeInt, .nil⟩], [],
              [.expectedStackInt 0x3C]⟩ := by decide
        rw [CodeAttribute.Code, hs] at h
        cases h
        exact Or.inr (Or.inr rfl)
      · exact absurd hpc (by decide))

/-! ## Lemmas about the reader -/

theorem defaultBufSize_eq : defaultBufSize = 4096 := rfl

theorem Read_whole (xs b rd p : List Byte) (h : xs.length = p.length) :
    Reader.Read ⟨xs ++ b, rd⟩ p = .ok (xs.length, xs, ⟨b, rd⟩) := by
  unfold Reader.Read
  by_cases hb : p.length = 0
  · have hx : xs = [] := List.length_eq_zero.mp (by omega)
    have hb' : p = [] := List.length_eq_zero.mp hb
    simp [hx, hb']
  · have hr : ¬ (xs ++ b).length = 0 := by rw [List.length_append]; omega
    have hmin : min p.length (xs ++ b).length = xs.length := by
      rw [List.length_append]; omega
    simp only [hb, hr, if_false, hmin]
    simp [h]

theorem ReadSection_whole (xs b rd buffer : List Byte) (h : xs.length = buffer.length) :
    ReadSection ⟨xs ++ b, rd⟩ buffer = .ok (xs, ⟨b, rd⟩) := by
  unfold ReadSection
  rw [Read_whole xs b rd buffer h]

theorem ReadSectionTo_whole (xs b rd buffer : List Byte) (k : Nat) (h : xs.length = k)
    (hk : k ≤ buffer.length) :
    ReadSectionTo ⟨xs ++ b, rd⟩ buffer k = .ok (xs ++ buffer.drop k, ⟨b, rd⟩) := by
  unfold ReadSectionTo sliceTo
  simp only [hk, if_true, bind, Except.bind]
  rw [ReadSection_whole xs b rd _ (by rw [List.length_take]; omega)]
  rfl

/-- A read of fewer bytes than the buffer holds, by a reader whose buffer is
empty, is the same read by the reader whose buffer has been filled from the
source. -/
theorem Read_NewReader (data p : List Byte) (h1 : p.length ≠ 0)
    (h2 : p.length < defaultBufSize) :
    Reader.Read (NewReader data) p
      = Reader.Read ⟨data.take defaultBufSize, data.drop defaultBufSize⟩ p := by
  unfold Reader.Read NewReader
  have h3 : ¬ defaultBufSize ≤ p.length := by omega
  by_cases hd : data.length = 0
  · have hd' : data = [] := List.length_eq_zero.mp hd
    subst hd'
    simp [h1]
  · have h4 : ¬ (List.take defaultBufSize data).length = 0 := by
      rw [List.length_take, defaultBufSize_eq]; omega
    simp only [h1, hd, h3, h4, if_false, List.length_nil, if_true]

theorem ReadSection_NewReader (data buffer : List Byte) (h1 : buffer.length ≠ 0)
    (h2 : buffer.length < defaultBufSize) :
    ReadSection (NewReader data) buffer
      = ReadSection ⟨data.take defaultBufSize, data.drop defaultBufSize⟩ buffer := by
  unfold ReadSection
  rw [Read_NewReader data buffer h1 h2]

theorem ReadSectionTo_NewReader (data buffer : List Byte) (k : Nat) (h1 : k ≠ 0)
    (h2 : k < defaultBufSize) :
    ReadSectionTo (NewReader data) buffer k
      = ReadSectionTo ⟨data.take defaultBufSize, data.drop defaultBufSize⟩ buffer k := by
  unfold ReadSectionTo sliceTo
  by_cases hk : k ≤ buffer.length
  · simp only [hk, if_true, bind, Except.bind]
    rw [ReadSection_NewReader data _ (by rw [List.length_take]; omega)
      (by rw [List.length_take]; omega)]
  · simp only [hk, if_false, bind, Except.bind]

/-- The reader filled from a source that starts with `xs`, when `xs` fits in
the buffer. -/
theorem filled_append (xs rest : List Byte) (h : xs.length ≤ defaultBufSize) :
    (⟨(xs ++ rest).take defaultBufSize, (xs ++ rest).drop defaultBufSize⟩ : Reader)
      = ⟨xs ++ rest.take (defaultBufSize - xs.length),
          rest.drop (defaultBufSize - xs.length)⟩ := by
  rw [List.take_append_eq_append_take, List.drop_append_eq_append_drop,
    List.take_of_length_le h, List.drop_of_length_le h, List.nil_append]

theorem ReadConstantPool_NewReader (data buf : List Byte) :
    ReadConstantPool (NewReader data) buf
      = ReadConstantPool ⟨data.take defaultBufSize, data.drop defaultBufSize⟩ buf := by
  unfold ReadConstantPool
  rw [ReadSectionTo_NewReader data buf 1 (by decide) (by decide)]

theorem ReadAttributeFuel_NewReader (fuel : Nat) (pool : List ConstantInfo)
    (data buf : List Byte) :
    ReadAttributeFuel fuel pool (NewReader data) buf
      = ReadAttributeFuel fuel pool ⟨data.take defaultBufSize, data.drop defaultBufSize⟩ buf := by
  cases fuel with
  | zero => rfl
  | succ fuel =>
    unfold ReadAttributeFuel
    rw [ReadSectionTo_NewReader data buf 2 (by decide) (by decide)]

theorem ReadAttribute_NewReader (pool : List ConstantInfo) (data buf : List Byte) :
    ReadAttribute pool (NewReader data) buf
      = ReadAttribute pool ⟨data.take defaultBufSize, data.drop defaultBufSize⟩ buf := by
  unfold ReadAttribute
  rw [ReadAttributeFuel_NewReader]
  have h : (NewReader data).buf.length + (NewReader data).rd.length
      = (List.take defaultBufSize data).length + (List.drop defaultBufSize data).length := by
    simp only [NewReader, List.length_nil, List.length_take, List.length_drop]
    omega
  rw [h]

theorem NewJavaClass_NewReader (data : List Byte) :
    NewJavaClass (NewReader data)
      = NewJavaClass ⟨data.take defaultBufSize, data.drop defaultBufSize⟩ := by
  unfold NewJavaClass
  rw [ReadSection_NewReader data _ (by decide) (by decide)]

theorem Reader.eq_mk (r : Reader) (l : List Byte) (h : r.buf = l) : r = ⟨l, r.rd⟩ := by
  cases r
  simp only at h
  subst h
  rfl

theorem fill_NewReader (data : List Byte) :
    (NewReader data).fill = ⟨data.take defaultBufSize, data.drop defaultBufSize⟩ := rfl

theorem fill_cases (r : Reader) : r.fill = r ∨ ∃ data, r = NewReader data := by
  unfold Reader.fill
  by_cases h : r.buf.length = 0
  · right
    refine ⟨r.rd, ?_⟩
    rw [r.eq_mk [] (List.length_eq_zero.mp h)]
    rfl
  · left
    rw [if_neg h]

/-- The reader filled from a source that starts with `xs`: the buffer starts
with `xs` when `xs` fits in it. -/
theorem fill_NewReader_append (xs rest : List Byte) (h : xs.length ≤ defaultBufSize) :
    (NewReader (xs ++ rest)).fill
      = ⟨xs ++ rest.take (defaultBufSize - xs.length),
          rest.drop (defaultBufSize - xs.length)⟩ := by
  rw [fill_NewReader, filled_append xs rest h]

theorem ReadSectionTo_fill (r : Reader) (buffer : List Byte) (k : Nat) (h1 : k ≠ 0)
    (h2 : k < defaultBufSize) : ReadSectionTo r buffer k = ReadSectionTo r.fill buffer k := by
  rcases fill_cases r with h | ⟨data, rfl⟩
  · rw [h]
  · rw [fill_NewReader, ReadSectionTo_NewReader data buffer k h1 h2]

theorem ReadConstantPool_fill (r : Reader) (buf : List Byte) :
    ReadConstantPool r buf = ReadConstantPool r.fill buf := by
  rcases fill_cases r with h | ⟨data, rfl⟩
  · rw [h]
  · rw [fill_NewReader, ReadConstantPool_NewReader]

theorem ReadAttribute_fill (pool : List ConstantInfo) (r : Reader) (buf : List Byte) :
    ReadAttribute pool r buf = ReadAttribute pool r.fill buf := by
  rcases fill_cases r with h | ⟨data, rfl⟩
  · rw [h]
  · rw [fill_NewReader, ReadAttribute_NewReader]

/-! ## Lemmas about the decoder -/

theorem Uint16_be16 (n : Nat) (l : List Byte) (h : n < 65536) : Uint16 (be16 n ++ l) = .ok n := by
  simp [Uint16, be16, Fin.ofNat]
  omega

theorem Uint32_be32 (n : Nat) (l : List Byte) (h : n < 4294967296) :
    Uint32 (be32 n ++ l) = .ok n := by
  simp [Uint32, be32, Fin.ofNat]
  omega

theorem be16_length (n : Nat) : (be16 n).length = 2 := rfl

theorem be32_length (n : Nat) : (be32 n).length = 4 := rfl

theorem ReadConstantPool_encode (e : ConstantInfo) (b rd buf : List Byte)
    (hb : buf.length = 4) (hw : IsPlainConstant e) :
    ReadConstantPool ⟨encodeConstant e ++ b, rd⟩ buf = .ok (e, ⟨b, rd⟩) := by
  obtain ⟨tag, data⟩ := e
  match buf, hb with
  | [b0, b1, b2, b3], _ =>
    cases data <;> simp only [IsPlainConstant] at hw
    case ConstantUtf8 s =>
      obtain ⟨rfl, hs⟩ := hw
      have h3 : ReadSection ⟨s ++ b, rd⟩ (List.replicate s.length 0) = .ok (s, ⟨b, rd⟩) :=
        ReadSection_whole s b rd _ (by simp)
      have h2 : ReadSection ⟨be16 s.length ++ (s ++ b), rd⟩ [1, b1]
          = .ok (be16 s.length, ⟨s ++ b, rd⟩) := ReadSection_whole _ _ _ _ rfl
      have h1 : ReadSection ⟨1 :: (be16 s.length ++ (s ++ b)), rd⟩ [b0]
          = .ok ([1], ⟨be16 s.length ++ (s ++ b), rd⟩) := ReadSection_whole [1] _ _ _ rfl
      have h4 := Uint16_be16 s.length [b2, b3] hs
      simp only [encodeConstant, ReadConstantPool, ReadSectionTo, sliceTo, sliceFrom,
        IsConstantPoolTag, ConstantClassTag, ConstantDoubleTag, ConstantFieldRefTag,
        ConstantFloatTag, ConstantIntegerTag, ConstantInterfaceMethodRefTag,
        ConstantInvokeDynamicTag, ConstantLongTag, ConstantMethodHandleTag,
        ConstantMethodTypeTag, ConstantMethodRefTag, ConstantNameAndTypeTag, ConstantStringTag,
        ConstantUtf8Tag, bind, Except.bind, pure, Except.pure, List.cons_append,
        List.append_assoc, ConstantInfo.mk.injEq, List.length_cons, List.length_nil, List.take,
        List.drop, h1, h2, h3, h4]
      simp [h1, h2, h3, h4]
    all_goals
      obtain ⟨rfl, hw⟩ := hw
      simp [encodeConstant, ReadConstantPool, ReadSectionTo, sliceTo, sliceFrom, ReadSection,
        Reader.Read, IsConstantPoolTag, ConstantClassTag, ConstantDoubleTag, ConstantFieldRefTag,
        ConstantFloatTag, ConstantIntegerTag, ConstantInterfaceMethodRefTag,
        ConstantInvokeDynamicTag, ConstantLongTag, ConstantMethodHandleTag,
        ConstantMethodTypeTag, ConstantMethodRefTag, ConstantNameAndTypeTag, ConstantStringTag,
        ConstantUtf8Tag, twoUint16, Uint16, Uint32, be16, be32, Fin.ofNat, toInt32, bind,
        Except.bind, pure, Except.pure]
      omega

theorem ReadConstantPool_long_eq (high low : Nat) (b rd buf : List Byte) (hb : buf.length = 4)
    (hh : high < 4294967296) (hl : low < 4294967296) :
    ReadConstantPool ⟨ConstantLongTag :: (be32 high ++ be32 low ++ b), rd⟩ buf
      = .ok (⟨ConstantLongTag, .ConstantLong (toInt64 (toInt64 (high * 4294967296) + low))⟩,
          ⟨b, rd⟩) := by
  match buf, hb with
  | [b0, b1, b2, b3], _ =>
    have e1 : high / 16777216 % 256 * 16777216 + high / 65536 % 256 * 65536
        + high / 256 % 256 * 256 + high % 256 = high := by omega
    have e2 : low / 16777216 % 256 * 16777216 + low / 65536 % 256 * 65536
        + low / 256 % 256 * 256 + low % 256 = low := by omega
    simp [ReadConstantPool, ReadSectionTo, sliceTo, sliceFrom, ReadSection,
      Reader.Read, IsConstantPoolTag, ConstantClassTag, ConstantDoubleTag, ConstantFieldRefTag,
      ConstantFloatTag, ConstantIntegerTag, ConstantInterfaceMethodRefTag,
      ConstantInvokeDynamicTag, ConstantLongTag, ConstantMethodHandleTag,
      ConstantMethodTypeTag, ConstantMethodRefTag, ConstantNameAndTypeTag, ConstantStringTag,
      ConstantUtf8Tag, Uint32, be32, Fin.ofNat, bind, Except.bind, pure, Except.pure, e1, e2]

theorem ReadConstantPool_float_eq (n : Nat) (b rd buf : List Byte) (hb : buf.length = 4)
    (hn : n < 4294967296) :
    ReadConstantPool ⟨ConstantFloatTag :: (be32 n ++ b), rd⟩ buf
      = .ok (⟨ConstantFloatTag, .ConstantFloat (float32OfInt n)⟩, ⟨b, rd⟩) := by
  match buf, hb with
  | [b0, b1, b2, b3], _ =>
    have e1 : n / 16777216 % 256 * 16777216 + n / 65536 % 256 * 65536
        + n / 256 % 256 * 256 + n % 256 = n := by omega
    simp [ReadConstantPool, ReadSectionTo, sliceTo, sliceFrom, ReadSection,
      Reader.Read, IsConstantPoolTag, ConstantClassTag, ConstantDoubleTag, ConstantFieldRefTag,
      ConstantFloatTag, ConstantIntegerTag, ConstantInterfaceMethodRefTag,
      ConstantInvokeDynamicTag, ConstantLongTag, ConstantMethodHandleTag,
      ConstantMethodTypeTag, ConstantMethodRefTag, ConstantNameAndTypeTag, ConstantStringTag,
      ConstantUtf8Tag, Uint32, be32, Fin.ofNat, bind, Except.bind, pure, Except.pure, e1]

theorem ReadConstantPool_double_eq (high low : Nat) (b rd buf : List Byte) (hb : buf.length = 4)
    (hh : high < 4294967296) (hl : low < 4294967296) :
    ReadConstantPool ⟨ConstantDoubleTag :: (be32 high ++ be32 low ++ b), rd⟩ buf
      = .ok (⟨ConstantDoubleTag,
          .ConstantDouble (float64OfInt (toInt64 (toInt64 (high * 4294967296) + low)))⟩,
          ⟨b, rd⟩) := by
  match buf, hb with
  | [b0, b1, b2, b3], _ =>
    have e1 : high / 16777216 % 256 * 16777216 + high / 65536 % 256 * 65536
        + high / 256 % 256 * 256 + high % 256 = high := by omega
    have e2 : low / 16777216 % 256 * 16777216 + low / 65536 % 256 * 65536
        + low / 256 % 256 * 256 + low % 256 = low := by omega
    simp [ReadConstantPool, ReadSectionTo, sliceTo, sliceFrom, ReadSection,
      Reader.Read, IsConstantPoolTag, ConstantClassTag, ConstantDoubleTag, ConstantFieldRefTag,
      ConstantFloatTag, ConstantIntegerTag, ConstantInterfaceMethodRefTag,
      ConstantInvokeDynamicTag, ConstantLongTag, ConstantMethodHandleTag,
      ConstantMethodTypeTag, ConstantMethodRefTag, ConstantNameAndTypeTag, ConstantStringTag,
      ConstantUtf8Tag, Uint32, be32, Fin.ofNat, bind, Except.bind, pure, Except.pure, e1, e2]

/-- A read by a reader with bytes in its buffer: as many of them as `p` takes
are copied, the source is not touched. -/
theorem Read_buffered (xs rd p : List Byte) (hx : xs ≠ [] ∨ p = []) :
    Reader.Read ⟨xs, rd⟩ p
      = .ok (min p.length xs.length, xs.take p.length ++ p.drop xs.length,
          ⟨xs.drop p.length, rd⟩) := by
  unfold Reader.Read
  by_cases hp : p.length = 0
  · have hp' : p = [] := List.length_eq_zero.mp hp
    subst hp'
    simp
  · have hx' : xs ≠ [] := hx.resolve_right (fun h => hp (by rw [h]; rfl))
    have hl : ¬ xs.length = 0 := fun h => hx' (List.length_eq_zero.mp h)
    simp only [hp, hl, if_false]
    rcases Nat.le_total p.length xs.length with h | h
    · rw [Nat.min_eq_left h, List.drop_of_length_le (l := p) h]
      simp
    · rw [Nat.min_eq_right h, List.take_of_length_le (l := xs) h,
        List.drop_of_length_le (l := xs) h]
      simp

theorem Read_replicate (xs rd : List Byte) (L : Nat) (hx : xs ≠ [] ∨ L = 0) :
    Reader.Read ⟨xs, rd⟩ (List.replicate L 0)
      = .ok (min L xs.length, xs.take L ++ List.replicate (L - xs.length) 0,
          ⟨xs.drop L, rd⟩) := by
  rw [Read_buffered xs rd _ (hx.imp id (fun h => by rw [h]; rfl))]
  simp

/-- The first six bytes of an attribute record in the buffer are read whole;
the payload buffer then receives the bytes that the buffer still holds. -/
theorem ReadAttributeFuel_reads (nameIndex L : Nat) (xs rd : List Byte) (b0 b1 b2 b3 : Byte)
    (hi : nameIndex < 65536) (hl : L < 4294967296) (hx : xs ≠ [] ∨ L = 0) :
    ReadSectionTo ⟨be16 nameIndex ++ (be32 L ++ xs), rd⟩ [b0, b1, b2, b3] 2
        = .ok (be16 nameIndex ++ [b2, b3], ⟨be32 L ++ xs, rd⟩) ∧
      Uint16 (be16 nameIndex ++ [b2, b3]) = .ok nameIndex ∧
      ReadSection ⟨be32 L ++ xs, rd⟩ (be16 nameIndex ++ [b2, b3])
        = .ok (be32 L, ⟨xs, rd⟩) ∧
      Uint32 (be32 L) = .ok L ∧
      Reader.Read ⟨xs, rd⟩ (List.replicate L 0)
        = .ok (min L xs.length, xs.take L ++ List.replicate (L - xs.length) 0,
            ⟨xs.drop L, rd⟩) := by
  refine ⟨?_, Uint16_be16 nameIndex [b2, b3] hi, ReadSection_whole _ _ _ _ rfl, ?_,
    Read_replicate xs rd L hx⟩
  · exact ReadSectionTo_whole (be16 nameIndex) (be32 L ++ xs) rd [b0, b1, b2, b3] 2 rfl
      (by simp)
  · simpa using Uint32_be32 L [] hl

theorem ReadAttributeFuel_result (fuel : Nat) (pool : List ConstantInfo) (nameIndex L : Nat)
    (xs rd buf : List Byte) (hb : buf.length = 4) (hi : nameIndex < 65536)
    (hl : L < 4294967296) (hx : xs ≠ [] ∨ L = 0) (attr : AttributeInfo) (r' : Reader)
    (h : ReadAttributeFuel fuel pool ⟨be16 nameIndex ++ (be32 L ++ xs), rd⟩ buf
      = .ok (attr, r')) :
    r' = ⟨xs.drop L, rd⟩ ∧ attr.AttributeNameIndex = nameIndex ∧
      poolUtf8 pool nameIndex = .ok attr.AttributeType ∧
      IsAttributeType attr.AttributeType = true := by
  cases fuel with
  | zero => simp [ReadAttributeFuel] at h
  | succ fuel =>
    match buf, hb with
    | [b0, b1, b2, b3], _ =>
      obtain ⟨h1, h2, h3, h4, h5⟩ := ReadAttributeFuel_reads nameIndex L xs rd b0 b1 b2 b3 hi hl hx
      rcases poolUtf8_cases pool nameIndex with hp | ⟨name, hp⟩
      · simp [ReadAttributeFuel, h1, h2, hp, bind, Except.bind] at h
      · simp only [ReadAttributeFuel, h1, h2, h3, h4, h5, hp, bind, Except.bind, pure,
          Except.pure] at h
        by_cases hk : IsAttributeType name = true
        · simp only [hk, Bool.not_true, Bool.false_eq_true, if_false] at h
          split_ifs at h
          all_goals repeat' split at h
          all_goals first | (cases h; done) | skip
          all_goals
            simp only [Except.ok.injEq, Prod.mk.injEq] at h
            obtain ⟨rfl, rfl⟩ := h
            exact ⟨rfl, rfl, hp, hk⟩
        · simp [hk, throw, throwThe, MonadExceptOf.throw] at h

theorem ReadAttributeFuel_opaque (fuel : Nat) (pool : List ConstantInfo) (nameIndex L : Nat)
    (xs rd buf : List Byte) (hb : buf.length = 4) (hi : nameIndex < 65536)
    (hl : L < 4294967296) (hx : xs ≠ [] ∨ L = 0) (name : List Byte)
    (hp : poolUtf8 pool nameIndex = .ok name) (hk : IsAttributeType name = true)
    (h1 : name ≠ CodeAttr) (h2 : name ≠ LineNumberTableAttr) (h3 : name ≠ SourceFileAttr) :
    ReadAttributeFuel (fuel + 1) pool ⟨be16 nameIndex ++ (be32 L ++ xs), rd⟩ buf
      = .ok (.mk nameIndex name .nil, ⟨xs.drop L, rd⟩) := by
  match buf, hb with
  | [b0, b1, b2, b3], _ =>
    obtain ⟨e1, e2, e3, e4, e5⟩ := ReadAttributeFuel_reads nameIndex L xs rd b0 b1 b2 b3 hi hl hx
    simp [ReadAttributeFuel, e1, e2, e3, e4, e5, hp, hk, h1, h2, h3, bind, Except.bind, pure,
      Except.pure]

/-- The bytes of an attribute record followed by `b`, as the header and what
follows it. -/
theorem attributeRecord_append (nameIndex : Nat) (payload b : List Byte) :
    attributeRecord nameIndex payload ++ b
      = be16 nameIndex ++ (be32 payload.length ++ (payload ++ b)) := by
  simp [attributeRecord]

theorem payload_whole (payload b : List Byte) :
    (payload ++ b ≠ [] ∨ payload.length = 0) ∧ (payload ++ b).drop payload.length = b ∧
      (payload ++ b).take payload.length
        ++ List.replicate (payload.length - (payload ++ b).length) 0 = payload := by
  refine ⟨?_, by simp, by simp⟩
  cases payload with
  | nil => right; rfl
  | cons x l => left; simp

theorem readMany_chunks (b rd : List Byte) :
    ∀ (chunks : List (List Byte)) (es : List ConstantInfo),
      List.Forall₂ (fun bs e => ∀ b rd,
        ReadConstantPool ⟨bs ++ b, rd⟩ (List.replicate 4 0) = .ok (e, ⟨b, rd⟩)) chunks es →
      readMany (fun r => ReadConstantPool r (List.replicate 4 0)) es.length
        ⟨chunks.flatten ++ b, rd⟩ = .ok (es, ⟨b, rd⟩) := by
  intro chunks es h
  induction h with
  | nil => simp [readMany]
  | cons hd _ ih =>
    rename_i bs e cs es'
    simp only [List.flatten_cons, List.append_assoc, List.length_cons, readMany, hd, ih, bind,
      Except.bind, pure, Except.pure]

theorem decodeAfterPool_pool (version : List Byte) (pool : List ConstantInfo)
    (r : Reader) (buf : List Byte) (cls : JavaClass)
    (h : decodeAfterPool version pool r buf = .ok cls) :
    cls.ConstantPool = pool ∧ cls.Version = version := by
  simp only [decodeAfterPool, bind, Except.bind, pure, Except.pure] at h
  repeat' split at h
  all_goals first | (cases h; done) | skip
  all_goals
    simp only [Except.ok.injEq] at h
    subst h
    exact ⟨rfl, rfl⟩

theorem NewJavaClass_of_reads (input r1 r2 body : Reader) (buf1 buf2 buf3 s1 s2 s3 : List Byte)
    (minor major count : Nat)
    (e1 : ReadSection input (List.replicate 4 0) = .ok (buf1, r1))
    (e2 : Uint32 buf1 = .ok 0xCAFEBABE)
    (e3 : ReadSection r1 buf1 = .ok (buf2, r2))
    (e4 : sliceTo buf2 2 = .ok s1) (e5 : Uint16 s1 = .ok minor)
    (e6 : sliceFrom buf2 2 = .ok s2) (e7 : Uint16 s2 = .ok major)
    (e8 : ReadSectionTo r2 buf2 2 = .ok (buf3, body))
    (e9 : sliceTo buf3 2 = .ok s3) (e10 : Uint16 s3 = .ok count) :
    NewJavaClass input
      = (do
          let (constantPool, r) ←
            readMany (fun r => ReadConstantPool r (List.replicate 4 0)) (pred16 count) body
          decodeAfterPool
            (ascii (toString major ++ "." ++ toString minor)) constantPool r buf3) := by
  unfold NewJavaClass
  simp only [e1, e2, e3, e4, e5, e6, e7, e8, e9, e10, bind, Except.bind, pure, Except.pure,
    ne_eq, not_true_eq_false, if_false]

theorem NewJavaClass_header (minor major count : Nat) (body rd : List Byte)
    (h1 : minor < 65536) (h2 : major < 65536) (h3 : count < 65536) :
    NewJavaClass ⟨classHeader minor major count ++ body, rd⟩
      = (do
          let (constantPool, r) ←
            readMany (fun r => ReadConstantPool r (List.replicate 4 0)) (pred16 count)
              ⟨body, rd⟩
          decodeAfterPool
            (ascii (toString major ++ "." ++ toString minor)) constantPool r
            (be16 count ++ be16 major)) :=
  NewJavaClass_of_reads _ ⟨be16 minor ++ (be16 major ++ (be16 count ++ body)), rd⟩
    ⟨be16 count ++ body, rd⟩ ⟨body, rd⟩ [0xCA, 0xFE, 0xBA, 0xBE] (be16 minor ++ be16 major)
    (be16 count ++ be16 major) (be16 minor) (be16 major) (be16 count) minor major count
    (ReadSection_whole [0xCA, 0xFE, 0xBA, 0xBE] _ rd (List.replicate 4 0) rfl)
    (by decide)
    (by
      have := ReadSection_whole (be16 minor ++ be16 major) (be16 count ++ body) rd
        [0xCA, 0xFE, 0xBA, 0xBE] rfl
      rwa [List.append_assoc] at this)
    rfl (by simpa using Uint16_be16 minor [] h1)
    rfl (by simpa using Uint16_be16 major [] h2)
    (ReadSectionTo_whole (be16 count) body rd (be16 minor ++ be16 major) 2 rfl (by simp [be16]))
    rfl (by simpa using Uint16_be16 count [] h3)

theorem decodeAfterPool_empty (version : List Byte) (pool : List ConstantInfo)
    (b rd : List Byte) (b0 b1 b2 b3 : Byte) :
    decodeAfterPool version pool ⟨List.replicate 14 0 ++ b, rd⟩ [b0, b1, b2, b3]
      = .ok ⟨version, pool, [], [], [], [], 0, 0, 0⟩ := by
  have e : ∀ (r : List Byte) (c0 c1 : Byte),
      ReadSectionTo ⟨0 :: 0 :: r, rd⟩ [c0, c1, b2, b3] 2 = .ok ([0, 0, b2, b3], ⟨r, rd⟩) := by
    intro r c0 c1
    exact ReadSectionTo_whole [0, 0] r rd [c0, c1, b2, b3] 2 rfl (by simp)
  have e' : sliceTo [0, 0, b2, b3] 2 = .ok [0, 0] := rfl
  have e'' : Uint16 [(0 : Byte), 0] = .ok 0 := rfl
  unfold decodeAfterPool
  simp only [List.replicate, List.cons_append, e, e', e'', readInterfaces, readMany, bind,
    Except.bind, pure, Except.pure]

theorem pred16_of_pos (count : Nat) (h1 : 1 ≤ count) :
    pred16 count = count - 1 := by
  unfold pred16; rw [if_neg (by omega)]

theorem decodeAfterPool_empty_of_length (version : List Byte)
    (pool : List ConstantInfo) (b rd buf : List Byte) (hb : buf.length = 4) :
    decodeAfterPool version pool ⟨List.replicate 14 0 ++ b, rd⟩ buf
      = .ok ⟨version, pool, [], [], [], [], 0, 0, 0⟩ := by
  match buf, hb with
  | [b0, b1, b2, b3], _ => exact decodeAfterPool_empty version pool b rd b0 b1 b2 b3

theorem filled_exact (xs rest : List Byte) (h : xs.length = defaultBufSize) :
    (⟨(xs ++ rest).take defaultBufSize, (xs ++ rest).drop defaultBufSize⟩ : Reader)
      = ⟨xs, rest⟩ := by
  rw [filled_append xs rest (le_of_eq h), h]
  simp

theorem ReadSection_replicate (xs rd : List Byte) (L : Nat) (hx : xs ≠ [] ∨ L = 0) :
    ReadSection ⟨xs, rd⟩ (List.replicate L 0)
      = .ok (xs.take L ++ List.replicate (L - xs.length) 0, ⟨xs.drop L, rd⟩) := by
  unfold ReadSection
  rw [Read_replicate xs rd L hx]

theorem ReadConstantPool_of_fill (r : Reader) (buf xs : List Byte) (h : r.fill.buf = xs) :
    ReadConstantPool r buf = ReadConstantPool ⟨xs, r.fill.rd⟩ buf := by
  rw [ReadConstantPool_fill r buf, Reader.eq_mk r.fill xs h]

theorem ReadAttribute_of_fill (pool : List ConstantInfo) (r : Reader) (buf xs : List Byte)
    (h : r.fill.buf = xs) :
    ReadAttribute pool r buf = ReadAttribute pool ⟨xs, r.fill.rd⟩ buf := by
  rw [ReadAttribute_fill pool r buf, Reader.eq_mk r.fill xs h]

theorem decodeAfterPool_fill (version : List Byte) (pool : List ConstantInfo) (r : Reader)
    (buf : List Byte) :
    decodeAfterPool version pool r buf = decodeAfterPool version pool r.fill buf := by
  unfold decodeAfterPool
  rw [ReadSectionTo_fill r buf 2 (by decide) (by decide)]

/-- A Utf8 entry whose tag and length are in the buffer: the text buffer
receives the bytes that the buffer still holds, and keeps its zero cells
beyond them. -/
theorem ReadConstantPool_utf8_reads (n : Nat) (xs rd buf : List Byte) (hb : buf.length = 4)
    (hn : n < 65536) (hx : xs ≠ [] ∨ n = 0) :
    ReadConstantPool ⟨ConstantUtf8Tag :: (be16 n ++ xs), rd⟩ buf
      = .ok (⟨ConstantUtf8Tag, .ConstantUtf8 (xs.take n ++ List.replicate (n - xs.length) 0)⟩,
          ⟨xs.drop n, rd⟩) := by
  match buf, hb with
  | [b0, b1, b2, b3], _ =>
    have h3 := ReadSection_replicate xs rd n hx
    have h2 : ReadSection ⟨be16 n ++ xs, rd⟩ [1, b1]
        = .ok (be16 n, ⟨xs, rd⟩) := ReadSection_whole _ _ _ _ rfl
    have h1 : ReadSection ⟨1 :: (be16 n ++ xs), rd⟩ [b0]
        = .ok ([1], ⟨be16 n ++ xs, rd⟩) := ReadSection_whole [1] _ _ _ rfl
    have h4 := Uint16_be16 n [b2, b3] hn
    simp only [ReadConstantPool, ReadSectionTo, sliceTo, sliceFrom,
      IsConstantPoolTag, ConstantClassTag, ConstantDoubleTag, ConstantFieldRefTag,
      ConstantFloatTag, ConstantIntegerTag, ConstantInterfaceMethodRefTag,
      ConstantInvokeDynamicTag, ConstantLongTag, ConstantMethodHandleTag,
      ConstantMethodTypeTag, ConstantMethodRefTag, ConstantNameAndTypeTag, ConstantStringTag,
      ConstantUtf8Tag, bind, Except.bind, pure, Except.pure, List.cons_append,
      List.append_assoc, ConstantInfo.mk.injEq, List.length_cons, List.length_nil, List.take,
      List.drop, h1, h2, h3, h4]
    simp [h1, h2, h3, h4]

/-- C7. For a declared pool count `count ≥ 1` followed by `count - 1` constant
entries (byte strings that `ReadConstantPool` decodes from the buffer, each to
its entry): when the header and the entries fit in the buffer of the reader
(`defaultBufSize` bytes), every class that `NewJavaClass` returns has exactly
these `count - 1` entries as its constant pool, in file order, one slot per
entry whatever its kind, and with the rest of the file holding zero counts
`NewJavaClass` does return such a class. On a file that does not fit, the pool
can differ from the entries of the file: with a single Utf8 entry whose text
reaches beyond the first `defaultBufSize` bytes of the file (`pre` is the part
of the text within them), the text returned is `pre` followed by zero bytes,
and the bytes of the text after `pre` are decoded as what follows the pool. -/
theorem NewJavaClass_pool_in_file_order (minor major count : Nat)
    (chunks : List (List Byte)) (es : List ConstantInfo) (tail : List Byte)
    (h1 : minor < 65536) (h2 : major < 65536) (hc1 : 1 ≤ count) (hc2 : count < 65536)
    (hn : es.length = count - 1)
    (hdec : List.Forall₂ (fun bs e => ∀ b rd,
      ReadConstantPool ⟨bs ++ b, rd⟩ (List.replicate 4 0) = .ok (e, ⟨b, rd⟩)) chunks es) :
    ((classHeader minor major count ++ chunks.flatten).length ≤ defaultBufSize →
      ∀ cls, NewJavaClass (NewReader (classHeader minor major count ++ (chunks.flatten ++ tail)))
          = .ok cls →
        cls.ConstantPool = es ∧ cls.ConstantPool.length = count - 1) ∧
    ((classHeader minor major count ++ (chunks.flatten ++ List.replicate 14 0)).length
        ≤ defaultBufSize →
      NewJavaClass
          (NewReader (classHeader minor major count ++ (chunks.flatten ++ List.replicate 14 0)))
        = .ok ⟨ascii (toString major ++ "." ++ toString minor), es, [], [], [], [], 0, 0, 0⟩) ∧
    (∀ pre more : List Byte, pre.length = defaultBufSize - 13 →
      (pre ++ (List.replicate 14 0 ++ more)).length < 65536 →
      NewJavaClass (NewReader (classHeader minor major 2 ++
          (encodeConstant ⟨ConstantUtf8Tag, .ConstantUtf8 (pre ++ (List.replicate 14 0 ++ more))⟩
            ++ tail)))
        = .ok ⟨ascii (toString major ++ "." ++ toString minor),
            [⟨ConstantUtf8Tag, .ConstantUtf8 (pre ++ List.replicate (14 + more.length) 0)⟩],
            [], [], [], [], 0, 0, 0⟩) := by
  have hp : pred16 count = es.length := by rw [pred16_of_pos count hc1, hn]
  refine ⟨?_, ?_, ?_⟩
  · intro hlen cls h
    rw [NewJavaClass_NewReader, ← List.append_assoc, filled_append _ tail hlen] at h
    have e := NewJavaClass_header minor major count
      (chunks.flatten ++ tail.take
        (defaultBufSize - (classHeader minor major count ++ chunks.flatten).length))
      (tail.drop (defaultBufSize - (classHeader minor major count ++ chunks.flatten).length))
      h1 h2 hc2
    rw [hp, readMany_chunks _ _ chunks es hdec] at e
    rw [List.append_assoc] at h
    have := (decodeAfterPool_pool _ _ _ _ cls (e.symm.trans h)).1
    exact ⟨this, by rw [this, hn]⟩
  · intro hlen
    rw [NewJavaClass_NewReader]
    have hfill := filled_append
      (classHeader minor major count ++ (chunks.flatten ++ List.replicate 14 0)) [] hlen
    rw [List.append_nil] at hfill
    rw [hfill]
    have e := NewJavaClass_header minor major count
      (chunks.flatten ++ (List.replicate 14 0 ++ List.take
        (defaultBufSize
          - (classHeader minor major count ++ (chunks.flatten ++ List.replicate 14 0)).length)
        []))
      (List.drop
        (defaultBufSize
          - (classHeader minor major count ++ (chunks.flatten ++ List.replicate 14 0)).length)
        [])
      h1 h2 hc2
    rw [hp, readMany_chunks _ _ chunks es hdec] at e
    dsimp only [bind, Except.bind] at e
    rw [decodeAfterPool_empty_of_length _ es _ _ (be16 count ++ be16 major) rfl] at e
    rw [← e]
    simp only [List.append_assoc]
  · intro pre more hpre hlen
    have hx : pre ≠ [] := by
      intro h0
      rw [h0, defaultBufSize_eq] at hpre
      simp at hpre
    have hsplit : classHeader minor major 2 ++
        (encodeConstant ⟨ConstantUtf8Tag, .ConstantUtf8 (pre ++ (List.replicate 14 0 ++ more))⟩
          ++ tail)
        = (classHeader minor major 2 ++ (ConstantUtf8Tag ::
            (be16 (pre ++ (List.replicate 14 0 ++ more)).length ++ pre)))
          ++ (List.replicate 14 0 ++ (more ++ tail)) := by
      simp [encodeConstant]
    have hl : (classHeader minor major 2 ++ (ConstantUtf8Tag ::
        (be16 (pre ++ (List.replicate 14 0 ++ more)).length ++ pre))).length
        = defaultBufSize := by
      simp only [classHeader, List.length_append, List.length_cons, be16_length, hpre,
        List.length_nil, defaultBufSize_eq]
    rw [NewJavaClass_NewReader, hsplit, filled_exact _ _ hl,
      NewJavaClass_header minor major 2 _ _ h1 h2 (by decide)]
    have hpred : pred16 2 = 1 := rfl
    have hread := ReadConstantPool_utf8_reads (pre ++ (List.replicate 14 0 ++ more)).length pre
      (List.replicate 14 0 ++ (more ++ tail)) (List.replicate 4 0) rfl hlen (Or.inl hx)
    have htake : List.take (pre ++ (List.replicate 14 0 ++ more)).length pre = pre :=
      List.take_of_length_le (by simp)
    have hdrop : List.drop (pre ++ (List.replicate 14 0 ++ more)).length pre = [] :=
      List.drop_of_length_le (by simp)
    have hsub : (pre ++ (List.replicate 14 0 ++ more)).length - pre.length
        = 14 + more.length := by
      simp only [List.length_append, List.length_replicate]
      omega
    rw [htake, hdrop, hsub] at hread
    simp only [hpred, readMany, hread, bind, Except.bind, pure, Except.pure]
    have hf := fill_NewReader_append (List.replicate 14 0) (more ++ tail)
      (by simp [defaultBufSize_eq])
    unfold NewReader at hf
    rw [decodeAfterPool_fill, hf]
    exact decodeAfterPool_empty_of_length _ _ _ _ _ rfl

set_option maxRecDepth 100000 in
/-- Witness of C7: a pool count of 5 followed by a Long, a Utf8, a Double and an
Integer entry gives a pool of four entries in that order, the Utf8 entry in the
slot right after the Long; and a file of 5013 bytes whose only entry is a Utf8
text of 5000 bytes (4083 bytes `a`, 14 zero bytes, 903 bytes `b`) gives a pool
whose text ends in 917 zero bytes, which is not the text of the file. -/
theorem NewJavaClass_pool_in_file_order_witness :
    NewJavaClass (NewReader (classHeader 0 52 5 ++
        ([[5, 0, 0, 0, 1, 0, 0, 0, 0], [1, 0, 1, 0x41], [6, 0x3F, 0xF0, 0, 0, 0, 0, 0, 0],
          [3, 0, 0, 0, 7]].flatten ++ List.replicate 14 0)))
      = .ok ⟨ascii (toString 52 ++ "." ++ toString 0),
          [⟨5, .ConstantLong 4294967296⟩, ⟨1, .ConstantUtf8 [0x41]⟩,
           ⟨6, .ConstantDouble ⟨0x43CFF80000000000⟩⟩, ⟨3, .ConstantInteger 7⟩],
          [], [], [], [], 0, 0, 0⟩ ∧
    NewJavaClass (NewReader (classHeader 0 52 2 ++
        (encodeConstant ⟨ConstantUtf8Tag, .ConstantUtf8
          (List.replicate 4083 0x61 ++ (List.replicate 14 0 ++ List.replicate 903 0x62))⟩
          ++ [])))
      = .ok ⟨ascii (toString 52 ++ "." ++ toString 0),
          [⟨ConstantUtf8Tag, .ConstantUtf8 (List.replicate 4083 0x61
            ++ List.replicate 917 0)⟩],
          [], [], [], [], 0, 0, 0⟩ ∧
    (List.replicate 4083 (0x61 : Byte) ++ List.replicate 917 0)
      ≠ List.replicate 4083 0x61 ++ (List.replicate 14 0 ++ List.replicate 903 0x62) :=
  ⟨(NewJavaClass_pool_in_file_order 0 52 5
    [[5, 0, 0, 0, 1, 0, 0, 0, 0], [1, 0, 1, 0x41], [6, 0x3F, 0xF0, 0, 0, 0, 0, 0, 0],
      [3, 0, 0, 0, 7]]
    [⟨5, .ConstantLong 4294967296⟩, ⟨1, .ConstantUtf8 [0x41]⟩,
      ⟨6, .ConstantDouble ⟨0x43CFF80000000000⟩⟩, ⟨3, .ConstantInteger 7⟩]
    [] (by decide) (by decide) (by decide) (by decide) rfl
    (List.Forall₂.cons
      (fun b rd => ReadConstantPool_long_eq 1 0 b rd _ rfl (by decide) (by decide))
      (List.Forall₂.cons
        (fun b rd => ReadConstantPool_encode ⟨1, .ConstantUtf8 [0x41]⟩ b rd _ rfl
          ⟨rfl, by decide⟩)
        (List.Forall₂.cons
          (fun b rd => ReadConstantPool_double_eq 0x3FF00000 0 b rd _ rfl (by decide)
            (by decide))
          (List.Forall₂.cons
            (fun b rd => ReadConstantPool_encode ⟨3, .ConstantInteger 7⟩ b rd _ rfl
              ⟨rfl, by decide, by decide⟩)
            List.Forall₂.nil))))).2.1 (by decide),
   (NewJavaClass_pool_in_file_order 0 52 1 [] [] [] (by decide) (by decide) (by decide)
    (by decide) rfl List.Forall₂.nil).2.2 (List.replicate 4083 0x61) (List.replicate 903 0x62)
    (by simp only [List.length_replicate, defaultBufSize])
    (by simp only [List.length_append, List.length_replicate]; decide),
   by
    intro h
    have h2 := congrArg (fun l => l[14]?) (List.append_cancel_left h)
    simp [List.getElem?_append_right, List.getElem?_replicate] at h2⟩

/-- C4 (the code at the failing inputs). `ReadSection` accepts a partial read:
whenever at least one byte remains it reports no error, whatever the length of
the buffer, and the cells it could not fill keep their old contents. So an
input holding only the first three magic bytes is answered with the bad-magic
error, not with the error of a truncated input, and a class file whose last
byte is missing is decoded to the same class as the complete file. -/
theorem NewJavaClass_accepts_partial_reads :
    (∀ (r : Reader) (buffer : List Byte), r.buf = [] ∨ r.rd = [] → r.buf ++ r.rd ≠ [] →
      (r.buf ++ r.rd).length < buffer.length →
      ReadSection r buffer
        = .ok ((r.buf ++ r.rd) ++ buffer.drop (r.buf ++ r.rd).length, ⟨[], []⟩)) ∧
    NewJavaClass (NewReader [0xCA, 0xFE, 0xBA]) = .error .badMagic ∧
    NewJavaClass (NewReader smallClassFile) = .ok smallClass ∧
    NewJavaClass (NewReader (smallClassFile.take 52)) = .ok smallClass ∧
    smallClassFile.length = 53 := by
  refine ⟨fun r buffer hr hne hlen => ?_, rfl, rfl, rfl, rfl⟩
  obtain ⟨buf, rd⟩ := r
  simp only at hr hne hlen ⊢
  have h2 : buffer.length ≠ 0 := by omega
  rcases hr with rfl | rfl
  · simp only [List.nil_append] at hne hlen ⊢
    have h1 : rd.length ≠ 0 := fun h => hne (List.length_eq_zero.mp h)
    by_cases hbig : defaultBufSize ≤ buffer.length
    · have h3 : min buffer.length rd.length = rd.length := by omega
      simp [ReadSection, Reader.Read, h1, h2, h3, hbig]
    · have h4 : rd.length ≤ defaultBufSize := by omega
      have h3 : min buffer.length rd.length = rd.length := by omega
      simp [ReadSection, Reader.Read, h1, h2, h3, hbig, List.take_of_length_le h4,
        List.drop_of_length_le h4]
  · simp only [List.append_nil] at hne hlen ⊢
    have h1 : buf.length ≠ 0 := fun h => hne (List.length_eq_zero.mp h)
    have h3 : min buffer.length buf.length = buf.length := by omega
    simp [ReadSection, Reader.Read, h1, h2, h3]

/-- C5. An attribute record is a `u16` name index, a `u32` length and a
payload of that length. For a reader whose buffer holds the whole record (or
gets it with its next fill; the buffer of a reader that the program reaches
holds at most `defaultBufSize` bytes), every successful `ReadAttribute` leaves exactly
the bytes after the record, whatever the kind, and returns the record's name
index with the type the pool gives for it; for a recognized kind without
structured payload it does succeed, with no data; and a second `ReadAttribute`
on the reader returned, when another record follows in the buffer, returns
that record's name index and type. On a fresh reader over a stream that holds
the whole record, a payload that reaches beyond the first `defaultBufSize`
bytes of the stream is not consumed whole: `ReadAttribute` succeeds all the
same and leaves the bytes `post` of the payload in the stream. -/
theorem ReadAttribute_consumes_record (pool : List ConstantInfo)
    (nameIndex : Nat) (payload rest buf : List Byte) (hb : buf.length = 4)
    (hi : nameIndex < 65536) (hl : payload.length < 4294967296) :
    (∀ (r : Reader) (b : List Byte), r.fill.buf = attributeRecord nameIndex payload ++ b →
      (∀ attr r', ReadAttribute pool r buf = .ok (attr, r') →
        r' = ⟨b, r.fill.rd⟩ ∧
        (attributeRecord nameIndex payload).length = 2 + (4 + payload.length) ∧
        attr.AttributeNameIndex = nameIndex ∧
        poolUtf8 pool nameIndex = .ok attr.AttributeType ∧
        IsAttributeType attr.AttributeType = true) ∧
      (∀ name, poolUtf8 pool nameIndex = .ok name → IsAttributeType name = true →
        name ≠ CodeAttr → name ≠ LineNumberTableAttr → name ≠ SourceFileAttr →
        ReadAttribute pool r buf = .ok (.mk nameIndex name .nil, ⟨b, r.fill.rd⟩)) ∧
      (∀ (nameIndex2 : Nat) (payload2 b2 buf2 : List Byte) (a1 a2 : AttributeInfo)
        (r1 r2 : Reader), b = attributeRecord nameIndex2 payload2 ++ b2 →
        buf2.length = 4 → nameIndex2 < 65536 → payload2.length < 4294967296 →
        ReadAttribute pool r buf = .ok (a1, r1) →
        ReadAttribute pool r1 buf2 = .ok (a2, r2) →
        a2.AttributeNameIndex = nameIndex2 ∧ poolUtf8 pool nameIndex2 = .ok a2.AttributeType ∧
        r2 = ⟨b2, r.fill.rd⟩)) ∧
    (∀ pre post : List Byte, payload = pre ++ post → pre.length = defaultBufSize - 6 →
      post ≠ [] →
      (∀ attr r', ReadAttribute pool (NewReader (attributeRecord nameIndex payload ++ rest)) buf
          = .ok (attr, r') → r' = ⟨[], post ++ rest⟩) ∧
      (∀ name, poolUtf8 pool nameIndex = .ok name → IsAttributeType name = true →
        name ≠ CodeAttr → name ≠ LineNumberTableAttr → name ≠ SourceFileAttr →
        ReadAttribute pool (NewReader (attributeRecord nameIndex payload ++ rest)) buf
          = .ok (.mk nameIndex name .nil, ⟨[], post ++ rest⟩))) := by
  refine ⟨fun r b hr => ⟨?_, ?_, ?_⟩, fun pre post hpay hpre hpost => ?_⟩
  · intro attr r' h
    rw [ReadAttribute_of_fill pool r buf _ hr, attributeRecord_append] at h
    obtain ⟨hw1, hw2, _⟩ := payload_whole payload b
    obtain ⟨g1, g2, g3, g4⟩ := ReadAttributeFuel_result _ pool nameIndex payload.length
      (payload ++ b) r.fill.rd buf hb hi hl hw1 attr r' h
    rw [hw2] at g1
    exact ⟨g1, by simp [attributeRecord, be16, be32]; omega, g2, g3, g4⟩
  · intro name hp hk h1 h2 h3
    rw [ReadAttribute_of_fill pool r buf _ hr, attributeRecord_append]
    obtain ⟨hw1, hw2, _⟩ := payload_whole payload b
    have := ReadAttributeFuel_opaque
      ((⟨be16 nameIndex ++ (be32 payload.length ++ (payload ++ b)), r.fill.rd⟩ : Reader).buf.length
        + r.fill.rd.length + buf.length)
      pool nameIndex payload.length (payload ++ b) r.fill.rd buf hb hi hl hw1 name hp hk h1 h2 h3
    rw [hw2] at this
    exact this
  · intro nameIndex2 payload2 b2 buf2 a1 a2 r1 r2 hrest hb2 hi2 hl2 ha1 ha2
    rw [ReadAttribute_of_fill pool r buf _ hr, attributeRecord_append] at ha1
    obtain ⟨hw1, hw2, _⟩ := payload_whole payload b
    obtain ⟨g1, _, _, _⟩ := ReadAttributeFuel_result _ pool nameIndex payload.length
      (payload ++ b) r.fill.rd buf hb hi hl hw1 a1 r1 ha1
    rw [hw2, hrest, attributeRecord_append] at g1
    rw [g1] at ha2
    obtain ⟨hv1, hv2, _⟩ := payload_whole payload2 b2
    obtain ⟨k1, k2, k3, _⟩ := ReadAttributeFuel_result _ pool nameIndex2 payload2.length
      (payload2 ++ b2) r.fill.rd buf2 hb2 hi2 hl2 hv1 a2 r2 ha2
    rw [hv2] at k1
    exact ⟨k2, k3, k1⟩
  · have hx : pre ≠ [] := by
      intro h0
      rw [h0, defaultBufSize_eq] at hpre
      simp at hpre
    have hsplit : attributeRecord nameIndex payload ++ rest
        = (be16 nameIndex ++ (be32 payload.length ++ pre)) ++ (post ++ rest) := by
      rw [attributeRecord_append, hpay]
      simp
    have hlen : (be16 nameIndex ++ (be32 payload.length ++ pre)).length = defaultBufSize := by
      simp only [List.length_append, be16_length, be32_length, hpre, defaultBufSize_eq]
    have hdrop : List.drop payload.length pre = [] :=
      List.drop_of_length_le (by rw [hpay, List.length_append]; omega)
    constructor
    · intro attr r' h
      rw [ReadAttribute_NewReader, hsplit, filled_exact _ _ hlen] at h
      obtain ⟨g1, _, _, _⟩ := ReadAttributeFuel_result _ pool nameIndex payload.length
        pre (post ++ rest) buf hb hi hl (Or.inl hx) attr r' h
      rw [hdrop] at g1
      exact g1
    · intro name hp hk h1 h2 h3
      rw [ReadAttribute_NewReader, hsplit, filled_exact _ _ hlen]
      have := ReadAttributeFuel_opaque
        ((⟨be16 nameIndex ++ (be32 payload.length ++ pre), post ++ rest⟩ : Reader).buf.length
          + (post ++ rest).length + buf.length)
        pool nameIndex payload.length pre (post ++ rest) buf hb hi hl (Or.inl hx) name hp hk
        h1 h2 h3
      rw [hdrop] at this
      exact this

/-- Witness of C5: a Signature record (name index 4, two payload bytes that are
not decoded) followed by one more byte is read with exactly that byte left;
a Signature record with a payload of 5000 bytes, followed by one more byte, is
read with the last 910 bytes of the payload left in the stream. -/
theorem ReadAttribute_consumes_record_witness :
    ReadAttribute attributePool (NewReader (attributeRecord 4 [0, 6] ++ [0xAA]))
        (List.replicate 4 0)
      = .ok (.mk 4 SignatureAttr .nil, ⟨[0xAA], []⟩) ∧
    ReadAttribute attributePool
        (NewReader (attributeRecord 4 (List.replicate 4090 0x61 ++ List.replicate 910 0x62)
          ++ [0xAA]))
        (List.replicate 4 0)
      = .ok (.mk 4 SignatureAttr .nil, ⟨[], List.replicate 910 0x62 ++ [0xAA]⟩) :=
  ⟨((ReadAttribute_consumes_record attributePool 4 [0, 6] [] (List.replicate 4 0) rfl
      (by decide) (by decide)).1 (NewReader (attributeRecord 4 [0, 6] ++ [0xAA])) [0xAA]
      (by rfl)).2.1 SignatureAttr (by decide) (by decide) (by decide) (by decide) (by decide),
   ((ReadAttribute_consumes_record attributePool 4
      (List.replicate 4090 0x61 ++ List.replicate 910 0x62) [0xAA] (List.replicate 4 0) rfl
      (by decide) (by simp only [List.length_append, List.length_replicate]; decide)).2
      (List.replicate 4090 0x61) (List.replicate 910 0x62) rfl
      (by simp only [List.length_replicate, defaultBufSize])
      (by simp only [ne_eq, List.replicate_eq_nil_iff]; decide)).2
      SignatureAttr (by decide) (by decide) (by decide) (by decide) (by decide)⟩

/-- C6 (the code at the failing input). A Code attribute that carries a
LineNumberTable followed by a StackMapTable is decoded with max-stack,
max-locals and code as encoded, but its nested list holds the LineNumberTable
twice: every iteration of the nested loop starts a fresh reader at the offset
of the first nested record. -/
theorem ReadAttribute_nested_repeats_first :
    ReadAttribute attributePool (NewReader codeWithTwoAttributes) (List.replicate 4 0)
      = .ok (.mk 1 CodeAttr (.Code (.mk 2 2 1 [0xB1] []
          [.mk 2 LineNumberTableAttr (.LineNumberTable [⟨0, 7⟩]),
           .mk 2 LineNumberTableAttr (.LineNumberTable [⟨0, 7⟩])])), NewReader []) := by
  rfl

/-- C8. Round trip of constant entries: for every constant value `e` of the
kinds Class, FieldRef, MethodRef, InterfaceMethodRef, StringRef, Integer,
NameAndType, Utf8, MethodHandle, MethodType and InvokeDynamic, and every
reader whose buffer holds the encoding of `e` (or gets it with its next fill;
the buffer of a reader that the program reaches holds at most `defaultBufSize`
bytes), `ReadConstantPool` returns `e` itself (its tag and its field values) and
leaves exactly the bytes after the encoding. On a fresh reader over a stream
that holds the whole encoding, a Utf8 text that reaches beyond the first
`defaultBufSize` bytes of the stream is not returned: `ReadConstantPool`
returns the part `pre` of the text that lies within them, followed by zero
bytes, and leaves the part `post` in the stream. -/
theorem ReadConstantPool_round_trip (e : ConstantInfo) (buf : List Byte)
    (hb : buf.length = 4) (hw : IsPlainConstant e) :
    (∀ (r : Reader) (b : List Byte), r.fill.buf = encodeConstant e ++ b →
      ReadConstantPool r buf = .ok (e, ⟨b, r.fill.rd⟩)) ∧
    (∀ pre post rest : List Byte, e = ⟨ConstantUtf8Tag, .ConstantUtf8 (pre ++ post)⟩ →
      pre.length = defaultBufSize - 3 → post ≠ [] →
      ReadConstantPool (NewReader (encodeConstant e ++ rest)) buf
        = .ok (⟨ConstantUtf8Tag, .ConstantUtf8 (pre ++ List.replicate post.length 0)⟩,
            ⟨[], post ++ rest⟩)) := by
  constructor
  · intro r b hr
    rw [ReadConstantPool_of_fill r buf _ hr]
    exact ReadConstantPool_encode e b r.fill.rd buf hb hw
  · intro pre post rest he hpre hpost
    subst he
    have hx : pre ≠ [] := by
      intro h0
      rw [h0, defaultBufSize_eq] at hpre
      simp at hpre
    have hsplit : encodeConstant ⟨ConstantUtf8Tag, .ConstantUtf8 (pre ++ post)⟩ ++ rest
        = (ConstantUtf8Tag :: (be16 (pre ++ post).length ++ pre)) ++ (post ++ rest) := by
      simp [encodeConstant]
    have hlen : (ConstantUtf8Tag :: (be16 (pre ++ post).length ++ pre)).length
        = defaultBufSize := by
      simp only [List.length_append, List.length_cons, be16_length, hpre, defaultBufSize_eq]
    rw [ReadConstantPool_NewReader, hsplit, filled_exact _ _ hlen,
      ReadConstantPool_utf8_reads (pre ++ post).length pre (post ++ rest) buf hb hw.2
        (Or.inl hx),
      List.take_of_length_le (by simp), List.drop_of_length_le (by simp)]
    simp

set_option maxRecDepth 100000 in
/-- Witness of C8: the Utf8 entry `main` followed by two more bytes; and the
Utf8 entry of 5000 bytes (4093 bytes `a`, 907 bytes `b`) followed by two more
bytes, which is returned with 907 zero bytes in the place of the bytes `b`,
a text other than the one encoded. -/
theorem ReadConstantPool_round_trip_witness :
    ReadConstantPool
        (NewReader (encodeConstant ⟨1, .ConstantUtf8 (ascii "main")⟩ ++ [7, 0]))
        (List.replicate 4 0)
      = .ok (⟨1, .ConstantUtf8 (ascii "main")⟩, ⟨[7, 0], []⟩) ∧
    ReadConstantPool
        (NewReader (encodeConstant
          ⟨ConstantUtf8Tag, .ConstantUtf8 (List.replicate 4093 0x61 ++ List.replicate 907 0x62)⟩
          ++ [7, 0]))
        (List.replicate 4 0)
      = .ok (⟨ConstantUtf8Tag, .ConstantUtf8 (List.replicate 4093 0x61
            ++ List.replicate 907 0)⟩,
          ⟨[], List.replicate 907 0x62 ++ [7, 0]⟩) ∧
    (List.replicate 4093 (0x61 : Byte) ++ List.replicate 907 0)
      ≠ List.replicate 4093 0x61 ++ List.replicate 907 0x62 :=
  ⟨(ReadConstantPool_round_trip ⟨1, .ConstantUtf8 (ascii "main")⟩ (List.replicate 4 0) rfl
      ⟨rfl, by decide⟩).1
      (NewReader (encodeConstant ⟨1, .ConstantUtf8 (ascii "main")⟩ ++ [7, 0])) [7, 0] (by rfl),
   (ReadConstantPool_round_trip
      ⟨ConstantUtf8Tag, .ConstantUtf8 (List.replicate 4093 0x61 ++ List.replicate 907 0x62)⟩
      (List.replicate 4 0) rfl
      ⟨rfl, by simp only [List.length_append, List.length_replicate]; decide⟩).2
      (List.replicate 4093 0x61) (List.replicate 907 0x62) [7, 0] rfl
      (by simp only [List.length_replicate, defaultBufSize])
      (by simp only [ne_eq, List.replicate_eq_nil_iff]; decide),
   by
    intro h
    have h2 := congrArg (fun l => l[0]?) (List.append_cancel_left h)
    simp at h2⟩

/-- C10 (the code at the failing inputs). The Float payload 3F 80 00 00 is
decoded to the `float32` nearest to the integer 1065353216 (bit pattern
4E7E0000), not to 1.0 (bit pattern 3F800000); the Double payload
3F F0 00 00 00 00 00 00 is decoded to the `float64` of the integer
4607182418800017408 (bit pattern 43CFF80000000000), not to 1.0: the code
converts the integer numerically instead of reinterpreting its bits. -/
theorem ReadConstantPool_float_is_converted :
    ReadConstantPool (NewReader [4, 0x3F, 0x80, 0, 0]) (List.replicate 4 0)
      = .ok (⟨4, .ConstantFloat ⟨0x4E7E0000⟩⟩, NewReader []) ∧
    F32.toRat ⟨0x4E7E0000⟩ = 1065353216 ∧ F32.toRat ⟨0x3F800000⟩ = 1 ∧
    ReadConstantPool (NewReader [6, 0x3F, 0xF0, 0, 0, 0, 0, 0, 0]) (List.replicate 4 0)
      = .ok (⟨6, .ConstantDouble ⟨0x43CFF80000000000⟩⟩, NewReader []) ∧
    F64.toRat ⟨0x43CFF80000000000⟩ = 4607182418800017408 ∧
    F64.toRat ⟨0x3FF0000000000000⟩ = 1 := by
  refine ⟨by decide, ?_, ?_, by decide, ?_, ?_⟩ <;> norm_num [F32.toRat, F64.toRat]

/-! ## The nesting bound of ReadAttribute -/

theorem nonzeroCount_append (a b : List Byte) :
    nonzeroCount (a ++ b) = nonzeroCount a + nonzeroCount b := by
  simp [nonzeroCount, List.countP_append]

theorem nonzeroCount_take_add_drop (l : List Byte) (k : Nat) :
    nonzeroCount (l.take k) + nonzeroCount (l.drop k) = nonzeroCount l := by
  rw [← nonzeroCount_append, List.take_append_drop]

theorem nonzeroCount_drop_le (l : List Byte) (k : Nat) :
    nonzeroCount (l.drop k) ≤ nonzeroCount l := by
  have := nonzeroCount_take_add_drop l k; omega

theorem nonzeroCount_replicate_zero (n : Nat) : nonzeroCount (List.replicate n 0) = 0 := by
  simp [nonzeroCount, List.countP_replicate]

theorem nonzeroCount_le_length (l : List Byte) : nonzeroCount l ≤ l.length :=
  List.countP_le_length _

/-- What a successful `Read` does: the first `k` bytes not yet delivered are
copied to the front of `p`, for some `k` within the length of `p`. -/
theorem Read_ok (r : Reader) (p : List Byte) (n : Nat) (p' : List Byte) (r' : Reader)
    (h : Reader.Read r p = .ok (n, p', r')) :
    ∃ k, p' = (r.buf ++ r.rd).take k ++ p.drop k ∧ r'.buf ++ r'.rd = (r.buf ++ r.rd).drop k ∧
      k ≤ p.length ∧ k ≤ (r.buf ++ r.rd).length := by
  obtain ⟨buf, rd⟩ := r
  unfold Reader.Read at h
  simp only at h ⊢
  split_ifs at h with h1 h2 h3 h4
  · simp only [Except.ok.injEq, Prod.mk.injEq] at h
    obtain ⟨_, rfl, rfl⟩ := h
    exact ⟨0, by simp, by simp, by omega, by omega⟩
  · simp only [Except.ok.injEq, Prod.mk.injEq] at h
    obtain ⟨_, rfl, rfl⟩ := h
    have hb : buf = [] := List.length_eq_zero.mp h2
    subst hb
    exact ⟨min p.length rd.length, by simp, by simp, by omega, by simp⟩
  · simp only [Except.ok.injEq, Prod.mk.injEq] at h
    obtain ⟨_, rfl, rfl⟩ := h
    have hb : buf = [] := List.length_eq_zero.mp h2
    subst hb
    refine ⟨min p.length (List.take defaultBufSize rd).length, ?_, ?_, by omega, ?_⟩
    · rw [List.take_take, List.nil_append]
      congr 2
      simp only [List.length_take]
      omega
    · simp only [List.nil_append]
      have hk : min p.length (List.take defaultBufSize rd).length
          ≤ (List.take defaultBufSize rd).length := by omega
      rw [← List.drop_append_of_le_length hk, List.take_append_drop]
    · simp only [List.nil_append, List.length_take]
      omega
  · simp only [Except.ok.injEq, Prod.mk.injEq] at h
    obtain ⟨_, rfl, rfl⟩ := h
    have hk : min p.length buf.length ≤ buf.length := by omega
    refine ⟨min p.length buf.length, ?_, ?_, by omega, ?_⟩
    · rw [List.take_append_of_le_length hk]
    · simp only
      rw [List.drop_append_of_le_length hk]
    · rw [List.length_append]; omega

theorem Read_error (r : Reader) (p : List Byte) (e : Err) (h : Reader.Read r p = .error e) :
    e = .eof := by
  unfold Reader.Read at h
  split_ifs at h
  cases h; rfl

theorem ReadSection_ok (r : Reader) (p p' : List Byte) (r' : Reader)
    (h : ReadSection r p = .ok (p', r')) :
    ∃ k, p' = (r.buf ++ r.rd).take k ++ p.drop k ∧ r'.buf ++ r'.rd = (r.buf ++ r.rd).drop k ∧
      k ≤ p.length ∧ k ≤ (r.buf ++ r.rd).length := by
  unfold ReadSection at h
  cases hr : Reader.Read r p with
  | error e => simp [hr] at h
  | ok v =>
    obtain ⟨n, p2, r2⟩ := v
    simp only [hr, Except.ok.injEq, Prod.mk.injEq] at h
    obtain ⟨rfl, rfl⟩ := h
    exact Read_ok r p n _ _ hr

theorem ReadSection_error (r : Reader) (p : List Byte) (e : Err)
    (h : ReadSection r p = .error e) : e = .eof := by
  unfold ReadSection at h
  cases hr : Reader.Read r p with
  | error e' =>
    simp only [hr, Except.error.injEq] at h
    subst h
    exact Read_error r p _ hr
  | ok v => simp [hr] at h

/-- A read moves bytes from the stream into the slice: the number of nonzero
bytes of the two together does not grow. -/
theorem Read_nonzeroCount (r : Reader) (p : List Byte) (n : Nat) (p' : List Byte)
    (r' : Reader) (h : Reader.Read r p = .ok (n, p', r')) :
    nonzeroCount p' + nonzeroCount (r'.buf ++ r'.rd)
      ≤ nonzeroCount p + nonzeroCount (r.buf ++ r.rd) := by
  obtain ⟨k, e1, e2, -, -⟩ := Read_ok r p n p' r' h
  rw [e1, e2, nonzeroCount_append]
  have h1 := nonzeroCount_take_add_drop (r.buf ++ r.rd) k
  have h2 := nonzeroCount_drop_le p k
  omega

theorem ReadSection_nonzeroCount (r : Reader) (p p' : List Byte) (r' : Reader)
    (h : ReadSection r p = .ok (p', r')) :
    nonzeroCount p' + nonzeroCount (r'.buf ++ r'.rd)
      ≤ nonzeroCount p + nonzeroCount (r.buf ++ r.rd) := by
  unfold ReadSection at h
  cases hr : Reader.Read r p with
  | error e => simp [hr] at h
  | ok v =>
    obtain ⟨n, p2, r2⟩ := v
    simp only [hr, Except.ok.injEq, Prod.mk.injEq] at h
    obtain ⟨rfl, rfl⟩ := h
    exact Read_nonzeroCount r p n _ _ hr

theorem ReadSectionTo_nonzeroCount (r : Reader) (b : List Byte) (k : Nat) (b' : List Byte)
    (r' : Reader) (h : ReadSectionTo r b k = .ok (b', r')) :
    nonzeroCount b' + nonzeroCount (r'.buf ++ r'.rd)
      ≤ nonzeroCount b + nonzeroCount (r.buf ++ r.rd) := by
  unfold ReadSectionTo sliceTo at h
  split_ifs at h
  · simp only [bind, Except.bind] at h
    cases hr : ReadSection r (List.take k b) with
    | error e => simp [hr] at h
    | ok v =>
      obtain ⟨p2, r2⟩ := v
      simp only [hr, pure, Except.pure, Except.ok.injEq, Prod.mk.injEq] at h
      obtain ⟨rfl, rfl⟩ := h
      have h1 := ReadSection_nonzeroCount _ _ _ _ hr
      have h2 := nonzeroCount_take_add_drop b k
      rw [nonzeroCount_append]
      omega
  · simp [bind, Except.bind] at h

theorem ReadSectionTo_error (r : Reader) (b : List Byte) (k : Nat) (e : Err)
    (h : ReadSectionTo r b k = .error e) : e ≠ .fuel := by
  unfold ReadSectionTo sliceTo at h
  split_ifs at h
  · simp only [bind, Except.bind] at h
    cases hr : ReadSection r (List.take k b) with
    | error e' =>
      simp only [hr, Except.error.injEq] at h
      subst h
      rw [ReadSection_error _ _ _ hr]; decide
    | ok v => simp [hr, pure, Except.pure] at h
  · simp only [bind, Except.bind, Except.error.injEq] at h
    subst h; decide

theorem Uint32_pos (b : List Byte) (n : Nat) (h : Uint32 b = .ok n) (hn : 0 < n) :
    0 < nonzeroCount b := by
  unfold Uint32 at h
  match b, h with
  | b0 :: b1 :: b2 :: b3 :: tl, h =>
    simp only [Except.ok.injEq] at h
    by_contra hz
    have hz' : nonzeroCount (b0 :: b1 :: b2 :: b3 :: tl) = 0 := by omega
    simp only [nonzeroCount, List.countP_eq_zero, List.mem_cons, decide_eq_true_eq,
      Decidable.not_not] at hz'
    have h0 := hz' b0 (by simp)
    have h1 := hz' b1 (by simp)
    have h2 := hz' b2 (by simp)
    have h3 := hz' b3 (by simp)
    subst h0 h1 h2 h3
    simp at h
    omega

/-- A counted loop reports an exhausted bound only when one run of its body does. -/
theorem forRange_error_fuel {α : Type} (body : Nat → Except Err α) (n : Nat) :
    ∀ i, forRange body i n = .error .fuel → ∃ j, body j = .error .fuel := by
  induction n with
  | zero => intro i h; simp [forRange] at h
  | succ n ih =>
    intro i h
    simp only [forRange, bind, Except.bind] at h
    cases hb : body i with
    | error e =>
      simp only [hb, Except.error.injEq] at h
      exact ⟨i, by rw [hb, h]⟩
    | ok x =>
      simp only [hb] at h
      cases hr : forRange body (i + 1) n with
      | error e =>
        simp only [hr, Except.error.injEq] at h
        exact ih (i + 1) (by rw [hr, h])
      | ok xs => simp [hr, pure, Except.pure] at h

theorem Uint16_error (b : List Byte) (e : Err) (h : Uint16 b = .error e) : e = .panic := by
  unfold Uint16 at h
  split at h <;> cases h
  rfl

theorem Uint16_length (b : List Byte) (n : Nat) (h : Uint16 b = .ok n) : 2 ≤ b.length := by
  unfold Uint16 at h
  split at h
  · simp
  · cases h

theorem Uint32_error (b : List Byte) (e : Err) (h : Uint32 b = .error e) : e = .panic := by
  unfold Uint32 at h
  split at h <;> cases h
  rfl

theorem sliceFrom_error (b : List Byte) (k : Nat) (e : Err) (h : sliceFrom b k = .error e) :
    e = .panic := by
  unfold sliceFrom at h
  split_ifs at h
  cases h; rfl

theorem sliceFrom_ok (b : List Byte) (k : Nat) (s : List Byte) (h : sliceFrom b k = .ok s) :
    s = b.drop k := by
  unfold sliceFrom at h
  split_ifs at h
  cases h; rfl

theorem poolUtf8_error (pool : List ConstantInfo) (i : Nat) (e : Err)
    (h : poolUtf8 pool i = .error e) : e = .panic := by
  rcases poolUtf8_cases pool i with h' | ⟨s, h'⟩
  · rw [h'] at h; cases h; rfl
  · rw [h'] at h; cases h

/-- The payload buffer of an attribute, when it is not empty, holds fewer
nonzero bytes than the stream and the 4-byte buffer held together before the
four length bytes were read: the length is positive, so one of the four cells
of the buffer is not zero after that read. -/
theorem nonzeroCount_nested_lt (r1 : Reader) (buf1 buf2 : List Byte) (r2 : Reader)
    (info : List Byte) (r3 : Reader) (L n : Nat)
    (h4 : ReadSection r1 buf1 = .ok (buf2, r2)) (h5 : Uint32 buf2 = .ok L)
    (h6 : Reader.Read r2 (List.replicate L 0) = .ok (n, info, r3)) (hi : info ≠ [])
    (off : Nat) :
    nonzeroCount (info.drop off) < nonzeroCount buf1 + nonzeroCount (r1.buf ++ r1.rd) := by
  have e1 := ReadSection_nonzeroCount _ _ _ _ h4
  have e2 := Read_nonzeroCount _ _ _ _ _ h6
  rw [nonzeroCount_replicate_zero] at e2
  obtain ⟨k, e3, -, hk, hk'⟩ := Read_ok _ _ _ _ _ h6
  have hL : 0 < L := by
    rcases Nat.eq_zero_or_pos L with h0 | h0
    · subst h0
      simp only [List.length_replicate, Nat.le_zero_eq] at hk
      subst hk
      simp at e3
      exact absurd e3 hi
    · exact h0
  have hpos := Uint32_pos _ _ h5 hL
  have := nonzeroCount_drop_le info off
  omega

/-- A nesting bound above the number of nonzero bytes of the stream and of the
buffer passed is never exhausted. -/
theorem ReadAttributeFuel_ne_fuel (pool : List ConstantInfo) :
    ∀ (fuel : Nat) (r : Reader) (buf : List Byte),
      nonzeroCount buf + nonzeroCount (r.buf ++ r.rd) < fuel →
      ReadAttributeFuel fuel pool r buf ≠ .error .fuel := by
  intro fuel
  induction fuel with
  | zero => intro r buf h; omega
  | succ fuel ih =>
    intro r buf hnz hc
    simp only [ReadAttributeFuel, bind, Except.bind, pure, Except.pure] at hc
    cases h1 : ReadSectionTo r buf 2 with
    | error e =>
      simp only [h1, Except.error.injEq] at hc
      exact ReadSectionTo_error _ _ _ _ h1 hc
    | ok v1 =>
      obtain ⟨buf1, r1⟩ := v1
      have hle := ReadSectionTo_nonzeroCount _ _ _ _ _ h1
      simp only [h1] at hc
      cases h2 : Uint16 buf1 with
      | error e =>
        simp only [h2, Except.error.injEq] at hc
        have := Uint16_error _ _ h2
        rw [hc] at this; cases this
      | ok nameIndex =>
        simp only [h2] at hc
        cases h3 : poolUtf8 pool nameIndex with
        | error e =>
          simp only [h3, Except.error.injEq] at hc
          have := poolUtf8_error _ _ _ h3
          rw [hc] at this; cases this
        | ok name =>
          simp only [h3] at hc
          split at hc
          · cases hc
          cases h4 : ReadSection r1 buf1 with
          | error e =>
            simp only [h4, Except.error.injEq] at hc
            have := ReadSection_error _ _ _ h4
            rw [hc] at this; cases this
          | ok v4 =>
            obtain ⟨buf2, r2⟩ := v4
            simp only [h4] at hc
            cases h5 : Uint32 buf2 with
            | error e =>
              simp only [h5, Except.error.injEq] at hc
              have := Uint32_error _ _ h5
              rw [hc] at this; cases this
            | ok L =>
              simp only [h5] at hc
              cases h6 : Reader.Read r2 (List.replicate L 0) with
              | error e =>
                simp only [h6, Except.error.injEq] at hc
                have := Read_error _ _ _ h6
                rw [hc] at this; cases this
              | ok v6 =>
                obtain ⟨n, info, r3⟩ := v6
                simp only [h6] at hc
                have key := nonzeroCount_nested_lt r1 buf1 buf2 r2 info r3 L n h4 h5 h6
                have hlt : ∀ x, Uint16 info = .ok x → ∀ v off, sliceFrom info off = .ok v →
                    nonzeroCount (List.replicate 4 (0 : Byte))
                      + nonzeroCount ((NewReader v).buf ++ (NewReader v).rd) < fuel := by
                  intro x hx v off hv
                  have hi : info ≠ [] := by
                    intro h0
                    have := Uint16_length info x hx
                    rw [h0] at this
                    simp at this
                  rw [sliceFrom_ok _ _ _ hv, nonzeroCount_replicate_zero]
                  have := key hi off
                  simp only [NewReader, List.nil_append]
                  omega
                repeat' split at hc
                all_goals cases hc
                all_goals first
                  | exact absurd (Uint16_error _ _ (by assumption)) (by decide)
                  | exact absurd (sliceFrom_error _ _ _ (by assumption)) (by decide)
                  | exact absurd (Uint32_error _ _ (by assumption)) (by decide)
                  | exact absurd (poolUtf8_error _ _ _ (by assumption)) (by decide)
                  | skip
                all_goals
                  obtain ⟨j, hj⟩ := forRange_error_fuel _ _ _ (by assumption)
                  try dsimp only at hj
                  repeat' split at hj
                all_goals cases hj
                all_goals first
                  | exact absurd (Uint16_error _ _ (by assumption)) (by decide)
                  | exact absurd (sliceFrom_error _ _ _ (by assumption)) (by decide)
                  | skip
                all_goals
                  refine ih _ _ ?_ (by assumption)
                  exact hlt _ (by assumption) _ _ (by assumption)

/-- The function `ReadAttribute` never reports an exhausted bound. -/
theorem ReadAttribute_ne_fuel (pool : List ConstantInfo) (r : Reader) (buf : List Byte) :
    ReadAttribute pool r buf ≠ .error .fuel := by
  refine ReadAttributeFuel_ne_fuel pool _ r buf ?_
  have h1 := nonzeroCount_le_length buf
  have h2 := nonzeroCount_le_length (r.buf ++ r.rd)
  rw [List.length_append] at h2
  omega

/-- Two nesting bounds above the number of nonzero bytes of the stream and of
the buffer passed give the same outcome. -/
theorem ReadAttributeFuel_eq (pool : List ConstantInfo) :
    ∀ (f g : Nat) (r : Reader) (buf : List Byte),
      nonzeroCount buf + nonzeroCount (r.buf ++ r.rd) < f →
      nonzeroCount buf + nonzeroCount (r.buf ++ r.rd) < g →
      ReadAttributeFuel f pool r buf = ReadAttributeFuel g pool r buf := by
  intro f
  induction f with
  | zero => intro g r buf h; omega
  | succ f ih =>
    intro g r buf hf hg
    cases g with
    | zero => omega
    | succ g =>
    simp only [ReadAttributeFuel, bind, Except.bind, pure, Except.pure]
    cases h1 : ReadSectionTo r buf 2 with
    | error e => rfl
    | ok v1 =>
      obtain ⟨buf1, r1⟩ := v1
      have hle := ReadSectionTo_nonzeroCount _ _ _ _ _ h1
      dsimp only
      cases h4 : ReadSection r1 buf1 with
      | error e => rfl
      | ok v4 =>
        obtain ⟨buf2, r2⟩ := v4
        dsimp only
        cases h5 : Uint32 buf2 with
        | error e => rfl
        | ok L =>
          dsimp only
          cases h6 : Reader.Read r2 (List.replicate L 0) with
          | error e => rfl
          | ok v6 =>
            obtain ⟨n, info, r3⟩ := v6
            dsimp only
            have key := nonzeroCount_nested_lt r1 buf1 buf2 r2 info r3 L n h4 h5 h6
            cases hx : Uint16 info with
            | error e => rfl
            | ok x =>
              have hi : info ≠ [] := by
                intro h0
                have := Uint16_length info x hx
                rw [h0] at this
                simp at this
              have hoff : ∀ off,
                  (sliceFrom info off >>= fun v =>
                    ReadAttributeFuel f pool (NewReader v) (List.replicate 4 0) >>= fun w =>
                      (pure w.1 : Except Err AttributeInfo)) =
                  (sliceFrom info off >>= fun v =>
                    ReadAttributeFuel g pool (NewReader v) (List.replicate 4 0) >>= fun w =>
                      (pure w.1 : Except Err AttributeInfo)) := by
                intro off
                cases hs : sliceFrom info off with
                | error e => rfl
                | ok v =>
                  have hk := key hi off
                  have hv := sliceFrom_ok _ _ _ hs
                  subst hv
                  simp only [bind, Except.bind]
                  have hz : nonzeroCount (List.replicate 4 (0 : Byte))
                      + nonzeroCount ((NewReader (info.drop off)).buf
                        ++ (NewReader (info.drop off)).rd) = nonzeroCount (info.drop off) := by
                    rw [nonzeroCount_replicate_zero]
                    simp only [NewReader, List.nil_append]
                    omega
                  rw [ih g (NewReader (info.drop off)) _ (by omega) (by omega)]
              simp only [bind, Except.bind, pure, Except.pure] at hoff
              simp only [hoff]

/-- Every sufficient nesting bound gives the outcome of `ReadAttribute`. -/
theorem ReadAttributeFuel_eq_ReadAttribute (pool : List ConstantInfo) (fuel : Nat)
    (r : Reader) (buf : List Byte)
    (h : nonzeroCount buf + nonzeroCount (r.buf ++ r.rd) < fuel) :
    ReadAttributeFuel fuel pool r buf = ReadAttribute pool r buf := by
  refine ReadAttributeFuel_eq pool fuel _ r buf h ?_
  have h1 := nonzeroCount_le_length buf
  have h2 := nonzeroCount_le_length (r.buf ++ r.rd)
  rw [List.length_append] at h2
  omega

theorem sliceTo_error (b : List Byte) (k : Nat) (e : Err) (h : sliceTo b k = .error e) :
    e = .panic := by
  unfold sliceTo at h
  split_ifs at h
  cases h; rfl

theorem twoUint16_error (b : List Byte) (e : Err) (h : twoUint16 b = .error e) :
    e = .panic := by
  simp only [twoUint16, bind, Except.bind, pure, Except.pure] at h
  repeat' split at h
  all_goals cases h
  all_goals first
    | exact Uint16_error _ _ (by assumption)
    | exact sliceFrom_error _ _ _ (by assumption)

theorem readMany_error_fuel {α : Type} (f : Reader → Except Err (α × Reader)) (n : Nat) :
    ∀ r, readMany f n r = .error .fuel → ∃ r', f r' = .error .fuel := by
  induction n with
  | zero => intro r h; simp [readMany] at h
  | succ n ih =>
    intro r h
    simp only [readMany, bind, Except.bind, pure, Except.pure] at h
    repeat' split at h
    all_goals cases h
    · exact ⟨_, by assumption⟩
    · exact ih _ (by assumption)

theorem readInterfaces_ne_fuel (n : Nat) :
    ∀ r buf, readInterfaces n r buf ≠ .error .fuel := by
  induction n with
  | zero => intro r buf h; simp [readInterfaces] at h
  | succ n ih =>
    intro r buf h
    simp only [readInterfaces, bind, Except.bind, pure, Except.pure] at h
    repeat' split at h
    all_goals cases h
    all_goals first
      | exact ReadSectionTo_error _ _ _ _ (by assumption) rfl
      | exact absurd (Uint16_error _ _ (by assumption)) (by decide)
      | exact absurd (sliceTo_error _ _ _ (by assumption)) (by decide)
      | exact ih _ _ (by assumption)

theorem ReadConstantPool_ne_fuel (r : Reader) (buf : List Byte) :
    ReadConstantPool r buf ≠ .error .fuel := by
  intro h
  simp only [ReadConstantPool, bind, Except.bind, pure, Except.pure, throw, throwThe,
    MonadExceptOf.throw] at h
  repeat' split at h
  all_goals cases h
  all_goals first
    | exact ReadSectionTo_error _ _ _ _ (by assumption) rfl
    | exact absurd (ReadSection_error _ _ _ (by assumption)) (by decide)
    | exact absurd (Uint16_error _ _ (by assumption)) (by decide)
    | exact absurd (Uint32_error _ _ (by assumption)) (by decide)
    | exact absurd (twoUint16_error _ _ (by assumption)) (by decide)
    | exact absurd (sliceFrom_error _ _ _ (by assumption)) (by decide)

theorem readMany_ReadAttribute_ne_fuel (pool : List ConstantInfo) (n : Nat) (r : Reader) :
    readMany (fun r => ReadAttribute pool r (List.replicate 4 0)) n r ≠ .error .fuel := by
  intro h
  obtain ⟨r', hr⟩ := readMany_error_fuel _ _ _ h
  exact ReadAttribute_ne_fuel _ _ _ hr

theorem ReadField_ne_fuel (pool : List ConstantInfo) (r : Reader) (buf : List Byte) :
    ReadField pool r buf ≠ .error .fuel := by
  intro h
  simp only [ReadField, bind, Except.bind, pure, Except.pure] at h
  repeat' split at h
  all_goals cases h
  all_goals first
    | exact absurd (ReadSection_error _ _ _ (by assumption)) (by decide)
    | exact absurd (Uint16_error _ _ (by assumption)) (by decide)
    | exact absurd (sliceFrom_error _ _ _ (by assumption)) (by decide)
    | exact readMany_ReadAttribute_ne_fuel _ _ _ (by assumption)

theorem ReadMethod_ne_fuel (pool : List ConstantInfo) (r : Reader) (buf : List Byte) :
    ReadMethod pool r buf ≠ .error .fuel := by
  intro h
  simp only [ReadMethod, bind, Except.bind, pure, Except.pure] at h
  repeat' split at h
  all_goals cases h
  all_goals first
    | exact absurd (ReadSection_error _ _ _ (by assumption)) (by decide)
    | exact absurd (Uint16_error _ _ (by assumption)) (by decide)
    | exact absurd (sliceFrom_error _ _ _ (by assumption)) (by decide)
    | exact absurd (poolUtf8_error _ _ _ (by assumption)) (by decide)
    | exact readMany_ReadAttribute_ne_fuel _ _ _ (by assumption)

theorem decodeAfterPool_ne_fuel (version : List Byte) (pool : List ConstantInfo)
    (r : Reader) (buf : List Byte) : decodeAfterPool version pool r buf ≠ .error .fuel := by
  intro h
  simp only [decodeAfterPool, bind, Except.bind, pure, Except.pure] at h
  repeat' split at h
  all_goals cases h
  all_goals first
    | exact ReadSectionTo_error _ _ _ _ (by assumption) rfl
    | exact absurd (Uint16_error _ _ (by assumption)) (by decide)
    | exact absurd (sliceTo_error _ _ _ (by assumption)) (by decide)
    | exact readInterfaces_ne_fuel _ _ _ (by assumption)
    | exact readMany_ReadAttribute_ne_fuel _ _ _ (by assumption)
    | (obtain ⟨r', hr⟩ := readMany_error_fuel _ _ _ (by assumption)
       first
         | exact ReadField_ne_fuel _ _ _ hr
         | exact ReadMethod_ne_fuel _ _ _ hr)

/-- The function `NewJavaClass` never reports an exhausted bound. -/
theorem NewJavaClass_ne_fuel (javaClassFile : Reader) :
    NewJavaClass javaClassFile ≠ .error .fuel := by
  intro h
  simp only [NewJavaClass, bind, Except.bind, pure, Except.pure, throw, throwThe,
    MonadExceptOf.throw] at h
  repeat' split at h
  all_goals first
    | exact decodeAfterPool_ne_fuel _ _ _ _ h
    | cases h
  all_goals first
    | exact ReadSectionTo_error _ _ _ _ (by assumption) rfl
    | exact absurd (ReadSection_error _ _ _ (by assumption)) (by decide)
    | exact absurd (Uint16_error _ _ (by assumption)) (by decide)
    | exact absurd (Uint32_error _ _ (by assumption)) (by decide)
    | exact absurd (sliceTo_error _ _ _ (by assumption)) (by decide)
    | exact absurd (sliceFrom_error _ _ _ (by assumption)) (by decide)
    | (obtain ⟨r', hr⟩ := readMany_error_fuel _ _ _ (by assumption)
       exact ReadConstantPool_ne_fuel _ _ hr)

/-! ## Kinds of error of the decoder -/

theorem ReadSectionTo_error_kind (r : Reader) (b : List Byte) (k : Nat) (e : Err)
    (h : ReadSectionTo r b k = .error e) : e = .eof ∨ e = .panic := by
  unfold ReadSectionTo sliceTo at h
  split_ifs at h
  · simp only [bind, Except.bind] at h
    cases hr : ReadSection r (List.take k b) with
    | error e' =>
      simp only [hr, Except.error.injEq] at h
      subst h
      exact Or.inl (ReadSection_error _ _ _ hr)
    | ok v => simp [hr, pure, Except.pure] at h
  · simp only [bind, Except.bind, Except.error.injEq] at h
    exact Or.inr h.symm

theorem readMany_error {α : Type} (f : Reader → Except Err (α × Reader)) (n : Nat) (e : Err) :
    ∀ r, readMany f n r = .error e → ∃ r', f r' = .error e := by
  induction n with
  | zero => intro r h; simp [readMany] at h
  | succ n ih =>
    intro r h
    simp only [readMany, bind, Except.bind, pure, Except.pure] at h
    repeat' split at h
    all_goals cases h
    · exact ⟨_, by assumption⟩
    · exact ih _ (by assumption)

theorem forRange_error {α : Type} (body : Nat → Except Err α) (n : Nat) (e : Err) :
    ∀ i, forRange body i n = .error e → ∃ j, body j = .error e := by
  induction n with
  | zero => intro i h; simp [forRange] at h
  | succ n ih =>
    intro i h
    simp only [forRange, bind, Except.bind, pure, Except.pure] at h
    repeat' split at h
    all_goals cases h
    · exact ⟨_, by assumption⟩
    · exact ih _ (by assumption)

theorem ReadConstantPool_error (r : Reader) (buf : List Byte) (e : Err)
    (h : ReadConstantPool r buf = .error e) : e = .eof ∨ e = .panic ∨ e = .invalidTag := by
  simp only [ReadConstantPool, bind, Except.bind, pure, Except.pure, throw, throwThe,
    MonadExceptOf.throw] at h
  repeat' split at h
  all_goals cases h
  all_goals first
    | exact Or.inr (Or.inr rfl)
    | exact Or.inr (Or.inl rfl)
    | exact (ReadSectionTo_error_kind _ _ _ _ (by assumption)).elim Or.inl (fun h => Or.inr (Or.inl h))
    | exact Or.inl (ReadSection_error _ _ _ (by assumption))
    | exact Or.inr (Or.inl (Uint16_error _ _ (by assumption)))
    | exact Or.inr (Or.inl (Uint32_error _ _ (by assumption)))
    | exact Or.inr (Or.inl (twoUint16_error _ _ (by assumption)))
    | exact Or.inr (Or.inl (sliceFrom_error _ _ _ (by assumption)))

theorem ReadAttributeFuel_error (pool : List ConstantInfo) :
    ∀ (fuel : Nat) (r : Reader) (buf : List Byte) (e : Err),
      ReadAttributeFuel fuel pool r buf = .error e →
      e = .eof ∨ e = .panic ∨ e = .fuel ∨
        ∃ x, e = .unknownAttribute x ∧ IsAttributeType x = false := by
  intro fuel
  induction fuel with
  | zero =>
    intro r buf e h
    simp only [ReadAttributeFuel, Except.error.injEq] at h
    exact Or.inr (Or.inr (Or.inl h.symm))
  | succ fuel ih =>
    intro r buf e h
    simp only [ReadAttributeFuel, bind, Except.bind, pure, Except.pure] at h
    repeat' split at h
    all_goals cases h
    all_goals first
      | exact Or.inr (Or.inl rfl)
      | exact Or.inr (Or.inr (Or.inr ⟨_, rfl, (Bool.not_eq_true' _).mp (by assumption)⟩))
      | exact (ReadSectionTo_error_kind _ _ _ _ (by assumption)).elim Or.inl
          (fun h => Or.inr (Or.inl h))
      | exact Or.inl (ReadSection_error _ _ _ (by assumption))
      | exact Or.inl (Read_error _ _ _ (by assumption))
      | exact Or.inr (Or.inl (Uint16_error _ _ (by assumption)))
      | exact Or.inr (Or.inl (Uint32_error _ _ (by assumption)))
      | exact Or.inr (Or.inl (poolUtf8_error _ _ _ (by assumption)))
      | exact Or.inr (Or.inl (sliceFrom_error _ _ _ (by assumption)))
      | skip
    all_goals
      obtain ⟨j, hj⟩ := forRange_error _ _ _ _ (by assumption)
      try dsimp only at hj
      repeat' split at hj
    all_goals cases hj
    all_goals first
      | exact Or.inr (Or.inl (Uint16_error _ _ (by assumption)))
      | exact Or.inr (Or.inl (sliceFrom_error _ _ _ (by assumption)))
      | exact ih _ _ _ (by assumption)

theorem readMany_ReadAttribute_ne_badMagic (pool : List ConstantInfo) (n : Nat) (r : Reader) :
    readMany (fun r => ReadAttribute pool r (List.replicate 4 0)) n r ≠ .error .badMagic := by
  intro h
  obtain ⟨r', hr⟩ := readMany_error _ _ _ _ h
  rcases ReadAttributeFuel_error _ _ _ _ _ hr with h | h | h | ⟨x, h, -⟩ <;> cases h

theorem readInterfaces_ne_badMagic (n : Nat) :
    ∀ r buf, readInterfaces n r buf ≠ .error .badMagic := by
  induction n with
  | zero => intro r buf h; simp [readInterfaces] at h
  | succ n ih =>
    intro r buf h
    simp only [readInterfaces, bind, Except.bind, pure, Except.pure] at h
    repeat' split at h
    all_goals cases h
    all_goals first
      | exact absurd (ReadSectionTo_error_kind _ _ _ _ (by assumption)) (by decide)
      | exact absurd (Uint16_error _ _ (by assumption)) (by decide)
      | exact absurd (sliceTo_error _ _ _ (by assumption)) (by decide)
      | exact ih _ _ (by assumption)

theorem ReadField_ne_badMagic (pool : List ConstantInfo) (r : Reader) (buf : List Byte) :
    ReadField pool r buf ≠ .error .badMagic := by
  intro h
  simp only [ReadField, bind, Except.bind, pure, Except.pure] at h
  repeat' split at h
  all_goals cases h
  all_goals first
    | exact absurd (ReadSection_error _ _ _ (by assumption)) (by decide)
    | exact absurd (Uint16_error _ _ (by assumption)) (by decide)
    | exact absurd (sliceFrom_error _ _ _ (by assumption)) (by decide)
    | exact readMany_ReadAttribute_ne_badMagic _ _ _ (by assumption)

theorem ReadMethod_ne_badMagic (pool : List ConstantInfo) (r : Reader) (buf : List Byte) :
    ReadMethod pool r buf ≠ .error .badMagic := by
  intro h
  simp only [ReadMethod, bind, Except.bind, pure, Except.pure] at h
  repeat' split at h
  all_goals cases h
  all_goals first
    | exact absurd (ReadSection_error _ _ _ (by assumption)) (by decide)
    | exact absurd (Uint16_error _ _ (by assumption)) (by decide)
    | exact absurd (sliceFrom_error _ _ _ (by assumption)) (by decide)
    | exact absurd (poolUtf8_error _ _ _ (by assumption)) (by decide)
    | exact readMany_ReadAttribute_ne_badMagic _ _ _ (by assumption)

theorem decodeAfterPool_ne_badMagic (version : List Byte) (pool : List ConstantInfo)
    (r : Reader) (buf : List Byte) :
    decodeAfterPool version pool r buf ≠ .error .badMagic := by
  intro h
  simp only [decodeAfterPool, bind, Except.bind, pure, Except.pure] at h
  repeat' split at h
  all_goals cases h
  all_goals first
    | exact absurd (ReadSectionTo_error_kind _ _ _ _ (by assumption)) (by decide)
    | exact absurd (Uint16_error _ _ (by assumption)) (by decide)
    | exact absurd (sliceTo_error _ _ _ (by assumption)) (by decide)
    | exact readInterfaces_ne_badMagic _ _ _ (by assumption)
    | exact readMany_ReadAttribute_ne_badMagic _ _ _ (by assumption)
    | (obtain ⟨r', hr⟩ := readMany_error _ _ _ _ (by assumption)
       first
         | exact ReadField_ne_badMagic _ _ _ hr
         | exact ReadMethod_ne_badMagic _ _ _ hr)

theorem Uint32_eq_magic (b0 b1 b2 b3 : Byte) (tl : List Byte) :
    Uint32 (b0 :: b1 :: b2 :: b3 :: tl) = .ok 0xCAFEBABE ↔
      [b0, b1, b2, b3] = [0xCA, 0xFE, 0xBA, 0xBE] := by
  simp only [Uint32, Except.ok.injEq, List.cons.injEq, and_true]
  have h0 := b0.isLt
  have h1 := b1.isLt
  have h2 := b2.isLt
  have h3 := b3.isLt
  constructor
  · intro h
    have e0 : b0.val = 202 := by omega
    have e1 : b1.val = 254 := by omega
    have e2 : b2.val = 186 := by omega
    have e3 : b3.val = 190 := by omega
    exact ⟨Fin.ext e0, Fin.ext e1, Fin.ext e2, Fin.ext e3⟩
  · rintro ⟨rfl, rfl, rfl, rfl⟩
    rfl

/-- C11. For every input of at least 4 bytes, `NewJavaClass` on a fresh reader
over the input returns the bad-magic error exactly when the first four bytes
are not `CA FE BA BE`, and then it does so whatever bytes follow the first
four: nothing after the magic number is decoded. -/
theorem NewJavaClass_bad_magic_iff (javaClassFile : List Byte)
    (h : 4 ≤ javaClassFile.length) :
    (NewJavaClass (NewReader javaClassFile) = .error .badMagic ↔
        javaClassFile.take 4 ≠ [0xCA, 0xFE, 0xBA, 0xBE]) ∧
      (javaClassFile.take 4 ≠ [0xCA, 0xFE, 0xBA, 0xBE] →
        ∀ rest, NewJavaClass (NewReader (javaClassFile.take 4 ++ rest)) = .error .badMagic) := by
  match javaClassFile, h with
  | b0 :: b1 :: b2 :: b3 :: tl, _ =>
    have hread : ∀ rest, ReadSection (NewReader (b0 :: b1 :: b2 :: b3 :: rest))
        (List.replicate 4 0)
        = .ok ([b0, b1, b2, b3], ⟨rest.take (defaultBufSize - 4),
            rest.drop (defaultBufSize - 4)⟩) := by
      intro rest
      rw [ReadSection_NewReader _ _ (by decide) (by decide)]
      have := filled_append [b0, b1, b2, b3] rest (by simp [defaultBufSize_eq])
      simp only [List.cons_append, List.nil_append] at this
      rw [this]
      exact ReadSection_whole [b0, b1, b2, b3] _ _ (List.replicate 4 0) rfl
    have hm := Uint32_eq_magic b0 b1 b2 b3 []
    have hbad : [b0, b1, b2, b3] ≠ [0xCA, 0xFE, 0xBA, 0xBE] →
        ∀ rest, NewJavaClass (NewReader (b0 :: b1 :: b2 :: b3 :: rest)) = .error .badMagic := by
      intro hne rest
      have hv : ∃ v, Uint32 [b0, b1, b2, b3] = .ok v ∧ v ≠ 0xCAFEBABE :=
        ⟨_, rfl, fun hv => hne (hm.mp (by rw [← hv]; rfl))⟩
      obtain ⟨v, hv1, hv2⟩ := hv
      unfold NewJavaClass
      simp only [hread, hv1, bind, Except.bind, pure, Except.pure, ne_eq, hv2, not_false_eq_true,
        if_true, throw, throwThe, MonadExceptOf.throw]
    refine ⟨⟨fun hres => ?_, fun hne => hbad hne tl⟩, fun hne rest => hbad hne rest⟩
    intro heq
    have hv1 := hm.mpr heq
    unfold NewJavaClass at hres
    simp only [hread, hv1, bind, Except.bind, pure, Except.pure, ne_eq, not_true_eq_false,
      if_false] at hres
    repeat' split at hres
    all_goals first
      | exact decodeAfterPool_ne_badMagic _ _ _ _ hres
      | cases hres
    all_goals first
      | exact absurd (ReadSectionTo_error_kind _ _ _ _ (by assumption)) (by decide)
      | exact absurd (ReadSection_error _ _ _ (by assumption)) (by decide)
      | exact absurd (Uint16_error _ _ (by assumption)) (by decide)
      | exact absurd (sliceTo_error _ _ _ (by assumption)) (by decide)
      | exact absurd (sliceFrom_error _ _ _ (by assumption)) (by decide)
      | (obtain ⟨r', hr⟩ := readMany_error _ _ _ _ (by assumption)
         exact absurd (ReadConstantPool_error _ _ _ hr) (by decide))

/-- Witness of C11: six bytes whose fourth byte is BF instead of BE. -/
theorem NewJavaClass_bad_magic_iff_witness :
    (NewJavaClass (NewReader [0xCA, 0xFE, 0xBA, 0xBF, 0, 0]) = .error .badMagic ↔
        ([0xCA, 0xFE, 0xBA, 0xBF, 0, 0] : List Byte).take 4 ≠ [0xCA, 0xFE, 0xBA, 0xBE]) ∧
      (([0xCA, 0xFE, 0xBA, 0xBF, 0, 0] : List Byte).take 4 ≠ [0xCA, 0xFE, 0xBA, 0xBE] →
        ∀ rest,
          NewJavaClass (NewReader (([0xCA, 0xFE, 0xBA, 0xBF, 0, 0] : List Byte).take 4 ++ rest))
            = .error .badMagic) :=
  NewJavaClass_bad_magic_iff [0xCA, 0xFE, 0xBA, 0xBF, 0, 0] (by decide)

/-! ## The tag check of ReadConstantPool -/

set_option maxRecDepth 100000 in
theorem IsConstantPoolTag_iff (t : Byte) :
    IsConstantPoolTag t = true ↔ t.val ∈ [1, 3, 4, 5, 6, 7, 8, 9, 10, 11, 12, 15, 16, 18] := by
  revert t
  decide

theorem ReadSection_ok_length (r : Reader) (b : List Byte) (v : List Byte × Reader)
    (h : ReadSection r b = .ok v) : v.1.length = b.length := by
  obtain ⟨p, r'⟩ := v
  obtain ⟨k, e1, -, h1, h2⟩ := ReadSection_ok _ _ _ _ h
  subst e1
  simp only [List.length_append, List.length_take, List.length_drop] at h2 ⊢
  omega

theorem ReadSectionTo_ok_length (r : Reader) (b : List Byte) (k : Nat)
    (v : List Byte × Reader)
    (h : ReadSectionTo r b k = .ok v) : v.1.length = b.length := by
  unfold ReadSectionTo sliceTo at h
  split_ifs at h with hk
  · simp only [bind, Except.bind] at h
    cases hr : ReadSection r (List.take k b) with
    | error e => simp [hr] at h
    | ok w =>
      have hl := ReadSection_ok_length _ _ _ hr
      simp only [hr, pure, Except.pure, Except.ok.injEq] at h
      subst h
      simp only [List.length_append, hl, List.length_take, List.length_drop]
      omega
  · simp [bind, Except.bind] at h

theorem ReadSectionTo_panic (r : Reader) (b : List Byte) (k : Nat)
    (h : ReadSectionTo r b k = .error .panic) : b.length < k := by
  unfold ReadSectionTo sliceTo at h
  split_ifs at h with hk
  · simp only [bind, Except.bind] at h
    cases hr : ReadSection r (List.take k b) with
    | error e =>
      simp only [hr, Except.error.injEq] at h
      subst h
      exact absurd (ReadSection_error _ _ _ hr) (by decide)
    | ok w => simp [hr, pure, Except.pure] at h
  · omega

theorem IsConstantPoolTag_cases (t : Byte) (h : ¬(!IsConstantPoolTag t) = true) :
    t.val = 1 ∨ t.val = 3 ∨ t.val = 4 ∨ t.val = 5 ∨ t.val = 6 ∨ t.val = 7 ∨ t.val = 8 ∨
      t.val = 9 ∨ t.val = 10 ∨ t.val = 11 ∨ t.val = 12 ∨ t.val = 15 ∨ t.val = 16 ∨
      t.val = 18 := by
  have h' : IsConstantPoolTag t = true := by simpa using h
  simpa using (IsConstantPoolTag_iff t).mp h'

theorem Uint16_error_length (b : List Byte) (e : Err) (h : Uint16 b = .error e) :
    b.length < 2 := by
  match b, h with
  | [], _ => simp
  | [_], _ => simp

theorem Uint32_error_length (b : List Byte) (e : Err) (h : Uint32 b = .error e) :
    b.length < 4 := by
  match b, h with
  | [], _ => simp
  | [_], _ => simp
  | [_, _], _ => simp
  | [_, _, _], _ => simp

theorem sliceFrom_error_length (b : List Byte) (k : Nat) (e : Err)
    (h : sliceFrom b k = .error e) : b.length < k := by
  unfold sliceFrom at h
  split_ifs at h
  omega

theorem sliceFrom_ok_length (s b : List Byte) (k n : Nat) (hlt : s.length < n)
    (h : sliceFrom b k = .ok s) : b.length < n + k := by
  rw [sliceFrom_ok _ _ _ h, List.length_drop] at hlt
  omega

theorem twoUint16_error_length (b : List Byte) (e : Err) (h : twoUint16 b = .error e) :
    b.length < 4 := by
  simp only [twoUint16, bind, Except.bind, pure, Except.pure] at h
  repeat' split at h
  all_goals cases h
  · have := Uint16_error_length _ _ (by assumption); omega
  · have := sliceFrom_error_length _ _ _ (by assumption); omega
  · have := sliceFrom_ok_length _ _ _ _ (Uint16_error_length _ _ (by assumption)) (by assumption)
    omega

theorem length_lt_of_ReadSection (r : Reader) (b : List Byte) (v : List Byte × Reader)
    (n : Nat)
    (hlt : v.1.length < n) (h : ReadSection r b = .ok v) : b.length < n := by
  rw [ReadSection_ok_length _ _ _ h] at hlt
  exact hlt

theorem length_lt_of_ReadSectionTo (r : Reader) (b : List Byte) (k : Nat)
    (v : List Byte × Reader) (n : Nat) (hlt : v.1.length < n) (h : ReadSectionTo r b k = .ok v) : b.length < n := by
  rw [ReadSectionTo_ok_length _ _ _ _ h] at hlt
  exact hlt

theorem length_lt_of_eq_nil (l : List Byte) (h : l = []) : l.length < 1 := by
  subst h; simp

theorem ReadConstantPool_ne_panic (r : Reader) (buf : List Byte) (hb : 4 ≤ buf.length) :
    ReadConstantPool r buf ≠ .error .panic := by
  intro h
  simp only [ReadConstantPool, bind, Except.bind, pure, Except.pure, throw, throwThe,
    MonadExceptOf.throw] at h
  repeat' split at h
  all_goals cases h
  all_goals first
    | exact absurd (ReadSection_error _ _ _ (by assumption)) (by decide)
    | (have hm := IsConstantPoolTag_cases _ (by assumption)
       rcases hm with h | h | h | h | h | h | h | h | h | h | h | h | h | h <;>
         first | contradiction | exact absurd h (by assumption))
    | (first
         | have h1 := Uint16_error_length _ _ (by assumption)
         | have h1 := Uint32_error_length _ _ (by assumption)
         | have h1 := twoUint16_error_length _ _ (by assumption)
         | have h1 := sliceFrom_error_length _ _ _ (by assumption)
         | have h1 := ReadSectionTo_panic _ _ _ (by assumption)
         | have h1 := length_lt_of_eq_nil _ (by assumption)
       repeat (first
         | replace h1 := length_lt_of_ReadSection _ _ _ _ h1 (by assumption)
         | replace h1 := length_lt_of_ReadSectionTo _ _ _ _ _ h1 (by assumption)
         | replace h1 := sliceFrom_ok_length _ _ _ _ h1 (by assumption))
       omega)

/-- A reader with a byte left has it first in its buffer, at the latest after
its next fill. -/
theorem fill_buf_cons (r : Reader) (t : Byte) (rest : List Byte)
    (h : r.buf ++ r.rd = t :: rest) : ∃ b, r.fill.buf = t :: b := by
  obtain ⟨buf, rd⟩ := r
  simp only at h
  unfold Reader.fill
  cases buf with
  | nil =>
    simp only [List.nil_append] at h
    subst h
    exact ⟨rest.take (defaultBufSize - 1), by simp [defaultBufSize_eq]⟩
  | cons x l =>
    simp only [List.cons_append, List.cons.injEq] at h
    obtain ⟨rfl, -⟩ := h
    exact ⟨l, by simp⟩

theorem ReadConstantPool_tag_check (t : Byte) (r : Reader) (rest buf : List Byte)
    (hb : 0 < buf.length) (hr : r.buf ++ r.rd = t :: rest) :
    (IsConstantPoolTag t = false → ReadConstantPool r buf = .error .invalidTag) ∧
      (IsConstantPoolTag t = true → ReadConstantPool r buf ≠ .error .invalidTag) := by
  obtain ⟨b, hfill⟩ := fill_buf_cons r t rest hr
  have hread : ReadSectionTo r buf 1 = .ok (t :: buf.drop 1, ⟨b, r.fill.rd⟩) := by
    rw [ReadSectionTo_fill r buf 1 (by decide) (by decide), Reader.eq_mk r.fill _ hfill]
    exact ReadSectionTo_whole [t] b _ buf 1 rfl hb
  constructor
  · intro ht
    unfold ReadConstantPool
    simp only [hread, ht, bind, Except.bind, pure, Except.pure, throw, throwThe,
      MonadExceptOf.throw, Bool.not_false, if_true]
  · intro ht h
    unfold ReadConstantPool at h
    simp only [hread, ht, bind, Except.bind, pure, Except.pure, throw, throwThe,
      MonadExceptOf.throw, Bool.not_true, Bool.false_eq_true, if_false] at h
    repeat' split at h
    all_goals cases h
    all_goals first
      | exact absurd (ReadSectionTo_error_kind _ _ _ _ (by assumption)) (by decide)
      | exact absurd (ReadSection_error _ _ _ (by assumption)) (by decide)
      | exact absurd (Uint16_error _ _ (by assumption)) (by decide)
      | exact absurd (Uint32_error _ _ (by assumption)) (by decide)
      | exact absurd (twoUint16_error _ _ (by assumption)) (by decide)
      | exact absurd (sliceFrom_error _ _ _ (by assumption)) (by decide)

/-- C12. On a reader with at least one byte left, the first of them `t`
(in the buffer or in the source), `ReadConstantPool` returns the invalid-tag
error exactly when `t` is not one of the 14 tag values, and then does so
whatever bytes follow the tag (no payload byte is needed); every tag that
passes the check is a case of the payload switch, and with a buffer of at least
four cells, as at the call site, no reader makes `ReadConstantPool` panic, so
the panicking default branch is never taken. -/
theorem ReadConstantPool_invalid_tag_iff (t : Byte) (r : Reader) (rest buf : List Byte)
    (hb : 0 < buf.length) (hr : r.buf ++ r.rd = t :: rest) :
    (ReadConstantPool r buf = .error .invalidTag ↔
        t.val ∉ [1, 3, 4, 5, 6, 7, 8, 9, 10, 11, 12, 15, 16, 18]) ∧
      (t.val ∉ [1, 3, 4, 5, 6, 7, 8, 9, 10, 11, 12, 15, 16, 18] →
        ∀ (r' : Reader) (rest' : List Byte), r'.buf ++ r'.rd = t :: rest' →
          ReadConstantPool r' buf = .error .invalidTag) ∧
      (IsConstantPoolTag t = true →
        t.val ∈ [10, 7, 6, 9, 4, 3, 11, 18, 5, 15, 16, 12, 8, 1]) ∧
      (4 ≤ buf.length → ∀ r, ReadConstantPool r buf ≠ .error .panic) := by
  have hiff := IsConstantPoolTag_iff t
  have hfalse : t.val ∉ [1, 3, 4, 5, 6, 7, 8, 9, 10, 11, 12, 15, 16, 18] →
      IsConstantPoolTag t = false := by
    intro hn
    cases hc : IsConstantPoolTag t with
    | false => rfl
    | true => exact absurd (hiff.mp hc) hn
  refine ⟨⟨fun h hmem => ?_, fun hn => ?_⟩, fun hn r' rest' hr' => ?_, fun ht => ?_,
    fun h4 r => ?_⟩
  · exact (ReadConstantPool_tag_check t r rest buf hb hr).2 (hiff.mpr hmem) h
  · exact (ReadConstantPool_tag_check t r rest buf hb hr).1 (hfalse hn)
  · exact (ReadConstantPool_tag_check t r' rest' buf hb hr').1 (hfalse hn)
  · have := hiff.mp ht
    simp only [List.mem_cons, List.mem_singleton, List.not_mem_nil, or_false] at this ⊢
    omega
  · exact ReadConstantPool_ne_panic r buf h4

/-- Witness of C12: a fresh reader over the tag byte 2, which is not a tag
value, followed by two bytes, with the 4-byte buffer of the call site. -/
theorem ReadConstantPool_invalid_tag_iff_witness :
    (ReadConstantPool (NewReader ((2 : Byte) :: [0, 1])) (List.replicate 4 0)
          = .error .invalidTag ↔
        (2 : Byte).val ∉ [1, 3, 4, 5, 6, 7, 8, 9, 10, 11, 12, 15, 16, 18]) ∧
      ((2 : Byte).val ∉ [1, 3, 4, 5, 6, 7, 8, 9, 10, 11, 12, 15, 16, 18] →
        ∀ (r' : Reader) (rest' : List Byte), r'.buf ++ r'.rd = (2 : Byte) :: rest' →
          ReadConstantPool r' (List.replicate 4 0) = .error .invalidTag) ∧
      (IsConstantPoolTag 2 = true →
        (2 : Byte).val ∈ [10, 7, 6, 9, 4, 3, 11, 18, 5, 15, 16, 12, 8, 1]) ∧
      (4 ≤ (List.replicate 4 (0 : Byte)).length →
        ∀ r, ReadConstantPool r (List.replicate 4 0) ≠ .error .panic) :=
  ReadConstantPool_invalid_tag_iff 2 (NewReader ((2 : Byte) :: [0, 1])) [0, 1]
    (List.replicate 4 0) (by decide) rfl

/-! ## Unknown names and unresolved indices in ReadAttribute -/

set_option maxRecDepth 4096 in
/-- A LineNumberTable record whose first six bytes are in the buffer: the
payload that is decoded is what the buffer still holds, within the declared
length, followed by zero bytes. -/
theorem ReadAttribute_lineNumberTable (pool : List ConstantInfo) (nameIndex L : Nat)
    (xs rd buf : List Byte) (hb : buf.length = 4) (hi : nameIndex < 65536)
    (hl : L < 4294967296) (hx : xs ≠ [] ∨ L = 0)
    (hp : poolUtf8 pool nameIndex = .ok LineNumberTableAttr) :
    ReadAttribute pool ⟨be16 nameIndex ++ (be32 L ++ xs), rd⟩ buf
      = (do
          let lenght ← Uint16 (xs.take L ++ List.replicate (L - xs.length) 0)
          let lineNumberTable ← forRange (fun i => do
            let startPc ← Uint16 (← sliceFrom (xs.take L ++ List.replicate (L - xs.length) 0)
              ((i * 4 + 2) % 65536))
            let lineNumber ← Uint16 (← sliceFrom
              (xs.take L ++ List.replicate (L - xs.length) 0) ((i * 4 + 2 + 2) % 65536))
            pure (⟨startPc, lineNumber⟩ : LineNumberTableAttributeData)) 0 lenght
          pure (.mk nameIndex LineNumberTableAttr (.LineNumberTable lineNumberTable),
            ⟨xs.drop L, rd⟩)) := by
  match buf, hb with
  | [b0, b1, b2, b3], _ =>
    obtain ⟨e1, e2, e3, e4, e5⟩ := ReadAttributeFuel_reads nameIndex L xs rd b0 b1 b2 b3 hi hl hx
    have hk : IsAttributeType LineNumberTableAttr = true := by decide
    have h1 : LineNumberTableAttr ≠ CodeAttr := by decide
    unfold ReadAttribute
    simp only [ReadAttributeFuel, e1, e2, e3, e4, e5, hp, hk, h1, bind, Except.bind, pure,
      Except.pure, Bool.not_true, Bool.false_eq_true, if_false, if_true]

theorem forRange_eq_map {α : Type} (body : Nat → Except Err α) (f : Nat → α) :
    ∀ (n i : Nat), (∀ j, i ≤ j → j < i + n → body j = .ok (f j)) →
      forRange body i n = .ok ((List.range' i n).map f) := by
  intro n
  induction n with
  | zero => intro i _; rfl
  | succ n ih =>
    intro i h
    have h0 := h i (le_refl _) (by omega)
    have hr := ih (i + 1) (fun j h1 h2 => h j (by omega) (by omega))
    simp only [forRange, h0, hr, bind, Except.bind, pure, Except.pure, List.range'_succ,
      List.map_cons]

theorem lineNumberPayload_length (entries : List LineNumberTableAttributeData) :
    (lineNumberPayload entries).length = 2 + 4 * entries.length := by
  unfold lineNumberPayload
  rw [List.length_append, be16_length]
  congr 1
  induction entries with
  | nil => rfl
  | cons x xs ih =>
    simp only [List.map_cons, List.flatten_cons, List.length_append, be16_length, ih,
      List.length_cons]
    omega

theorem drop_entries (x : LineNumberTableAttributeData) :
    ∀ (entries : List LineNumberTableAttributeData) (k : Nat), entries[k]? = some x →
      ∃ tail, ((entries.map (fun x => be16 x.StartPc ++ be16 x.LineNumber)).flatten).drop (4 * k)
        = be16 x.StartPc ++ (be16 x.LineNumber ++ tail) := by
  intro entries
  induction entries with
  | nil => intro k h; simp at h
  | cons y ys ih =>
    intro k h
    cases k with
    | zero =>
      simp only [List.getElem?_cons_zero, Option.some.injEq] at h
      subst h
      refine ⟨(List.map (fun x => be16 x.StartPc ++ be16 x.LineNumber) ys).flatten, ?_⟩
      simp
    | succ k =>
      simp only [List.getElem?_cons_succ] at h
      obtain ⟨tail, ht⟩ := ih k h
      refine ⟨tail, ?_⟩
      have e : 4 * (k + 1) = (be16 y.StartPc ++ be16 y.LineNumber).length + 4 * k := by
        simp [be16_length]; omega
      rw [List.map_cons, List.flatten_cons, e, List.drop_append, ht]

theorem lineNumber_body (entries : List LineNumberTableAttributeData)
    (hn : entries.length < 65536)
    (hall : ∀ x ∈ entries, x.StartPc < 65536 ∧ x.LineNumber < 65536) (i : Nat)
    (hi : i < entries.length) :
    (do
      let startPc ← Uint16 (← sliceFrom (lineNumberPayload entries) ((i * 4 + 2) % 65536))
      let lineNumber ←
        Uint16 (← sliceFrom (lineNumberPayload entries) ((i * 4 + 2 + 2) % 65536))
      pure (⟨startPc, lineNumber⟩ : LineNumberTableAttributeData))
      = .ok (lineNumberEntryRead entries i) := by
  have hk : i % 16384 < entries.length := lt_of_le_of_lt (Nat.mod_le _ _) hi
  obtain ⟨x, hx⟩ : ∃ x, entries[i % 16384]? = some x :=
    ⟨_, List.getElem?_eq_getElem hk⟩
  have hxm : x ∈ entries := by
    obtain ⟨hlt, hget⟩ := List.getElem?_eq_some_iff.mp hx
    rw [← hget]
    exact List.getElem_mem hlt
  have hentry : lineNumberEntryRead entries i
      = ⟨x.StartPc, if i % 16384 = 16383 then entries.length else x.LineNumber⟩ := by
    unfold lineNumberEntryRead
    rw [hx]
    rfl
  obtain ⟨hs, hl⟩ := hall x hxm
  obtain ⟨tail, ht⟩ := drop_entries x entries (i % 16384) hx
  have hlen := lineNumberPayload_length entries
  have ha : (i * 4 + 2) % 65536 = 2 + 4 * (i % 16384) := by omega
  have hdrop : (lineNumberPayload entries).drop (2 + 4 * (i % 16384))
      = be16 x.StartPc ++ (be16 x.LineNumber ++ tail) := by
    unfold lineNumberPayload
    rw [show 2 = (be16 entries.length).length from rfl, List.drop_append, ht]
  have h1 : sliceFrom (lineNumberPayload entries) ((i * 4 + 2) % 65536)
      = .ok (be16 x.StartPc ++ (be16 x.LineNumber ++ tail)) := by
    unfold sliceFrom
    rw [ha, if_pos (by omega), hdrop]
  have h2 : Uint16 (be16 x.StartPc ++ (be16 x.LineNumber ++ tail)) = .ok x.StartPc :=
    Uint16_be16 _ _ hs
  by_cases hw : i % 16384 = 16383
  · have hb : (i * 4 + 2 + 2) % 65536 = 0 := by omega
    have h3 : sliceFrom (lineNumberPayload entries) ((i * 4 + 2 + 2) % 65536)
        = .ok (lineNumberPayload entries) := by
      unfold sliceFrom
      rw [hb, if_pos (by omega), List.drop_zero]
    have h4 : Uint16 (lineNumberPayload entries) = .ok entries.length :=
      Uint16_be16 _ _ hn
    simp only [h1, h2, h3, h4, bind, Except.bind, pure, Except.pure, hentry, hw, if_true]
  · have hb : (i * 4 + 2 + 2) % 65536 = (2 + 4 * (i % 16384)) + 2 := by omega
    have h3 : sliceFrom (lineNumberPayload entries) ((i * 4 + 2 + 2) % 65536)
        = .ok (be16 x.LineNumber ++ tail) := by
      unfold sliceFrom
      rw [hb, if_pos (by omega), ← List.drop_drop, hdrop]
      rfl
    have h4 : Uint16 (be16 x.LineNumber ++ tail) = .ok x.LineNumber := Uint16_be16 _ _ hl
    simp only [h1, h2, h3, h4, bind, Except.bind, pure, Except.pure, hentry, hw, if_false]

theorem forRange_ok {α : Type} (body : Nat → Except Err α) :
    ∀ (n i : Nat) (xs : List α), forRange body i n = .ok xs →
      xs.length = n ∧ ∀ j x, xs[j]? = some x → body (i + j) = .ok x := by
  intro n
  induction n with
  | zero =>
    intro i xs h
    simp only [forRange, Except.ok.injEq] at h
    subst h
    exact ⟨rfl, fun j x hx => by simp at hx⟩
  | succ n ih =>
    intro i xs h
    simp only [forRange, bind, Except.bind, pure, Except.pure] at h
    cases hb : body i with
    | error e => simp [hb] at h
    | ok x0 =>
      simp only [hb] at h
      cases hr : forRange body (i + 1) n with
      | error e => simp [hr] at h
      | ok xs' =>
        simp only [hr, Except.ok.injEq] at h
        subst h
        obtain ⟨h1, h2⟩ := ih (i + 1) xs' hr
        refine ⟨by simp [h1], fun j x hx => ?_⟩
        cases j with
        | zero =>
          simp only [List.getElem?_cons_zero, Option.some.injEq] at hx
          subst hx
          exact hb
        | succ j =>
          simp only [List.getElem?_cons_succ] at hx
          have := h2 j x hx
          rwa [show i + 1 + j = i + (j + 1) by omega] at this

theorem forRange_succeeds {α : Type} (body : Nat → Except Err α) :
    ∀ (n i : Nat), (∀ j, ∃ x, body j = .ok x) → ∃ xs, forRange body i n = .ok xs := by
  intro n
  induction n with
  | zero => intro i _; exact ⟨[], rfl⟩
  | succ n ih =>
    intro i h
    obtain ⟨x, hx⟩ := h i
    obtain ⟨xs, hxs⟩ := ih (i + 1) h
    exact ⟨x :: xs, by simp only [forRange, hx, hxs, bind, Except.bind, pure, Except.pure]⟩

/-- A successful `ReadAttribute` that returns a line-number table has run the
loop of the LineNumberTable case over some payload buffer `info`, as many
times as the `uint16` at the start of `info` says. -/
theorem ReadAttributeFuel_lineNumberTable_inv (pool : List ConstantInfo) (fuel : Nat)
    (r : Reader) (buf : List Byte) (nameIndex : Nat) (name : List Byte)
    (table : List LineNumberTableAttributeData) (r' : Reader)
    (h : ReadAttributeFuel fuel pool r buf
      = .ok (.mk nameIndex name (.LineNumberTable table), r')) :
    ∃ (info : List Byte) (n : Nat), Uint16 info = .ok n ∧
      forRange (fun i => do
        let startPc ← Uint16 (← sliceFrom info ((i * 4 + 2) % 65536))
        let lineNumber ← Uint16 (← sliceFrom info ((i * 4 + 2 + 2) % 65536))
        pure (⟨startPc, lineNumber⟩ : LineNumberTableAttributeData)) 0 n = .ok table := by
  cases fuel with
  | zero => simp [ReadAttributeFuel] at h
  | succ fuel =>
    simp only [ReadAttributeFuel, bind, Except.bind, pure, Except.pure] at h
    repeat' split at h
    all_goals first | (cases h; done) | skip
    all_goals
      simp only [Except.ok.injEq, Prod.mk.injEq, AttributeInfo.mk.injEq,
        AttributeData.LineNumberTable.injEq] at h
      obtain ⟨⟨-, -, rfl⟩, -⟩ := h
      exact ⟨_, _, by assumption, by assumption⟩

/-- The loop of the LineNumberTable case computes its offsets in `uint16`: the
entry at position `i ≥ 16384` is read where the entry at `i - 16384` is read,
and the line number of an entry at a position `16383 mod 16384` is read at
offset 0, where the entry count is. -/
theorem forRange_lineNumber_wrap (info : List Byte) (n : Nat)
    (table : List LineNumberTableAttributeData) (hn : Uint16 info = .ok n)
    (h : forRange (fun i => do
        let startPc ← Uint16 (← sliceFrom info ((i * 4 + 2) % 65536))
        let lineNumber ← Uint16 (← sliceFrom info ((i * 4 + 2 + 2) % 65536))
        pure (⟨startPc, lineNumber⟩ : LineNumberTableAttributeData)) 0 n = .ok table) :
    table.length = n ∧
      (∀ i, 16384 ≤ i → i < table.length → table[i]? = table[i - 16384]?) ∧
      (∀ i x, table[i]? = some x → i % 16384 = 16383 → x.LineNumber = table.length) := by
  obtain ⟨hlen, hbody⟩ := forRange_ok _ n 0 table h
  refine ⟨hlen, fun i hi hlt => ?_, fun i x hx hi => ?_⟩
  · have h1 := hbody i _ (List.getElem?_eq_getElem hlt)
    have hlt' : i - 16384 < table.length := by omega
    have h2 := hbody (i - 16384) _ (List.getElem?_eq_getElem hlt')
    have e1 : ((0 + i) * 4 + 2) % 65536 = ((0 + (i - 16384)) * 4 + 2) % 65536 := by omega
    have e2 : ((0 + i) * 4 + 2 + 2) % 65536 = ((0 + (i - 16384)) * 4 + 2 + 2) % 65536 := by
      omega
    simp only [e1, e2] at h1
    rw [h1] at h2
    rw [List.getElem?_eq_getElem hlt, List.getElem?_eq_getElem hlt']
    exact congrArg some (Except.ok.inj h2)
  · have h1 := hbody i x hx
    have e2 : ((0 + i) * 4 + 2 + 2) % 65536 = 0 := by omega
    have hs : sliceFrom info 0 = .ok info := by simp [sliceFrom]
    simp only [e2, hs, hn, bind, Except.bind, pure, Except.pure] at h1
    split at h1
    · cases h1
    · split at h1
      · cases h1
      · simp only [Except.ok.injEq] at h1
        rw [← h1, hlen]

theorem lineNumberEntryRead_of_lt (entries : List LineNumberTableAttributeData) (i : Nat)
    (hi : i < 16383) (hlt : i < entries.length) :
    lineNumberEntryRead entries i = entries[i] := by
  have hm : i % 16384 = i := Nat.mod_eq_of_lt (by omega)
  have hne : i ≠ 16383 := by omega
  unfold lineNumberEntryRead
  rw [hm, List.getElem?_eq_getElem hlt]
  simp [hne]

theorem map_lineNumberEntryRead (entries : List LineNumberTableAttributeData)
    (h : entries.length ≤ 16383) :
    (List.range entries.length).map (lineNumberEntryRead entries) = entries := by
  apply List.ext_getElem
  · simp
  · intro i h1 h2
    simp only [List.getElem_map, List.getElem_range]
    exact lineNumberEntryRead_of_lt entries i (by omega) h2

/-- The loop of the LineNumberTable case on a payload buffer that holds the
whole encoded table. -/
theorem lineNumberTable_decode (nameIndex : Nat)
    (entries : List LineNumberTableAttributeData) (r : Reader)
    (hn : entries.length < 65536)
    (hall : ∀ x ∈ entries, x.StartPc < 65536 ∧ x.LineNumber < 65536) :
    (do
      let lenght ← Uint16 (lineNumberPayload entries)
      let lineNumberTable ← forRange (fun i => do
        let startPc ← Uint16 (← sliceFrom (lineNumberPayload entries) ((i * 4 + 2) % 65536))
        let lineNumber ←
          Uint16 (← sliceFrom (lineNumberPayload entries) ((i * 4 + 2 + 2) % 65536))
        pure (⟨startPc, lineNumber⟩ : LineNumberTableAttributeData)) 0 lenght
      pure (AttributeInfo.mk nameIndex LineNumberTableAttr (.LineNumberTable lineNumberTable),
        r) : Except Err (AttributeInfo × Reader))
      = .ok (.mk nameIndex LineNumberTableAttr
          (.LineNumberTable ((List.range entries.length).map (lineNumberEntryRead entries))),
          r) := by
  have hc : Uint16 (lineNumberPayload entries) = .ok entries.length := Uint16_be16 _ _ hn
  have hloop := forRange_eq_map (fun i => do
      let startPc ← Uint16 (← sliceFrom (lineNumberPayload entries) ((i * 4 + 2) % 65536))
      let lineNumber ←
        Uint16 (← sliceFrom (lineNumberPayload entries) ((i * 4 + 2 + 2) % 65536))
      pure (⟨startPc, lineNumber⟩ : LineNumberTableAttributeData))
    (lineNumberEntryRead entries) entries.length 0
    (fun j _ hj => lineNumber_body entries hn hall j (by omega))
  rw [← List.range_eq_range'] at hloop
  simp only [bind, Except.bind, pure, Except.pure] at hloop
  simp only [hc, hloop, bind, Except.bind, pure, Except.pure]

/-- A read of at least `defaultBufSize` bytes by a reader with an empty buffer
goes straight to the source and delivers all that the slice takes. -/
theorem Read_direct (rd : List Byte) (L : Nat) (h1 : defaultBufSize ≤ L) (h2 : rd ≠ []) :
    Reader.Read ⟨[], rd⟩ (List.replicate L 0)
      = .ok (min L rd.length, rd.take L ++ List.replicate (L - rd.length) 0,
          ⟨[], rd.drop L⟩) := by
  unfold Reader.Read
  have hL : ¬ L = 0 := by
    rw [defaultBufSize_eq] at h1; omega
  have hr : ¬ rd.length = 0 := fun h => h2 (List.length_eq_zero.mp h)
  simp only [List.length_replicate, List.length_nil]
  rw [if_neg hL, if_pos trivial, if_neg hr, if_pos h1]
  rcases Nat.le_total L rd.length with h | h
  · rw [Nat.min_eq_left h]
    simp [Nat.sub_eq_zero_of_le h]
  · rw [Nat.min_eq_right h, List.take_of_length_le h, List.drop_of_length_le h]
    simp

set_option maxRecDepth 4096 in
/-- A LineNumberTable record whose six header bytes are the last bytes in the
buffer, with a declared length of at least `defaultBufSize`: the payload is
read straight from the source, whole. -/
theorem ReadAttribute_lineNumberTable_direct (pool : List ConstantInfo) (nameIndex L : Nat)
    (rd buf : List Byte) (hb : buf.length = 4) (hi : nameIndex < 65536)
    (hl : L < 4294967296) (hL : defaultBufSize ≤ L) (hrd : rd ≠ [])
    (hp : poolUtf8 pool nameIndex = .ok LineNumberTableAttr) :
    ReadAttribute pool ⟨be16 nameIndex ++ be32 L, rd⟩ buf
      = (do
          let lenght ← Uint16 (rd.take L ++ List.replicate (L - rd.length) 0)
          let lineNumberTable ← forRange (fun i => do
            let startPc ← Uint16 (← sliceFrom (rd.take L ++ List.replicate (L - rd.length) 0)
              ((i * 4 + 2) % 65536))
            let lineNumber ← Uint16 (← sliceFrom
              (rd.take L ++ List.replicate (L - rd.length) 0) ((i * 4 + 2 + 2) % 65536))
            pure (⟨startPc, lineNumber⟩ : LineNumberTableAttributeData)) 0 lenght
          pure (.mk nameIndex LineNumberTableAttr (.LineNumberTable lineNumberTable),
            ⟨[], rd.drop L⟩)) := by
  match buf, hb with
  | [b0, b1, b2, b3], _ =>
    have e1 : ReadSectionTo ⟨be16 nameIndex ++ be32 L, rd⟩ [b0, b1, b2, b3] 2
        = .ok (be16 nameIndex ++ [b2, b3], ⟨be32 L, rd⟩) :=
      ReadSectionTo_whole (be16 nameIndex) (be32 L) rd [b0, b1, b2, b3] 2 rfl (by simp)
    have e2 := Uint16_be16 nameIndex [b2, b3] hi
    have e3 : ReadSection ⟨be32 L, rd⟩ (be16 nameIndex ++ [b2, b3])
        = .ok (be32 L, ⟨[], rd⟩) := by
      have := ReadSection_whole (be32 L) [] rd (be16 nameIndex ++ [b2, b3]) rfl
      rwa [List.append_nil] at this
    have e4 : Uint32 (be32 L) = .ok L := by simpa using Uint32_be32 L [] hl
    have e5 := Read_direct rd L hL hrd
    have hk : IsAttributeType LineNumberTableAttr = true := by decide
    have h1 : LineNumberTableAttr ≠ CodeAttr := by decide
    unfold ReadAttribute
    simp only [ReadAttributeFuel, e1, e2, e3, e4, e5, hp, hk, h1, bind, Except.bind, pure,
      Except.pure, Bool.not_true, Bool.false_eq_true, if_false, if_true]

/-- A LineNumberTable record read by a fresh reader, with a payload that
reaches beyond the first `defaultBufSize` bytes of the stream: the payload
buffer receives the first `defaultBufSize - 6` bytes of the payload and keeps
its zero cells beyond them. -/
theorem ReadAttribute_lineNumberTable_fresh (pool : List ConstantInfo) (nameIndex : Nat)
    (payload rest buf : List Byte) (hb : buf.length = 4) (hi : nameIndex < 65536)
    (hl : payload.length < 4294967296) (hlong : defaultBufSize - 6 < payload.length)
    (hp : poolUtf8 pool nameIndex = .ok LineNumberTableAttr) :
    ReadAttribute pool (NewReader (attributeRecord nameIndex payload ++ rest)) buf
      = (do
          let lenght ← Uint16 (payload.take (defaultBufSize - 6)
            ++ List.replicate (payload.length - (defaultBufSize - 6)) 0)
          let lineNumberTable ← forRange (fun i => do
            let startPc ← Uint16 (← sliceFrom (payload.take (defaultBufSize - 6)
              ++ List.replicate (payload.length - (defaultBufSize - 6)) 0)
              ((i * 4 + 2) % 65536))
            let lineNumber ← Uint16 (← sliceFrom (payload.take (defaultBufSize - 6)
              ++ List.replicate (payload.length - (defaultBufSize - 6)) 0)
              ((i * 4 + 2 + 2) % 65536))
            pure (⟨startPc, lineNumber⟩ : LineNumberTableAttributeData)) 0 lenght
          pure (.mk nameIndex LineNumberTableAttr (.LineNumberTable lineNumberTable),
            ⟨[], payload.drop (defaultBufSize - 6) ++ rest⟩)) := by
  have hsplit : attributeRecord nameIndex payload ++ rest
      = (be16 nameIndex ++ (be32 payload.length ++ payload.take (defaultBufSize - 6)))
        ++ (payload.drop (defaultBufSize - 6) ++ rest) := by
    rw [attributeRecord_append]
    simp only [List.append_assoc]
    rw [← List.append_assoc (List.take _ payload), List.take_append_drop]
  have htl : (payload.take (defaultBufSize - 6)).length = defaultBufSize - 6 := by
    rw [List.length_take]; omega
  have hlen : (be16 nameIndex ++ (be32 payload.length ++ payload.take (defaultBufSize - 6))).length
      = defaultBufSize := by
    rw [List.length_append, List.length_append, be16_length, be32_length, htl,
      defaultBufSize_eq]
  have hx : payload.take (defaultBufSize - 6) ≠ [] := by
    intro h0
    rw [h0, defaultBufSize_eq] at htl
    simp at htl
  rw [ReadAttribute_NewReader, hsplit, filled_exact _ _ hlen,
    ReadAttribute_lineNumberTable pool nameIndex payload.length _ _ buf hb hi hl (Or.inl hx) hp,
    List.take_of_length_le (by rw [htl]; omega), List.drop_of_length_le (by rw [htl]; omega),
    htl]

theorem Uint16_succeeds (b : List Byte) (h : 2 ≤ b.length) : ∃ v, Uint16 b = .ok v := by
  match b, h with
  | b0 :: b1 :: tl, _ => exact ⟨_, rfl⟩

/-- On a payload buffer of at least 65538 cells no run of the loop body of the
LineNumberTable case fails: both offsets are below 65536. -/
theorem lineNumber_body_succeeds (info : List Byte) (h : 65538 ≤ info.length) (i : Nat) :
    ∃ x, (do
      let startPc ← Uint16 (← sliceFrom info ((i * 4 + 2) % 65536))
      let lineNumber ← Uint16 (← sliceFrom info ((i * 4 + 2 + 2) % 65536))
      pure (⟨startPc, lineNumber⟩ : LineNumberTableAttributeData)) = .ok x := by
  have h1 : sliceFrom info ((i * 4 + 2) % 65536) = .ok (info.drop ((i * 4 + 2) % 65536)) := by
    unfold sliceFrom
    rw [if_pos (by omega)]
  have h2 : sliceFrom info ((i * 4 + 2 + 2) % 65536)
      = .ok (info.drop ((i * 4 + 2 + 2) % 65536)) := by
    unfold sliceFrom
    rw [if_pos (by omega)]
  obtain ⟨v1, hv1⟩ := Uint16_succeeds (info.drop ((i * 4 + 2) % 65536))
    (by rw [List.length_drop]; omega)
  obtain ⟨v2, hv2⟩ := Uint16_succeeds (info.drop ((i * 4 + 2 + 2) % 65536))
    (by rw [List.length_drop]; omega)
  exact ⟨⟨v1, v2⟩, by simp only [h1, h2, hv1, hv2, bind, Except.bind, pure, Except.pure]⟩

/-- The payload buffer after a short read of an encoded table with a first
entry `x`: the entry count and the first entry have been delivered. -/
theorem lineNumberPayload_take (entries : List LineNumberTableAttributeData)
    (x : LineNumberTableAttributeData) (hx : entries[0]? = some x) (zs : List Byte) :
    ∃ tail, (lineNumberPayload entries).take (defaultBufSize - 6) ++ zs
      = be16 entries.length ++ (be16 x.StartPc ++ (be16 x.LineNumber ++ tail)) := by
  obtain ⟨t, ht⟩ := drop_entries x entries 0 hx
  rw [Nat.mul_zero, List.drop_zero] at ht
  refine ⟨t.take (defaultBufSize - 6 - 6) ++ zs, ?_⟩
  unfold lineNumberPayload
  rw [ht]
  have e : be16 entries.length ++ (be16 x.StartPc ++ (be16 x.LineNumber ++ t))
      = (be16 entries.length ++ (be16 x.StartPc ++ be16 x.LineNumber)) ++ t := by
    simp only [List.append_assoc]
  have hl : (be16 entries.length ++ (be16 x.StartPc ++ be16 x.LineNumber)).length = 6 := rfl
  rw [e, List.take_append_eq_append_take, List.take_of_length_le (by rw [hl, defaultBufSize_eq]; omega),
    hl]
  simp only [List.append_assoc]

theorem lineNumberEntryRead_replicate (x : LineNumberTableAttributeData) (n i : Nat)
    (h : i % 16384 < n) :
    lineNumberEntryRead (List.replicate n x) i
      = ⟨x.StartPc, if i % 16384 = 16383 then n else x.LineNumber⟩ := by
  unfold lineNumberEntryRead
  rw [List.getElem?_replicate, if_pos h, List.length_replicate]
  rfl

theorem Uint16_replicate_zero (k : Nat) (h : 2 ≤ k) :
    Uint16 (List.replicate k (0 : Byte)) = .ok 0 := by
  obtain ⟨m, rfl⟩ : ∃ m, k = m + 2 := ⟨k - 2, by omega⟩
  rfl

theorem Uint16_drop_zeros (a : List Byte) (m k : Nat) (hk : a.length ≤ k)
    (hm : k - a.length + 2 ≤ m) :
    Uint16 ((a ++ List.replicate m 0).drop k) = .ok 0 := by
  rw [List.drop_append_eq_append_drop, List.drop_of_length_le hk, List.nil_append,
    List.drop_replicate]
  exact Uint16_replicate_zero _ (by omega)

/-- A table of at least 16384 entries read by a fresh reader: the loop runs as
many times as the table has entries and does not fail; the entry at position
16383 is returned as start-pc 0 (read in the part of the payload buffer that
was not filled) and the entry count as line number (read at offset 0), and the
entry at position 16384 is returned as the first entry of the table. -/
theorem ReadAttribute_lineNumberTable_long (pool : List ConstantInfo) (nameIndex : Nat)
    (entries : List LineNumberTableAttributeData) (x : LineNumberTableAttributeData)
    (buf : List Byte) (hb : buf.length = 4) (hi : nameIndex < 65536)
    (hp : poolUtf8 pool nameIndex = .ok LineNumberTableAttr) (hx : entries[0]? = some x)
    (hxs : x.StartPc < 65536) (hxl : x.LineNumber < 65536) (hn1 : 16384 ≤ entries.length)
    (hn2 : entries.length < 65536) :
    ∃ table, ReadAttribute pool
          (NewReader (attributeRecord nameIndex (lineNumberPayload entries))) buf
        = .ok (.mk nameIndex LineNumberTableAttr (.LineNumberTable table),
            ⟨[], (lineNumberPayload entries).drop (defaultBufSize - 6)⟩) ∧
      table.length = entries.length ∧ table[16383]? = some ⟨0, entries.length⟩ ∧
      (16384 < entries.length → table[16384]? = some x) := by
  have hPlen := lineNumberPayload_length entries
  have hfresh := ReadAttribute_lineNumberTable_fresh pool nameIndex (lineNumberPayload entries)
    [] buf hb hi (by omega) (by rw [defaultBufSize_eq]; omega) hp
  rw [List.append_nil, List.append_nil] at hfresh
  obtain ⟨tail, hinfo⟩ := lineNumberPayload_take entries x hx
    (List.replicate ((lineNumberPayload entries).length - (defaultBufSize - 6)) 0)
  generalize hI : (lineNumberPayload entries).take (defaultBufSize - 6)
    ++ List.replicate ((lineNumberPayload entries).length - (defaultBufSize - 6)) 0 = info
    at hfresh hinfo
  have hcount : Uint16 info = .ok entries.length := by
    rw [hinfo]; exact Uint16_be16 _ _ hn2
  have hilen : info.length = (lineNumberPayload entries).length := by
    rw [← hI, List.length_append, List.length_take, List.length_replicate, defaultBufSize_eq]
    omega
  obtain ⟨table, htable⟩ := forRange_succeeds (fun i => do
      let startPc ← Uint16 (← sliceFrom info ((i * 4 + 2) % 65536))
      let lineNumber ← Uint16 (← sliceFrom info ((i * 4 + 2 + 2) % 65536))
      pure (⟨startPc, lineNumber⟩ : LineNumberTableAttributeData)) entries.length 0
    (fun j => lineNumber_body_succeeds info (by omega) j)
  obtain ⟨hlen, hbody⟩ := forRange_ok _ _ 0 table htable
  have hs0 : sliceFrom info 0 = .ok info := by simp [sliceFrom]
  refine ⟨table, ?_, hlen, ?_, ?_⟩
  · rw [hfresh]
    simp only [bind, Except.bind, pure, Except.pure] at htable
    simp only [hcount, htable, bind, Except.bind, pure, Except.pure]
  · have hlt : 16383 < table.length := by omega
    have h1 := hbody 16383 _ (List.getElem?_eq_getElem hlt)
    have e1 : ((0 + 16383) * 4 + 2) % 65536 = 65534 := by norm_num
    have e2 : ((0 + 16383) * 4 + 2 + 2) % 65536 = 0 := by norm_num
    have hs1 : sliceFrom info 65534 = .ok (info.drop 65534) := by
      unfold sliceFrom
      rw [if_pos (by omega)]
    have hz : Uint16 (info.drop 65534) = .ok 0 := by
      rw [← hI]
      exact Uint16_drop_zeros _ _ _ (by rw [List.length_take, defaultBufSize_eq]; omega)
        (by rw [List.length_take, defaultBufSize_eq]; omega)
    simp only [e1, e2, hs0, hs1, hz, hcount, bind, Except.bind, pure, Except.pure] at h1
    rw [List.getElem?_eq_getElem hlt]
    exact congrArg some (Except.ok.inj h1).symm
  · intro hgt
    have hlt : 16384 < table.length := by omega
    have h1 := hbody 16384 _ (List.getElem?_eq_getElem hlt)
    have e1 : ((0 + 16384) * 4 + 2) % 65536 = 2 := by norm_num
    have e2 : ((0 + 16384) * 4 + 2 + 2) % 65536 = 4 := by norm_num
    have hs2 : sliceFrom info 2 = .ok (be16 x.StartPc ++ (be16 x.LineNumber ++ tail)) := by
      unfold sliceFrom
      rw [if_pos (by omega), hinfo]
      rfl
    have hs4 : sliceFrom info 4 = .ok (be16 x.LineNumber ++ tail) := by
      unfold sliceFrom
      rw [if_pos (by omega), hinfo]
      rfl
    simp only [e1, e2, hs2, hs4, Uint16_be16 _ _ hxs, Uint16_be16 _ _ hxl, bind, Except.bind,
      pure, Except.pure] at h1
    rw [List.getElem?_eq_getElem hlt]
    exact congrArg some (Except.ok.inj h1).symm

/-- C15 (the code on line-number tables). The loop of the LineNumberTable case
computes the offsets `(i*4)+2` and `(i*4)+2+2` in `uint16`. Whatever the reader
and however many payload bytes it delivers, in every table that `ReadAttribute`
returns the entry at a position `i ≥ 16384` is the entry at `i - 16384`, and
the line number of an entry at a position `16383 mod 16384` is the number of
entries. A record that lies within the buffer (fewer than 16383 entries) is
returned entry for entry. When the payload is delivered whole (the header of
the record ends the buffer and the payload, of at least `defaultBufSize` bytes,
is read straight from the source), the entry at position `i` is
`lineNumberEntryRead entries i`: the encoded entry for `i < 16383`, and wrapped
from `i = 16383` on. Read by a fresh reader, a table of at least 16384 entries
comes back with as many entries, the entry 16383 as (0, count) and the entry
16384 as the first entry: with 16384 entries (0, 7) the entry 16383 is
(0, 16384), and with one more entry (5, 9) the entry 16384 is (0, 7). -/
theorem ReadAttribute_lineNumberTable_wraps :
    (∀ (pool : List ConstantInfo) (r : Reader) (buf : List Byte) (nameIndex : Nat)
        (name : List Byte) (table : List LineNumberTableAttributeData) (r' : Reader),
      ReadAttribute pool r buf = .ok (.mk nameIndex name (.LineNumberTable table), r') →
      (∀ i, 16384 ≤ i → i < table.length → table[i]? = table[i - 16384]?) ∧
      (∀ i x, table[i]? = some x → i % 16384 = 16383 → x.LineNumber = table.length)) ∧
    (∀ (pool : List ConstantInfo) (nameIndex : Nat)
        (entries : List LineNumberTableAttributeData) (r : Reader) (b buf : List Byte),
      buf.length = 4 → nameIndex < 65536 → poolUtf8 pool nameIndex = .ok LineNumberTableAttr →
      (∀ x ∈ entries, x.StartPc < 65536 ∧ x.LineNumber < 65536) →
      r.fill.buf = attributeRecord nameIndex (lineNumberPayload entries) ++ b →
      r.fill.buf.length ≤ defaultBufSize →
      ReadAttribute pool r buf
        = .ok (.mk nameIndex LineNumberTableAttr (.LineNumberTable entries),
            ⟨b, r.fill.rd⟩)) ∧
    (∀ (pool : List ConstantInfo) (nameIndex : Nat)
        (entries : List LineNumberTableAttributeData) (rest buf : List Byte),
      buf.length = 4 → nameIndex < 65536 → poolUtf8 pool nameIndex = .ok LineNumberTableAttr →
      entries.length < 65536 → (∀ x ∈ entries, x.StartPc < 65536 ∧ x.LineNumber < 65536) →
      defaultBufSize ≤ (lineNumberPayload entries).length →
      ReadAttribute pool
          ⟨be16 nameIndex ++ be32 (lineNumberPayload entries).length,
            lineNumberPayload entries ++ rest⟩ buf
        = .ok (.mk nameIndex LineNumberTableAttr
            (.LineNumberTable ((List.range entries.length).map (lineNumberEntryRead entries))),
            ⟨[], rest⟩)) ∧
    (∀ (entries : List LineNumberTableAttributeData) (i : Nat), i < 16383 →
      entries[i]? = some (lineNumberEntryRead entries i) ∨ entries.length ≤ i) ∧
    lineNumberEntryRead (List.replicate 16384 ⟨0, 7⟩) 16383 = ⟨0, 16384⟩ ∧
    lineNumberEntryRead (List.replicate 16384 ⟨0, 7⟩ ++ [⟨5, 9⟩]) 16384 = ⟨0, 7⟩ ∧
    (∀ (pool : List ConstantInfo) (nameIndex : Nat)
        (entries : List LineNumberTableAttributeData) (x : LineNumberTableAttributeData)
        (buf : List Byte),
      buf.length = 4 → nameIndex < 65536 → poolUtf8 pool nameIndex = .ok LineNumberTableAttr →
      entries[0]? = some x → x.StartPc < 65536 → x.LineNumber < 65536 →
      16384 ≤ entries.length → entries.length < 65536 →
      ∃ table, ReadAttribute pool
            (NewReader (attributeRecord nameIndex (lineNumberPayload entries))) buf
          = .ok (.mk nameIndex LineNumberTableAttr (.LineNumberTable table),
              ⟨[], (lineNumberPayload entries).drop (defaultBufSize - 6)⟩) ∧
        table.length = entries.length ∧ table[16383]? = some ⟨0, entries.length⟩ ∧
        (16384 < entries.length → table[16384]? = some x)) ∧
    (∃ table, ReadAttribute attributePool
          (NewReader (attributeRecord 2 (lineNumberPayload (List.replicate 16384 ⟨0, 7⟩))))
          (List.replicate 4 0)
        = .ok (.mk 2 LineNumberTableAttr (.LineNumberTable table),
            ⟨[], (lineNumberPayload (List.replicate 16384 ⟨0, 7⟩)).drop (defaultBufSize - 6)⟩) ∧
      table.length = 16384 ∧ table[16383]? = some ⟨0, 16384⟩) ∧
    (∃ table, ReadAttribute attributePool
          (NewReader (attributeRecord 2
            (lineNumberPayload (List.replicate 16384 ⟨0, 7⟩ ++ [⟨5, 9⟩]))))
          (List.replicate 4 0)
        = .ok (.mk 2 LineNumberTableAttr (.LineNumberTable table),
            ⟨[], (lineNumberPayload (List.replicate 16384 ⟨0, 7⟩ ++ [⟨5, 9⟩])).drop
              (defaultBufSize - 6)⟩) ∧
      table.length = 16385 ∧ table[16384]? = some ⟨0, 7⟩) := by
  have h0a : (List.replicate 16384 (⟨0, 7⟩ : LineNumberTableAttributeData))[0]?
      = some ⟨0, 7⟩ := by
    rw [List.getElem?_replicate, if_pos (by decide)]
  have hlen : (List.replicate 16384 (⟨0, 7⟩ : LineNumberTableAttributeData)
      ++ [(⟨5, 9⟩ : LineNumberTableAttributeData)]).length = 16385 := by
    rw [List.length_append, List.length_replicate]
    rfl
  have h0b : (List.replicate 16384 (⟨0, 7⟩ : LineNumberTableAttributeData)
      ++ [(⟨5, 9⟩ : LineNumberTableAttributeData)])[0]? = some ⟨0, 7⟩ := by
    rw [List.getElem?_append_left (by rw [List.length_replicate]; decide), h0a]
  refine ⟨?_, ?_, ?_, ?_, ?_, ?_, ?_, ?_, ?_⟩
  · intro pool r buf nameIndex name table r' h
    obtain ⟨info, n, hn, hloop⟩ := ReadAttributeFuel_lineNumberTable_inv pool _ r buf nameIndex
      name table r' h
    exact (forRange_lineNumber_wrap info n table hn hloop).2
  · intro pool nameIndex entries r b buf hb hi hp hall hr hlen
    have hrec : (attributeRecord nameIndex (lineNumberPayload entries)).length
        = 8 + 4 * entries.length := by
      simp only [attributeRecord, List.length_append, be16_length, be32_length,
        lineNumberPayload_length]
      omega
    rw [hr, List.length_append, hrec, defaultBufSize_eq] at hlen
    obtain ⟨hw1, hw2, hw3⟩ := payload_whole (lineNumberPayload entries) b
    rw [ReadAttribute_of_fill pool r buf _ hr, attributeRecord_append,
      ReadAttribute_lineNumberTable pool nameIndex _ _ _ buf hb hi
        (by rw [lineNumberPayload_length]; omega) hw1 hp,
      hw2, hw3, lineNumberTable_decode nameIndex entries _ (by omega) hall,
      map_lineNumberEntryRead entries (by omega)]
  · intro pool nameIndex entries rest buf hb hi hp hn hall hbig
    have hne : lineNumberPayload entries ++ rest ≠ [] := by
      intro h0
      have := congrArg List.length h0
      rw [List.length_append, lineNumberPayload_length] at this
      simp at this
    rw [ReadAttribute_lineNumberTable_direct pool nameIndex _ _ buf hb hi
        (by rw [lineNumberPayload_length]; omega) hbig hne hp,
      (payload_whole (lineNumberPayload entries) rest).2.2,
      (payload_whole (lineNumberPayload entries) rest).2.1,
      lineNumberTable_decode nameIndex entries _ hn hall]
  · intro entries i hi
    by_cases hlt : i < entries.length
    · left
      rw [lineNumberEntryRead_of_lt entries i hi hlt, List.getElem?_eq_getElem hlt]
    · right; omega
  · rw [lineNumberEntryRead_replicate _ _ _ (by decide)]
    rfl
  · unfold lineNumberEntryRead
    rw [show 16384 % 16384 = 0 from rfl, h0b]
    rfl
  · intro pool nameIndex entries x buf hb hi hp hx hxs hxl hn1 hn2
    exact ReadAttribute_lineNumberTable_long pool nameIndex entries x buf hb hi hp hx hxs hxl
      hn1 hn2
  · obtain ⟨table, h1, h2, h3, -⟩ := ReadAttribute_lineNumberTable_long attributePool 2
      (List.replicate 16384 ⟨0, 7⟩) ⟨0, 7⟩ (List.replicate 4 0) rfl (by decide) (by rfl) h0a
      (by decide) (by decide) (by rw [List.length_replicate])
      (by rw [List.length_replicate]; decide)
    rw [List.length_replicate] at h2 h3
    exact ⟨table, h1, h2, h3⟩
  · obtain ⟨table, h1, h2, -, h4⟩ := ReadAttribute_lineNumberTable_long attributePool 2
      (List.replicate 16384 (⟨0, 7⟩ : LineNumberTableAttributeData)
        ++ [(⟨5, 9⟩ : LineNumberTableAttributeData)]) ⟨0, 7⟩ (List.replicate 4 0) rfl
      (by decide) (by rfl) h0b (by decide) (by decide) (by rw [hlen]; decide)
      (by rw [hlen]; decide)
    rw [hlen] at h2 h4
    exact ⟨table, h1, h2, h4 (by decide)⟩

/-! ## Descriptors -/

theorem ParseBaseType_of_mem (c : Byte) (name : List Byte) (h : (c, name) ∈ baseTypeNames) :
    ParseBaseType c = name ∧ name.length ≠ 0 := by
  have hall : ∀ p ∈ baseTypeNames, ParseBaseType p.1 = p.2 ∧ p.2.length ≠ 0 := by decide
  exact hall (c, name) h

theorem byteAt_append (pre rest : List Byte) (c : Byte) :
    byteAt (pre ++ c :: rest) pre.length = .ok c := by
  unfold byteAt
  rw [List.getElem?_append_right (le_refl _)]
  simp

theorem byteAt_error (s : List Byte) (i : Nat) (e : Err) (h : byteAt s i = .error e) :
    e = .panic := by
  unfold byteAt at h
  split at h <;> cases h
  rfl

theorem byteAt_lt (s : List Byte) (i : Nat) (c : Byte) (h : byteAt s i = .ok c) :
    i < s.length := by
  unfold byteAt at h
  split at h
  · rename_i heq
    exact (List.getElem?_eq_some_iff.mp heq).1
  · cases h

theorem sliceRange_error (s : List Byte) (lo hi : Int) (e : Err)
    (h : sliceRange s lo hi = .error e) : e = .panic := by
  unfold sliceRange at h
  split_ifs at h
  cases h; rfl

theorem flatten_replicate_succ (n : Nat) (x : List Byte) :
    (List.replicate (n + 1) x).flatten = (List.replicate n x).flatten ++ x := by
  rw [List.replicate_succ', List.flatten_append]
  simp

theorem ParseFieldTypeFuel_array (c : Byte) (name rest : List Byte)
    (h : (c, name) ∈ baseTypeNames) :
    ∀ (n fuel : Nat) (pre : List Byte), n < fuel →
      ParseFieldTypeFuel fuel (pre ++ (List.replicate n (chr '[') ++ c :: rest)) pre.length
        = .ok (name ++ (List.replicate n (ascii "[]")).flatten, pre.length + n) := by
  obtain ⟨hbt, hlen⟩ := ParseBaseType_of_mem c name h
  intro n
  induction n with
  | zero =>
    intro fuel pre hf
    obtain ⟨f, rfl⟩ : ∃ f, fuel = f + 1 := ⟨fuel - 1, by omega⟩
    simp [ParseFieldTypeFuel, byteAt_append, hbt, hlen, bind, Except.bind, pure, Except.pure]
  | succ n ih =>
    intro fuel pre hf
    obtain ⟨f, rfl⟩ : ∃ f, fuel = f + 1 := ⟨fuel - 1, by omega⟩
    have hrec := ih f (pre ++ [chr '[']) (by omega)
    simp only [List.append_assoc, List.singleton_append, List.length_append, List.length_singleton]
      at hrec
    have hb : ParseBaseType (chr '[') = [] := by rfl
    rw [List.replicate_succ, List.cons_append]
    simp only [ParseFieldTypeFuel, byteAt_append, hb, bind, Except.bind, pure, Except.pure,
      List.length_nil, ne_eq, not_true_eq_false, if_false, if_true, hrec]
    rw [flatten_replicate_succ]
    simp [List.append_assoc, Nat.add_assoc, Nat.add_comm]

/-- C16. For every n and every base-type letter, `ParseFieldType` on n
characters `[` followed by the letter, started at position 0, returns the
primitive name of the letter followed by n copies of `[]`, and leaves the
position at n, on the letter. -/
theorem ParseFieldType_array_of_base (n : Nat) (c : Byte) (name : List Byte)
    (h : (c, name) ∈ baseTypeNames) :
    ParseFieldType (List.replicate n (chr '[') ++ [c]) 0
      = .ok (name ++ (List.replicate n (ascii "[]")).flatten, n) := by
  have := ParseFieldTypeFuel_array c name [] h n
    ((List.replicate n (chr '[') ++ [c]).length + 1) []
    (by simp only [List.length_append, List.length_replicate, List.length_singleton]; omega)
  simpa [ParseFieldType] using this

/-- Witness of C16: the descriptor `[[I` gives `int[][]` and the position 2. -/
theorem ParseFieldType_array_of_base_witness :
    ParseFieldType (ascii "[[I") 0 = .ok (ascii "int[][]", 2) :=
  ParseFieldType_array_of_base 2 (chr 'I') (ascii "int") (by decide)

theorem IndexByte_append (c : Byte) (rest : List Byte) :
    ∀ body : List Byte, c ∉ body → IndexByte (body ++ c :: rest) c = body.length := by
  intro body
  induction body with
  | nil => intro _; simp [IndexByte]
  | cons b body ih =>
    intro h
    have hb : b ≠ c := fun e => h (by simp [e])
    have hr := ih (fun hm => h (List.mem_cons_of_mem _ hm))
    have hlt : ¬ ((body.length : Int) < 0) := by omega
    simp only [List.cons_append, IndexByte, hb, if_false, List.append_eq, hr, hlt,
      List.length_cons]
    push_cast
    rfl

theorem IndexByte_of_not_mem (c : Byte) :
    ∀ s : List Byte, c ∉ s → IndexByte s c = -1 := by
  intro s
  induction s with
  | nil => intro _; rfl
  | cons b s ih =>
    intro h
    have hb : b ≠ c := fun e => h (by simp [e])
    have hr := ih (fun hm => h (List.mem_cons_of_mem _ hm))
    simp [IndexByte, hb, hr]

theorem sliceRange_nat (s : List Byte) (lo hi : Nat) :
    sliceRange s (lo : Int) (hi : Int)
      = if lo ≤ hi ∧ hi ≤ s.length then .ok ((s.take hi).drop lo) else .error .panic := by
  unfold sliceRange
  by_cases h : lo ≤ hi ∧ hi ≤ s.length
  · have h' : (0 : Int) ≤ (lo : Int) ∧ (lo : Int) ≤ (hi : Int) ∧ (hi : Int) ≤ (s.length : Int) := by
      omega
    simp only [h, h', and_self, if_true, Int.toNat_ofNat]
  · have h' : ¬ ((0 : Int) ≤ (lo : Int) ∧ (lo : Int) ≤ (hi : Int) ∧
        (hi : Int) ≤ (s.length : Int)) := by omega
    simp only [h, h', if_false]

theorem drop_take_middle (pre body tail : List Byte) (c : Byte)
    (hk : pre.length ≤ body.length) :
    ((pre ++ c :: (body ++ tail)).take (body.length + 1)).drop (pre.length + 1)
      = body.take (body.length - pre.length) := by
  rw [List.take_append_eq_append_take, List.take_of_length_le (by omega)]
  have e : body.length + 1 - pre.length = (body.length - pre.length) + 1 := by omega
  rw [e, List.take_succ_cons, List.take_append_of_le_length (by omega)]
  rw [List.drop_append]
  rfl

theorem ParseFieldType_object (pre body rest : List Byte) (h : chr ';' ∉ body) :
    ParseFieldType (pre ++ chr 'L' :: (body ++ chr ';' :: rest)) pre.length
      = if pre.length ≤ body.length then
          .ok (ReplaceAll (body.take (body.length - pre.length)) (chr '/') (chr '.'), pre.length)
        else .error .panic := by
  have hb : ParseBaseType (chr 'L') = [] := by rfl
  have hne : chr 'L' ≠ chr '[' := by decide
  have hs : sliceFrom (pre ++ chr 'L' :: (body ++ chr ';' :: rest)) pre.length
      = .ok (chr 'L' :: (body ++ chr ';' :: rest)) := by
    simp [sliceFrom]
  have hi : IndexByte (chr 'L' :: (body ++ chr ';' :: rest)) (chr ';')
      = ((body.length + 1 : Nat) : Int) := by
    have := IndexByte_append (chr ';') rest (chr 'L' :: body)
      (by
        intro hm
        rcases List.mem_cons.mp hm with e | e
        · exact absurd e (by decide)
        · exact h e)
    simpa using this
  unfold ParseFieldType
  have hsl := sliceRange_nat (pre ++ chr 'L' :: (body ++ chr ';' :: rest)) (pre.length + 1)
    (body.length + 1)
  push_cast at hsl
  simp only [ParseFieldTypeFuel, byteAt_append, hb, hne, hs, hi, bind, Except.bind, pure,
    Except.pure, List.length_nil, ne_eq, not_true_eq_false, if_false, if_true]
  push_cast
  rw [hsl]
  by_cases hk : pre.length ≤ body.length
  · have hc : pre.length + 1 ≤ body.length + 1 ∧
        body.length + 1 ≤ (pre ++ chr 'L' :: (body ++ chr ';' :: rest)).length := by
      simp only [List.length_append, List.length_cons]
      omega
    simp only [hc, and_self, if_true, hk, drop_take_middle pre body (chr ';' :: rest) (chr 'L') hk]
  · simp only [hk, false_and, if_false]

/-- C17 (the code on object types). For a descriptor with `L` at position p,
then a name without `;`, then `;`: `ParseFieldType` at p returns the name with
`/` replaced by `.` only when p = 0; at a later position it returns the name
without its last p characters, and panics when the name has fewer than p
characters, because the index of `;` found in `descriptor[p:]` is used as an
index into the whole descriptor. So `Ljava/lang/String;` gives
`java.lang.String`, and the element type of `[Ljava/lang/String;` is rendered
`java.lang.Strin`, the whole descriptor `java.lang.Strin[]`. -/
theorem ParseFieldType_object_cut_short :
    (∀ pre body rest : List Byte, chr ';' ∉ body →
      ParseFieldType (pre ++ chr 'L' :: (body ++ chr ';' :: rest)) pre.length
        = if pre.length ≤ body.length then
            .ok (ReplaceAll (body.take (body.length - pre.length)) (chr '/') (chr '.'),
              pre.length)
          else .error .panic) ∧
      ParseFieldType (ascii "Ljava/lang/String;") 0 = .ok (ascii "java.lang.String", 0) ∧
      ParseFieldType (ascii "[Ljava/lang/String;") 1 = .ok (ascii "java.lang.Strin", 1) ∧
      ParseFieldType (ascii "[Ljava/lang/String;") 0 = .ok (ascii "java.lang.Strin[]", 1) ∧
      ParseFieldType (ascii "[[[[L;") 0 = .error .panic :=
  ⟨ParseFieldType_object, by rfl, by rfl, by rfl, by rfl⟩

theorem ParseFieldType_base (pre rest : List Byte) (c : Byte) (name : List Byte)
    (h : (c, name) ∈ baseTypeNames) :
    ParseFieldType (pre ++ c :: rest) pre.length = .ok (name, pre.length) := by
  have := ParseFieldTypeFuel_array c name rest h 0 ((pre ++ c :: rest).length + 1) pre (by omega)
  simpa [ParseFieldType] using this

theorem paramsLoop_base :
    ∀ (todo done : List (Byte × List Byte)) (fuel : Nat) (acc : List (List Byte)),
      (∀ p ∈ todo, p ∈ baseTypeNames) → todo.length ≤ fuel →
      paramsLoop (done.map Prod.fst ++ todo.map Prod.fst) fuel done.length acc
        = .ok (acc ++ todo.map Prod.snd) := by
  intro todo
  induction todo with
  | nil =>
    intro done fuel acc _ _
    cases fuel <;> simp [paramsLoop, pure, Except.pure]
  | cons p todo ih =>
    intro done fuel acc hall hf
    obtain ⟨f, rfl⟩ : ∃ f, fuel = f + 1 := ⟨fuel - 1, by simp at hf; omega⟩
    have hp : (p.1, p.2) ∈ baseTypeNames := hall p (List.mem_cons_self _ _)
    have hlen := (ParseBaseType_of_mem p.1 p.2 hp).2
    have hpos : done.length
        < (List.map Prod.fst done ++ p.1 :: List.map Prod.fst todo).length := by
      simp
    have hparse : ParseFieldType (List.map Prod.fst done ++ p.1 :: List.map Prod.fst todo)
        (List.map Prod.fst done).length = .ok (p.2, (List.map Prod.fst done).length) :=
      ParseFieldType_base _ _ p.1 p.2 hp
    rw [List.length_map] at hparse
    have hrec := ih (done ++ [p]) f (acc ++ [p.2])
      (fun q hq => hall q (List.mem_cons_of_mem _ hq)) (by simp at hf; omega)
    simp only [List.map_append, List.map_cons, List.map_nil, List.append_assoc,
      List.singleton_append, List.length_append, List.length_singleton] at hrec
    simp only [paramsLoop, hpos, if_true, List.map_cons, hparse, bind, Except.bind, hlen,
      if_false, hrec]

/-- C18. For every list of base-type letters, every return letter and every
name, `ParseDescriptor` on `(`, the letters, `)` and the return letter gives
the primitive name of the return letter, a blank, the name, and between
parentheses the primitive names of the letters in order, joined by `, `. -/
theorem ParseDescriptor_base_types (ps : List (Byte × List Byte)) (r : Byte × List Byte)
    (name : List Byte) (hps : ∀ p ∈ ps, p ∈ baseTypeNames ∧ p.1 ≠ chr 'V')
    (hr : r ∈ baseTypeNames) :
    ParseDescriptor (chr '(' :: (ps.map Prod.fst ++ [chr ')', r.1])) name
      = .ok (r.2 ++ ascii " " ++ name ++ ascii "(" ++ Join (ps.map Prod.snd) (ascii ", ")
          ++ ascii ")") := by
  have hpre : (ascii "(").isPrefixOf (chr '(' :: (ps.map Prod.fst ++ [chr ')', r.1])) = true := by
    have ha : ascii "(" = [chr '('] := rfl
    rw [ha]
    simp [List.isPrefixOf]
  have hlen : (chr '(' :: (ps.map Prod.fst ++ [chr ')', r.1])).length = ps.length + 3 := by
    simp
  have hlast : byteAt (chr '(' :: (ps.map Prod.fst ++ [chr ')', r.1])) (ps.length + 3 - 1)
      = .ok r.1 := by
    have := byteAt_append (chr '(' :: (ps.map Prod.fst ++ [chr ')'])) [] r.1
    simpa using this
  have hparams : sliceRange (chr '(' :: (ps.map Prod.fst ++ [chr ')', r.1])) 1
      (((ps.length + 3 : Nat) : Int) - 2) = .ok (ps.map Prod.fst) := by
    have e : (((ps.length + 3 : Nat) : Int) - 2) = ((ps.length + 1 : Nat) : Int) := by
      push_cast; omega
    have := sliceRange_nat (chr '(' :: (ps.map Prod.fst ++ [chr ')', r.1])) 1 (ps.length + 1)
    rw [e]
    rw [show ((1 : Nat) : Int) = 1 from rfl] at this
    rw [this]
    have hc : 1 ≤ ps.length + 1 ∧
        ps.length + 1 ≤ (chr '(' :: (ps.map Prod.fst ++ [chr ')', r.1])).length := by
      rw [hlen]; omega
    simp only [hc, and_self, if_true, List.take_succ_cons, List.drop_succ_cons, List.drop_zero]
    rw [List.take_append_of_le_length (by simp), List.take_of_length_le (by simp)]
  have hrt := (ParseBaseType_of_mem r.1 r.2 hr).1
  have hloop := paramsLoop_base ps [] ps.length [] (fun p hp => (hps p hp).1) (le_refl _)
  simp only [List.map_nil, List.nil_append, List.length_nil] at hloop
  unfold ParseDescriptor
  simp only [hpre, hlen, hlast, hparams, hrt, if_true, bind, Except.bind, pure, Except.pure,
    List.length_map]
  by_cases h0 : ps.length = 0
  · have : ps = [] := List.length_eq_zero.mp h0
    subst this
    rfl
  · simp only [ne_eq, h0, not_false_eq_true, if_true, hloop]

/-- Witness of C18: the descriptor `(II)V` with the name `methodName`. -/
theorem ParseDescriptor_base_types_witness :
    ParseDescriptor (ascii "(II)V") (ascii "methodName")
      = .ok (ascii "void methodName(int, int)") :=
  ParseDescriptor_base_types [(chr 'I', ascii "int"), (chr 'I', ascii "int")]
    (chr 'V', ascii "void") (ascii "methodName") (by decide) (by decide)

set_option maxRecDepth 100000 in
/-- C19 (the code at the failing inputs). In `(Ljava/lang/String;I)V` the
parameter after the object type is lost, because the position is left on the
`L` and the loop stops at the next character; in `()Ljava/lang/String;` the
return type is rendered from the last character `;` alone and comes out empty;
an object type that is not the first parameter loses its last characters. For
every method descriptor the rendered return type is `ParseBaseType` of the last
character. -/
theorem ParseDescriptor_object_types_lost :
    ParseDescriptor (ascii "(Ljava/lang/String;I)V") (ascii "name")
        = .ok (ascii "void name(java.lang.String)") ∧
      ParseDescriptor (ascii "()Ljava/lang/String;") (ascii "name") = .ok (ascii " name()") ∧
      ParseDescriptor (ascii "(ILjava/lang/String;)V") (ascii "name")
        = .ok (ascii "void name(int, java.lang.Strin)") ∧
      ParseDescriptor (ascii "([Ljava/lang/String;)V") (ascii "main")
        = .ok (ascii "void main(java.lang.Strin[])") ∧
      (∀ descriptor name out : List Byte, (ascii "(").isPrefixOf descriptor = true →
        ParseDescriptor descriptor name = .ok out →
        ∃ (c : Byte) (paramsTypes : List (List Byte)),
          byteAt descriptor (descriptor.length - 1) = .ok c ∧
          out = ParseBaseType c ++ ascii " " ++ name ++ ascii "("
            ++ Join paramsTypes (ascii ", ") ++ ascii ")") := by
  refine ⟨by rfl, by rfl, by rfl, by rfl, ?_⟩
  intro descriptor name out hpre h
  unfold ParseDescriptor at h
  simp only [hpre, if_true, bind, Except.bind, pure, Except.pure] at h
  repeat' split at h
  all_goals cases h
  all_goals exact ⟨_, _, by assumption, rfl⟩

theorem ParseFieldTypeFuel_outcome :
    ∀ (fuel : Nat) (descriptor : List Byte) (pos : Nat), descriptor.length < fuel + pos →
      0 < fuel →
      (∀ e, ParseFieldTypeFuel fuel descriptor pos = .error e → e = .panic) ∧
      (∀ t pos', ParseFieldTypeFuel fuel descriptor pos = .ok (t, pos') → pos ≤ pos') := by
  intro fuel
  induction fuel with
  | zero => intro d pos _ h; omega
  | succ fuel ih =>
    intro d pos hlen _
    constructor
    · intro e h
      simp only [ParseFieldTypeFuel, bind, Except.bind, pure, Except.pure] at h
      repeat' split at h
      all_goals cases h
      all_goals first
        | contradiction
        | exact byteAt_error _ _ _ (by assumption)
        | exact sliceFrom_error _ _ _ (by assumption)
        | exact sliceRange_error _ _ _ _ (by assumption)
        | (have hlt := byteAt_lt _ _ _ (by assumption)
           exact (ih d (pos + 1) (by omega) (by omega)).1 _ (by assumption))
    · intro t pos' h
      simp only [ParseFieldTypeFuel, bind, Except.bind, pure, Except.pure] at h
      repeat' split at h
      all_goals cases h
      all_goals first
        | contradiction
        | exact le_refl _
        | (have hlt := byteAt_lt _ _ _ (by assumption)
           have := (ih d (pos + 1) (by omega) (by omega)).2 _ _ (by assumption)
           omega)

theorem ParseFieldType_error (descriptor : List Byte) (pos : Nat) (e : Err)
    (h : ParseFieldType descriptor pos = .error e) : e = .panic :=
  (ParseFieldTypeFuel_outcome _ descriptor pos (by omega) (by omega)).1 e h

/-- The function `ParseFieldType` never reports an exhausted bound. -/
theorem ParseFieldType_ne_fuel (descriptor : List Byte) (pos : Nat) :
    ParseFieldType descriptor pos ≠ .error .fuel :=
  fun h => absurd (ParseFieldType_error descriptor pos _ h) (by decide)

theorem ParseFieldType_pos_le (descriptor : List Byte) (pos : Nat) (t : List Byte) (pos' : Nat)
    (h : ParseFieldType descriptor pos = .ok (t, pos')) : pos ≤ pos' :=
  (ParseFieldTypeFuel_outcome _ descriptor pos (by omega) (by omega)).2 t pos' h

theorem paramsLoop_error (params : List Byte) :
    ∀ (fuel pos : Nat) (acc : List (List Byte)) (e : Err), params.length ≤ fuel + pos →
      paramsLoop params fuel pos acc = .error e → e = .panic := by
  intro fuel
  induction fuel with
  | zero =>
    intro pos acc e hlen h
    simp only [paramsLoop] at h
    split_ifs at h
    omega
  | succ fuel ih =>
    intro pos acc e hlen h
    simp only [paramsLoop, bind, Except.bind, pure, Except.pure] at h
    repeat' split at h
    all_goals first | (cases h; done) | skip
    · cases h
      exact ParseFieldType_error _ _ _ (by assumption)
    · have hle := ParseFieldType_pos_le _ _ _ _ (by assumption)
      exact ih _ _ _ (by omega) h

theorem ParseDescriptor_error (descriptor name : List Byte) (e : Err)
    (h : ParseDescriptor descriptor name = .error e) : e = .panic := by
  unfold ParseDescriptor at h
  simp only [bind, Except.bind, pure, Except.pure] at h
  repeat' split at h
  all_goals first | (cases h; done) | skip
  all_goals first
    | (cases h; exact byteAt_error _ _ _ (by assumption))
    | (cases h; exact sliceRange_error _ _ _ _ (by assumption))
    | (cases h; exact ParseFieldType_error _ _ _ (by assumption))
    | (cases h
       refine paramsLoop_error _ _ _ _ _ ?_ (by assumption)
       omega)

/-- The function `ParseDescriptor` never reports an exhausted bound. -/
theorem ParseDescriptor_ne_fuel (descriptor name : List Byte) :
    ParseDescriptor descriptor name ≠ .error .fuel :=
  fun h => absurd (ParseDescriptor_error descriptor name _ h) (by decide)

theorem ParseBaseType_of_not_mem (c : Byte) (h : ∀ name, (c, name) ∉ baseTypeNames) :
    ParseBaseType c = [] := by
  unfold ParseBaseType
  split_ifs with h1 h2 h3 h4 h5 h6 h7 h8
  · exact absurd (by simp [baseTypeNames, h1]) (h (ascii "byte"))
  · exact absurd (by simp [baseTypeNames, h2]) (h (ascii "char"))
  · exact absurd (by simp [baseTypeNames, h3]) (h (ascii "double"))
  · exact absurd (by simp [baseTypeNames, h4]) (h (ascii "float"))
  · exact absurd (by simp [baseTypeNames, h5]) (h (ascii "int"))
  · exact absurd (by simp [baseTypeNames, h6]) (h (ascii "long"))
  · exact absurd (by simp [baseTypeNames, h7]) (h (ascii "boolean"))
  · exact absurd (by simp [baseTypeNames, h8]) (h (ascii "void"))
  · rfl

theorem ParseFieldType_unterminated (pre body : List Byte) (h : chr ';' ∉ body) :
    ParseFieldType (pre ++ chr 'L' :: body) pre.length = .error .panic := by
  have hb : ParseBaseType (chr 'L') = [] := by rfl
  have hne : chr 'L' ≠ chr '[' := by decide
  have hs : sliceFrom (pre ++ chr 'L' :: body) pre.length = .ok (chr 'L' :: body) := by
    simp [sliceFrom]
  have hi : IndexByte (chr 'L' :: body) (chr ';') = -1 :=
    IndexByte_of_not_mem (chr ';') (chr 'L' :: body)
      (by
        intro hm
        rcases List.mem_cons.mp hm with e | e
        · exact absurd e (by decide)
        · exact h e)
  have hsl : ∀ lo : Int, sliceRange (pre ++ chr 'L' :: body) lo (-1) = .error .panic := by
    intro lo
    unfold sliceRange
    have : ¬ (0 ≤ lo ∧ lo ≤ -1 ∧ (-1 : Int) ≤ ((pre ++ chr 'L' :: body).length : Int)) := by
      omega
    simp only [this, if_false]
  unfold ParseFieldType
  simp only [ParseFieldTypeFuel, byteAt_append, hb, hne, hs, hi, hsl, bind, Except.bind, pure,
    Except.pure, List.length_nil, ne_eq, not_true_eq_false, if_false, if_true]

theorem ParseFieldType_other (pre rest : List Byte) (c : Byte)
    (hc : ∀ name, (c, name) ∉ baseTypeNames) (h1 : c ≠ chr '[') (h2 : c ≠ chr 'L') :
    ParseFieldType (pre ++ c :: rest) pre.length = .ok ([], pre.length) := by
  have hb := ParseBaseType_of_not_mem c hc
  unfold ParseFieldType
  simp only [ParseFieldTypeFuel, byteAt_append, hb, h1, h2, bind, Except.bind, pure,
    Except.pure, List.length_nil, ne_eq, not_true_eq_false, if_false]

/-- C20 (counterexample). On the object type `Ljava/lang/String`, which has no
`;`, `ParseFieldType` panics; on `X` it returns the empty string, and
`ParseDescriptor` renders `X` with the name `name` as ` name`. -/
theorem ParseFieldType_panics_on_unterminated :
    ParseFieldType (ascii "Ljava/lang/String") 0 = .error .panic ∧
      ParseFieldType (ascii "X") 0 = .ok ([], 0) ∧
      ParseDescriptor (ascii "X") (ascii "name") = .ok (ascii " name") :=
  ⟨by rfl, by rfl, by rfl⟩

/-- C20 (amended). Descriptor parsing has no failure result: the only outcome
of `ParseFieldType` and `ParseDescriptor` other than a returned string is a Go
runtime panic. An object type `L...` with no `;` at or after the `L` makes
`ParseFieldType` panic; a character that is neither a base-type letter nor `[`
nor `L` makes it return the empty string with the position unchanged, and
`ParseDescriptor` on a descriptor starting with such a character (not `(`)
returns a blank followed by the name. -/
theorem ParseFieldType_malformed :
    (∀ (descriptor : List Byte) (pos : Nat) (e : Err),
      ParseFieldType descriptor pos = .error e → e = .panic) ∧
    (∀ (descriptor name : List Byte) (e : Err),
      ParseDescriptor descriptor name = .error e → e = .panic) ∧
    (∀ pre body : List Byte, chr ';' ∉ body →
      ParseFieldType (pre ++ chr 'L' :: body) pre.length = .error .panic) ∧
    (∀ (pre rest : List Byte) (c : Byte), (∀ name, (c, name) ∉ baseTypeNames) →
      c ≠ chr '[' → c ≠ chr 'L' →
      ParseFieldType (pre ++ c :: rest) pre.length = .ok ([], pre.length)) ∧
    (∀ (rest name : List Byte) (c : Byte), (∀ n, (c, n) ∉ baseTypeNames) →
      c ≠ chr '[' → c ≠ chr 'L' → c ≠ chr '(' →
      ParseDescriptor (c :: rest) name = .ok (ascii " " ++ name)) := by
  refine ⟨ParseFieldType_error, ParseDescriptor_error, ParseFieldType_unterminated,
    ParseFieldType_other, ?_⟩
  intro rest name c hc h1 h2 h3
  have hp := ParseFieldType_other [] rest c hc h1 h2
  simp only [List.nil_append, List.length_nil] at hp
  have hpre : (ascii "(").isPrefixOf (c :: rest) = false := by
    have ha : ascii "(" = [chr '('] := rfl
    rw [ha]
    simp [List.isPrefixOf, Ne.symm h3]
  unfold ParseDescriptor
  simp only [hpre, hp, bind, Except.bind, pure, Except.pure, Bool.false_eq_true, if_false,
    List.nil_append]

/-! ## Single instructions and termination of the loop -/

theorem dispatch_default (jvm : Jvm) (code : List Byte) (m : Machine) (opcode : Byte)
    (h : opcode.val ∉ recognizedOpcodes) :
    dispatch jvm code m opcode
      = .ok { m with diag := m.diag ++ [.opcodeNotSupported opcode] } := by
  simp only [recognizedOpcodes, List.mem_cons, List.mem_singleton, List.not_mem_nil, or_false,
    not_or] at h
  unfold dispatch
  split <;> first | rfl | (rename_i heq; simp [heq] at h)

/-- C23. For every opcode byte outside the recognized set and every machine
state, one interpreter step appends exactly one diagnostic, the unsupported
opcode message for that byte, leaves stack, locals and output unchanged, and
advances `pc` by exactly 1. -/
theorem step_unknown_opcode (jvm : Jvm) (code : List Byte) (m : Machine) (opcode : Byte)
    (hc : code[m.pc]? = some opcode) (h : opcode.val ∉ recognizedOpcodes) :
    step jvm code m
      = .ok { m with pc := m.pc + 1, diag := m.diag ++ [.opcodeNotSupported opcode] } := by
  simp only [step, codeAt, hc, dispatch_default jvm code m opcode h, bind, Except.bind, pure,
    Except.pure]

/-- Witness of C23: the byte 0x00 (nop) in a machine with one stack value. -/
theorem step_unknown_opcode_witness :
    step ⟨emptyClass⟩ [0x00] ⟨0, [⟨.StackTypeInt, .int32 5⟩], [], [], []⟩
      = .ok ⟨1, [⟨.StackTypeInt, .int32 5⟩], [], [], [.opcodeNotSupported 0x00]⟩ :=
  step_unknown_opcode ⟨emptyClass⟩ [0x00] ⟨0, [⟨.StackTypeInt, .int32 5⟩], [], [], []⟩ 0x00
    rfl (by decide)

theorem toInt32_spec (x : Int) :
    -2147483648 ≤ toInt32 x ∧ toInt32 x < 2147483648 ∧
      toInt32 x % 4294967296 = x % 4294967296 := by
  unfold toInt32
  omega

theorem step_arith (jvm : Jvm) (code : List Byte) (m : Machine) (opcode : Byte)
    (op : Int → Int → Int) (s : List StackData) (w v : StackData) (a b : Int)
    (hc : code[m.pc]? = some opcode)
    (hd : dispatch jvm code m opcode = arith m opcode op)
    (hs : m.stack = s ++ [w, v]) (hv : v.Data = .int32 a) (hw : w.Data = .int32 b) :
    step jvm code m
      = .ok { m with
          pc := m.pc + 1
          stack := s ++ [⟨.StackTypeInt, .int32 (toInt32 (op a b))⟩]
          diag := if v.Typ ≠ .StackTypeInt ∧ w.Typ ≠ .StackTypeInt then
              m.diag ++ [.expectedStackInt opcode]
            else m.diag } := by
  have ht : (s ++ [w, v]).take ((s ++ [w, v]).length - 2) = s := by simp
  simp only [step, codeAt, hc, hd, arith, hs, fromTop_one_two, fromTop_two, asInt32, hv, hw, ht,
    bind, Except.bind, pure, Except.pure]

theorem dispatch_iadd (jvm : Jvm) (code : List Byte) (m : Machine) :
    dispatch jvm code m 0x60 = arith m 0x60 (fun a b => a + b) := rfl

theorem dispatch_imul (jvm : Jvm) (code : List Byte) (m : Machine) :
    dispatch jvm code m 0x68 = arith m 0x68 (fun a b => a * b) := rfl

/-- C28. When the two top values of the stack are Int(a), on top, and Int(b),
a step on iadd replaces them by the one value Int(r) where r is the `int32`
congruent to a + b modulo 2^32, and a step on imul by the one for a * b; the
rest of the stack, the locals, the output and the diagnostics are unchanged and
`pc` advances by 1. -/
theorem step_iadd_imul (jvm : Jvm) (code : List Byte) (m : Machine) (s : List StackData)
    (a b : Int)
    (hs : m.stack = s ++ [⟨.StackTypeInt, .int32 b⟩, ⟨.StackTypeInt, .int32 a⟩]) :
    (code[m.pc]? = some 0x60 →
      ∃ r : Int, step jvm code m
          = .ok { m with pc := m.pc + 1, stack := s ++ [⟨.StackTypeInt, .int32 r⟩] } ∧
        -2147483648 ≤ r ∧ r < 2147483648 ∧ r % 4294967296 = (a + b) % 4294967296) ∧
    (code[m.pc]? = some 0x68 →
      ∃ r : Int, step jvm code m
          = .ok { m with pc := m.pc + 1, stack := s ++ [⟨.StackTypeInt, .int32 r⟩] } ∧
        -2147483648 ≤ r ∧ r < 2147483648 ∧ r % 4294967296 = (a * b) % 4294967296) := by
  constructor
  · intro hc
    refine ⟨toInt32 (a + b), ?_, toInt32_spec _⟩
    rw [step_arith jvm code m 0x60 _ s _ _ a b hc (dispatch_iadd jvm code m) hs rfl rfl]
    simp
  · intro hc
    refine ⟨toInt32 (a * b), ?_, toInt32_spec _⟩
    rw [step_arith jvm code m 0x68 _ s _ _ a b hc (dispatch_imul jvm code m) hs rfl rfl]
    simp

/-- Witness of C28: on iadd 2147483647 + 1 wraps to -2147483648, and on imul
2147483647 * 1 is 2147483647. -/
theorem step_iadd_imul_witness :
    (∃ r : Int, step ⟨emptyClass⟩ [0x60]
          ⟨0, [⟨.StackTypeInt, .int32 1⟩, ⟨.StackTypeInt, .int32 2147483647⟩], [], [], []⟩
        = .ok ⟨1, [⟨.StackTypeInt, .int32 r⟩], [], [], []⟩ ∧
      -2147483648 ≤ r ∧ r < 2147483648 ∧
      r % 4294967296 = (2147483647 + 1) % 4294967296) ∧
    (∃ r : Int, step ⟨emptyClass⟩ [0x68]
          ⟨0, [⟨.StackTypeInt, .int32 1⟩, ⟨.StackTypeInt, .int32 2147483647⟩], [], [], []⟩
        = .ok ⟨1, [⟨.StackTypeInt, .int32 r⟩], [], [], []⟩ ∧
      -2147483648 ≤ r ∧ r < 2147483648 ∧
      r % 4294967296 = (2147483647 * 1) % 4294967296) :=
  ⟨(step_iadd_imul ⟨emptyClass⟩ [0x60]
      ⟨0, [⟨.StackTypeInt, .int32 1⟩, ⟨.StackTypeInt, .int32 2147483647⟩], [], [], []⟩ []
      2147483647 1 rfl).1 (by rfl),
   (step_iadd_imul ⟨emptyClass⟩ [0x68]
      ⟨0, [⟨.StackTypeInt, .int32 1⟩, ⟨.StackTypeInt, .int32 2147483647⟩], [], [], []⟩ []
      2147483647 1 rfl).2 (by rfl)⟩

/-- C24. With the two operand bytes present: a getstatic whose field reference
resolves to anything other than `out` of `java/lang/System`, and an
invokevirtual whose method reference resolves to anything other than `println`
of `java/io/PrintStream`, leave stack, locals and output unchanged, append one
diagnostic and advance `pc` by 3; a getstatic of `java/lang/System.out` pushes
one value, the handle `JavaPrintStream`, and changes nothing else. -/
theorem step_unrecognized_target (jvm : Jvm) (code : List Byte) (m : Machine) (hi lo : Byte)
    (h1 : code[m.pc + 1]? = some hi) (h2 : code[m.pc + 2]? = some lo) :
    (∀ className methodName : List Byte, code[m.pc]? = some 0xB2 →
      resolveFieldRef jvm.Class.ConstantPool (hi.val * 256 + lo.val)
        = .ok (className, methodName) →
      ¬ (className = ascii "java/lang/System" ∧ methodName = ascii "out") →
      step jvm code m
        = .ok { m with
            pc := m.pc + 3
            diag := m.diag ++ [.unsupportedStatic className methodName] }) ∧
    (∀ className methodName : List Byte, code[m.pc]? = some 0xB6 →
      resolveMethodRef jvm.Class.ConstantPool (hi.val * 256 + lo.val)
        = .ok (className, methodName) →
      ¬ (className = ascii "java/io/PrintStream" ∧ methodName = ascii "println") →
      step jvm code m
        = .ok { m with
            pc := m.pc + 3
            diag := m.diag ++ [.unsupportedMethod className methodName] }) ∧
    (code[m.pc]? = some 0xB2 →
      resolveFieldRef jvm.Class.ConstantPool (hi.val * 256 + lo.val)
        = .ok (ascii "java/lang/System", ascii "out") →
      step jvm code m
        = .ok { m with
            pc := m.pc + 3
            stack := m.stack
              ++ [⟨.StackTypeStaticClass, .string (ascii "JavaPrintStream")⟩] }) := by
  refine ⟨fun c n h0 hr hne => ?_, fun c n h0 hr hne => ?_, fun h0 hr => ?_⟩
  · rw [step_getstatic jvm code hi lo m h0 h1 h2]
    simp only [getstatic, hr, hne, bind, Except.bind, pure, Except.pure, if_false]
  · rw [step_invokevirtual jvm code hi lo m h0 h1 h2]
    simp only [invokevirtual, hr, hne, bind, Except.bind, pure, Except.pure, if_false]
  · rw [step_getstatic jvm code hi lo m h0 h1 h2]
    simp only [getstatic, hr, bind, Except.bind, pure, Except.pure, and_self, if_true]

/-- Witness of C24: in the class `errClass` the field at entry 1 and the method
at entry 7 resolve to `java/lang/System.err`. -/
theorem step_unrecognized_target_witness :
    step ⟨errClass⟩ [0xB2, 0x00, 0x01] ⟨0, [], [], [], []⟩
        = .ok ⟨3, [], [], [], [.unsupportedStatic (ascii "java/lang/System") (ascii "err")]⟩ ∧
      step ⟨errClass⟩ [0xB6, 0x00, 0x07] ⟨0, [], [], [], []⟩
        = .ok ⟨3, [], [], [], [.unsupportedMethod (ascii "java/lang/System") (ascii "err")]⟩ :=
  ⟨(step_unrecognized_target ⟨errClass⟩ [0xB2, 0x00, 0x01] ⟨0, [], [], [], []⟩ 0x00 0x01
      rfl rfl).1 (ascii "java/lang/System") (ascii "err") rfl (by rfl) (by decide),
    (step_unrecognized_target ⟨errClass⟩ [0xB6, 0x00, 0x07] ⟨0, [], [], [], []⟩ 0x00 0x07
      rfl rfl).2.1 (ascii "java/lang/System") (ascii "err") rfl (by rfl) (by decide)⟩

theorem step_println (jvm : Jvm) (code : List Byte) (m : Machine) (hi lo : Byte)
    (s : List StackData) (cls value : StackData)
    (h0 : code[m.pc]? = some 0xB6) (h1 : code[m.pc + 1]? = some hi)
    (h2 : code[m.pc + 2]? = some lo)
    (hm : resolveMethodRef jvm.Class.ConstantPool (hi.val * 256 + lo.val)
      = .ok (ascii "java/io/PrintStream", ascii "println"))
    (hs : m.stack = s ++ [cls, value])
    (hc : cls.Typ ≠ .StackTypeStaticClass ∨ cls.Data = .string (ascii "JavaPrintStream")) :
    step jvm code m
      = (printValue jvm.Class.ConstantPool { m with pc := m.pc + 2, stack := s } value).bind
          (fun m => .ok { m with pc := m.pc + 1 }) := by
  have hl : ¬ (s ++ [cls, value]).length < 2 := by simp
  have ht : (s ++ [cls, value]).take ((s ++ [cls, value]).length - 2) = s := by simp
  rw [step_invokevirtual jvm code hi lo m h0 h1 h2]
  simp only [invokevirtual, hm, hs, hl, fromTop_one_two, fromTop_two, ht, bind, Except.bind,
    pure, Except.pure, and_self, if_true, if_false]
  rcases hc with hc | hc
  · simp only [hc, if_false]
  · simp only [hc, ne_eq, not_true_eq_false, if_false, ite_self]

/-- C21 (the code when the receiver is not the handle). The receiver is checked
only when its type is that of a static class: with any other value below an
Int(v) argument, invokevirtual println pops both, prints v and produces no
diagnostic. The code iconst_1, iconst_2, invokevirtual println, which runs
println on the stack [Int 1, Int 2], prints the line `2`. -/
theorem invokevirtual_prints_for_any_receiver :
    (∀ (jvm : Jvm) (code : List Byte) (m : Machine) (hi lo : Byte) (s : List StackData)
        (cls : StackData) (v : Int),
      code[m.pc]? = some 0xB6 → code[m.pc + 1]? = some hi → code[m.pc + 2]? = some lo →
      resolveMethodRef jvm.Class.ConstantPool (hi.val * 256 + lo.val)
        = .ok (ascii "java/io/PrintStream", ascii "println") →
      m.stack = s ++ [cls, ⟨.StackTypeInt, .int32 v⟩] → cls.Typ ≠ .StackTypeStaticClass →
      step jvm code m
        = .ok { m with pc := m.pc + 3, stack := s, out := m.out ++ [decimal v] }) ∧
    RunCodeAttr ⟨printlnClass⟩ (.mk 2 0 5 [0x04, 0x05, 0xB6, 0x00, 0x07] [] [])
      = .ok ⟨5, [], [], [ascii "2"], []⟩ := by
  refine ⟨fun jvm code m hi lo s cls v h0 h1 h2 hm hs hc => ?_, by rfl⟩
  rw [step_println jvm code m hi lo s cls _ h0 h1 h2 hm hs (Or.inl hc)]
  simp only [printValue, asInt32, bind, Except.bind, pure, Except.pure]

theorem ascii_append (a b : String) : ascii (a ++ b) = ascii a ++ ascii b := by
  simp [ascii, String.data_append]

/-- C22. When invokevirtual println executes with the handle `JavaPrintStream`
second from the top: if the top is a pool reference i and pool entry i is a
string constant whose index resolves to the text t, the step prints the line t;
if the top is Int(v), it prints the decimal representation of v, with a leading
`-` for a negative v. In both cases the two values are popped, no diagnostic is
produced, nothing else changes and `pc` advances by 3. -/
theorem step_println_emits (jvm : Jvm) (code : List Byte) (m : Machine) (hi lo : Byte)
    (s : List StackData) (value : StackData)
    (h0 : code[m.pc]? = some 0xB6) (h1 : code[m.pc + 1]? = some hi)
    (h2 : code[m.pc + 2]? = some lo)
    (hm : resolveMethodRef jvm.Class.ConstantPool (hi.val * 256 + lo.val)
      = .ok (ascii "java/io/PrintStream", ascii "println"))
    (hs : m.stack
      = s ++ [⟨.StackTypeStaticClass, .string (ascii "JavaPrintStream")⟩, value]) :
    (∀ (i stringIndex : Nat) (t : List Byte), value = ⟨.StackTypeConstant, .uint16 i⟩ →
      jvm.Class.ConstantPool[pred16 i]?
        = some ⟨ConstantStringTag, .ConstantString stringIndex⟩ →
      poolUtf8 jvm.Class.ConstantPool stringIndex = .ok t →
      step jvm code m = .ok { m with pc := m.pc + 3, stack := s, out := m.out ++ [t] }) ∧
    (∀ v : Int, value = ⟨.StackTypeInt, .int32 v⟩ →
      step jvm code m
        = .ok { m with pc := m.pc + 3, stack := s, out := m.out ++ [decimal v] }) ∧
    (∀ n : Nat, decimal (n : Int) = ascii (toString n) ∧
      decimal (-((n : Int) + 1)) = ascii "-" ++ ascii (toString (n + 1))) := by
  have hstep := step_println jvm code m hi lo s _ value h0 h1 h2 hm hs (Or.inr rfl)
  refine ⟨fun i j t hv hp ht => ?_, fun v hv => ?_, fun n => ⟨rfl, ?_⟩⟩
  · rw [hstep, hv]
    simp only [printValue, hp, ht, bind, Except.bind, pure, Except.pure, if_true]
  · rw [hstep, hv]
    simp only [printValue, asInt32, bind, Except.bind, pure, Except.pure]
  · have e : -((n : Int) + 1) = Int.negSucc n := (Int.negSucc_eq n).symm
    rw [e, ← ascii_append]
    rfl

/-- Witness of C22: with the pool `helloPool`, whose entry 13 is a string
constant with the text `hello`, println on the stack [handle, pool reference
13] prints `hello`; the code getstatic System.out, ldc 13, invokevirtual
println prints `hello`, and the same with bipush 7 in place of ldc prints `7`. -/
theorem step_println_emits_witness :
    step ⟨helloClass⟩ [0xB6, 0x00, 0x07]
        ⟨0, [⟨.StackTypeStaticClass, .string (ascii "JavaPrintStream")⟩,
          ⟨.StackTypeConstant, .uint16 13⟩], [], [], []⟩
        = .ok ⟨3, [], [], [ascii "hello"], []⟩ ∧
      RunCodeAttr ⟨helloClass⟩
        (.mk 2 0 8 [0xB2, 0x00, 0x01, 0x12, 0x0D, 0xB6, 0x00, 0x07] [] [])
        = .ok ⟨8, [], [], [ascii "hello"], []⟩ ∧
      RunCodeAttr ⟨helloClass⟩
        (.mk 2 0 8 [0xB2, 0x00, 0x01, 0x10, 0x07, 0xB6, 0x00, 0x07] [] [])
        = .ok ⟨8, [], [], [ascii "7"], []⟩ ∧
      decimal (-5) = ascii "-5" :=
  ⟨(step_println_emits ⟨helloClass⟩ [0xB6, 0x00, 0x07]
      ⟨0, [⟨.StackTypeStaticClass, .string (ascii "JavaPrintStream")⟩,
        ⟨.StackTypeConstant, .uint16 13⟩], [], [], []⟩ 0x00 0x07 []
      ⟨.StackTypeConstant, .uint16 13⟩ rfl rfl rfl (by rfl) rfl).1 13 14 (ascii "hello") rfl
      (by rfl) (by rfl),
    by rfl, by rfl, by rfl⟩

theorem step_iinc (jvm : Jvm) (code : List Byte) (m : Machine) (i b : Byte) (l : StackData)
    (h0 : code[m.pc]? = some 0x84) (h1 : code[m.pc + 1]? = some i)
    (h2 : code[m.pc + 2]? = some b) (hl : m.locals[i.val]? = some l)
    (ht : l.Typ = .StackTypeInt) :
    step jvm code m
      = (asInt32 l).bind (fun x => .ok { m with
          pc := m.pc + 3
          locals := m.locals.set i.val ⟨.StackTypeInt, .int32 (toInt32 (x + b.val))⟩ }) := by
  simp only [step, dispatch, codeAt, slot, h0, h1, h2, hl, ht, Nat.add_assoc, bind, Except.bind,
    pure, Except.pure, ne_eq, not_true_eq_false, if_false]
  cases asInt32 l <;> rfl

/-- C25 (the code on the constant of iinc). The constant byte is converted with
`int32(code[pc])`, so it is added as an unsigned byte: for a local Int(x) and a
constant byte b the local becomes Int(x + b) in `int32` arithmetic with
0 ≤ b ≤ 255; the other locals and the stack are unchanged and `pc` advances by
3. The code bipush 5, istore_1, iinc 1 0xFF leaves Int(260) in local 1, not
Int(4). -/
theorem iinc_adds_unsigned_byte :
    (∀ (jvm : Jvm) (code : List Byte) (m : Machine) (i b : Byte) (x : Int),
      code[m.pc]? = some 0x84 → code[m.pc + 1]? = some i → code[m.pc + 2]? = some b →
      m.locals[i.val]? = some ⟨.StackTypeInt, .int32 x⟩ →
      step jvm code m
        = .ok { m with
            pc := m.pc + 3
            locals := m.locals.set i.val ⟨.StackTypeInt, .int32 (toInt32 (x + b.val))⟩ }) ∧
    RunCodeAttr ⟨emptyClass⟩ (.mk 1 2 6 [0x10, 0x05, 0x3C, 0x84, 0x01, 0xFF] [] [])
      = .ok ⟨6, [], [⟨.StackTypeInt, .nil⟩, ⟨.StackTypeInt, .int32 260⟩], [], []⟩ := by
  refine ⟨fun jvm code m i b x h0 h1 h2 hl => ?_, by rfl⟩
  rw [step_iinc jvm code m i b _ h0 h1 h2 hl rfl]
  rfl

theorem step_arith_panics (jvm : Jvm) (code : List Byte) (m : Machine) (opcode : Byte)
    (op : Int → Int → Int) (s : List StackData) (w v : StackData)
    (hc : code[m.pc]? = some opcode)
    (hd : dispatch jvm code m opcode = arith m opcode op)
    (hs : m.stack = s ++ [w, v])
    (hn : (∀ a, v.Data ≠ .int32 a) ∨ (∀ b, w.Data ≠ .int32 b)) :
    step jvm code m = .error .panic := by
  simp only [step, codeAt, hc, hd, arith, hs, fromTop_one_two, fromTop_two, bind, Except.bind,
    pure, Except.pure]
  rcases asInt32_cases v with hv | ⟨a, hv⟩
  · simp only [hv]
  · rcases asInt32_cases w with hw | ⟨b, hw⟩
    · simp only [hv, hw]
    · exfalso
      unfold asInt32 at hv hw
      rcases hn with hn | hn
      · cases hd' : v.Data <;> simp [hd'] at hv
        exact hn _ hd'
      · cases hd' : w.Data <;> simp [hd'] at hw
        exact hn _ hd'

/-- C26 (the code on operands that are not both Int). The check of iadd and
imul is `v1.Type != Int && v2.Type != Int`, and the data of both operands is
then asserted to be an `int32` unconditionally: when the data of either operand
is not an `int32` the step panics, and when both are, the diagnostic is
produced only if both type tags differ from Int. The code ldc 1, iconst_2,
iadd, which runs iadd with an Int on top of a pool reference, panics; so does
the same code with imul. -/
theorem arith_panics_on_mixed_operands :
    (∀ (jvm : Jvm) (code : List Byte) (m : Machine) (opcode : Byte) (s : List StackData)
        (w v : StackData),
      code[m.pc]? = some opcode → (opcode = 0x60 ∨ opcode = 0x68) → m.stack = s ++ [w, v] →
      ((∀ a, v.Data ≠ .int32 a) ∨ (∀ b, w.Data ≠ .int32 b)) →
      step jvm code m = .error .panic) ∧
    (∀ (jvm : Jvm) (code : List Byte) (m : Machine) (s : List StackData) (w v : StackData)
        (a b : Int),
      code[m.pc]? = some 0x60 → m.stack = s ++ [w, v] → v.Data = .int32 a →
      w.Data = .int32 b →
      step jvm code m
        = .ok { m with
            pc := m.pc + 1
            stack := s ++ [⟨.StackTypeInt, .int32 (toInt32 (a + b))⟩]
            diag := if v.Typ ≠ .StackTypeInt ∧ w.Typ ≠ .StackTypeInt then
                m.diag ++ [.expectedStackInt 0x60]
              else m.diag }) ∧
    RunCodeAttr ⟨emptyClass⟩ (.mk 2 0 4 [0x12, 0x01, 0x05, 0x60] [] []) = .error .panic ∧
    RunCodeAttr ⟨emptyClass⟩ (.mk 2 0 4 [0x12, 0x01, 0x05, 0x68] [] []) = .error .panic := by
  refine ⟨fun jvm code m opcode s w v hc hop hs hn => ?_,
    fun jvm code m s w v a b hc hs hv hw =>
      step_arith jvm code m 0x60 _ s w v a b hc (dispatch_iadd jvm code m) hs hv hw,
    by rfl, by rfl⟩
  rcases hop with h | h
  · subst h
    exact step_arith_panics jvm code m 0x60 _ s w v hc (dispatch_iadd jvm code m) hs hn
  · subst h
    exact step_arith_panics jvm code m 0x68 _ s w v hc (dispatch_imul jvm code m) hs hn

/-- C27 (counterexample). With two locals, the code getstatic System.out,
iload_1, invokevirtual println panics: local 1 holds no `int32`. -/
theorem RunCodeAttr_panics_on_fresh_local :
    RunCodeAttr ⟨printlnClass⟩
      (.mk 2 2 7 [0xB2, 0x00, 0x01, 0x1B, 0xB6, 0x00, 0x07] [] []) = .error .panic := by
  rfl

/-- C27 (amended). `RunCodeAttr` starts its loop with `pc` 0, an empty stack and
max-locals locals, each the zero value of `StackData`: the type tag Int and no
data. For n in 1, 2, 3 an iload_n of such a local pushes that value and
produces no diagnostic. The value holds no `int32`: iadd or imul with it as an
operand, iinc on the local, and println with it as the argument panic. -/
theorem RunCodeAttr_locals_start_without_data :
    (∀ (jvm : Jvm) (codeAttr : CodeAttribute),
      RunCodeAttr jvm codeAttr
        = runLoop jvm codeAttr.Code codeAttr.Code.length
            ⟨0, [], List.replicate codeAttr.MaxLocals ⟨.StackTypeInt, .nil⟩, [], []⟩ ∧
      (List.replicate codeAttr.MaxLocals (⟨.StackTypeInt, .nil⟩ : StackData)).length
        = codeAttr.MaxLocals) ∧
    (∀ (jvm : Jvm) (code : List Byte) (m : Machine) (opcode : Byte) (n : Nat),
      code[m.pc]? = some opcode → (opcode.val, n) ∈ [(0x1B, 1), (0x1C, 2), (0x1D, 3)] →
      m.locals[n]? = some ⟨.StackTypeInt, .nil⟩ →
      step jvm code m
        = .ok { m with pc := m.pc + 1, stack := m.stack ++ [⟨.StackTypeInt, .nil⟩] }) ∧
    (∀ (jvm : Jvm) (code : List Byte) (m : Machine) (opcode : Byte) (s : List StackData)
        (w v : StackData),
      code[m.pc]? = some opcode → (opcode = 0x60 ∨ opcode = 0x68) → m.stack = s ++ [w, v] →
      (v = ⟨.StackTypeInt, .nil⟩ ∨ w = ⟨.StackTypeInt, .nil⟩) →
      step jvm code m = .error .panic) ∧
    (∀ (jvm : Jvm) (code : List Byte) (m : Machine) (i b : Byte),
      code[m.pc]? = some 0x84 → code[m.pc + 1]? = some i → code[m.pc + 2]? = some b →
      m.locals[i.val]? = some ⟨.StackTypeInt, .nil⟩ →
      step jvm code m = .error .panic) ∧
    (∀ (jvm : Jvm) (code : List Byte) (m : Machine) (hi lo : Byte) (s : List StackData),
      code[m.pc]? = some 0xB6 → code[m.pc + 1]? = some hi → code[m.pc + 2]? = some lo →
      resolveMethodRef jvm.Class.ConstantPool (hi.val * 256 + lo.val)
        = .ok (ascii "java/io/PrintStream", ascii "println") →
      m.stack = s ++ [⟨.StackTypeStaticClass, .string (ascii "JavaPrintStream")⟩,
        ⟨.StackTypeInt, .nil⟩] →
      step jvm code m = .error .panic) := by
  refine ⟨fun jvm codeAttr => ⟨rfl, List.length_replicate _ _⟩, ?_, ?_, ?_, ?_⟩
  · intro jvm code m opcode n hc hop hl
    simp only [List.mem_cons, Prod.mk.injEq, List.mem_singleton, List.not_mem_nil,
      or_false] at hop
    have hd : dispatch jvm code m opcode = iload m n := by
      rcases hop with ⟨h1, h2⟩ | ⟨h1, h2⟩ | ⟨h1, h2⟩ <;>
        (subst h2; unfold dispatch; simp only [h1])
    simp only [step, codeAt, hc, hd, iload, slot, hl, bind, Except.bind, pure, Except.pure,
      ne_eq, not_true_eq_false, if_false]
  · intro jvm code m opcode s w v hc hop hs hn
    have hn' : (∀ a, v.Data ≠ .int32 a) ∨ (∀ b, w.Data ≠ .int32 b) := by
      rcases hn with h | h
      · left; intro a; rw [h]; simp
      · right; intro b; rw [h]; simp
    rcases hop with h | h
    · subst h
      exact step_arith_panics jvm code m 0x60 _ s w v hc (dispatch_iadd jvm code m) hs hn'
    · subst h
      exact step_arith_panics jvm code m 0x68 _ s w v hc (dispatch_imul jvm code m) hs hn'
  · intro jvm code m i b h0 h1 h2 hl
    rw [step_iinc jvm code m i b _ h0 h1 h2 hl rfl]
    rfl
  · intro jvm code m hi lo s h0 h1 h2 hm hs
    rw [step_println jvm code m hi lo s _ _ h0 h1 h2 hm hs (Or.inr rfl)]
    rfl

theorem runLoop_add (jvm : Jvm) (code : List Byte) (k : Nat) :
    ∀ (n : Nat) (m : Machine), code.length ≤ m.pc + n →
      runLoop jvm code (n + k) m = runLoop jvm code n m := by
  intro n
  induction n with
  | zero =>
    intro m h
    rw [runLoop_done jvm code _ m (by omega), runLoop_done jvm code _ m (by omega)]
  | succ n ih =>
    intro m h
    by_cases hpc : m.pc < code.length
    · have e : n + 1 + k = (n + k) + 1 := by omega
      rw [e]
      cases hs : step jvm code m with
      | error err => simp [runLoop, hpc, hs, bind, Except.bind]
      | ok m' =>
        have hb : m.pc + 1 ≤ m'.pc := by
          rcases step_cases jvm code m with h1 | ⟨m2, h1, h2, _⟩
          · rw [h1] at hs; cases hs
          · rw [h1] at hs
            cases hs
            exact h2
        rw [runLoop_step jvm code _ m m' hpc hs, runLoop_step jvm code _ m m' hpc hs]
        exact ih m' (by omega)
    · rw [runLoop_done jvm code _ m (by omega), runLoop_done jvm code _ m (by omega)]

/-- C29. Every step that does not panic increases `pc` by at least 1 and at
most 3. Hence the loop of `RunCodeAttr`, started at any machine m, ends within
`len(code) - pc` iterations, in a panic or with `pc` at or beyond the end of
the code: a bound of n iterations with `len(code) ≤ pc + n` is never exhausted
and a larger bound gives the same outcome. In particular `RunCodeAttr`, which
starts at `pc` 0, performs at most `len(code)` dispatches. -/
theorem RunCodeAttr_terminates (jvm : Jvm) (code : List Byte) :
    (∀ m m' : Machine, step jvm code m = .ok m' → m.pc + 1 ≤ m'.pc ∧ m'.pc ≤ m.pc + 3) ∧
    (∀ (m : Machine) (n : Nat), code.length ≤ m.pc + n →
      (runLoop jvm code n m = .error .panic ∨
        ∃ m', runLoop jvm code n m = .ok m' ∧ code.length ≤ m'.pc) ∧
      ∀ k, runLoop jvm code (n + k) m = runLoop jvm code n m) ∧
    (∀ (maxStack maxLocals codeLength : Nat) (exc : List ExceptionEntry)
        (attrs : List AttributeInfo),
      RunCodeAttr jvm (.mk maxStack maxLocals codeLength code exc attrs) ≠ .error .fuel) := by
  refine ⟨fun m m' h => ?_, fun m n h => ⟨runLoop_cases jvm code n m h,
    fun k => runLoop_add jvm code k n m h⟩, fun ms ml cl exc attrs h => ?_⟩
  · rcases step_cases jvm code m with h1 | ⟨m2, h1, h2, h3⟩
    · rw [h1] at h; cases h
    · rw [h1] at h
      cases h
      exact ⟨h2, h3⟩
  · rcases runLoop_cases jvm code code.length
        ⟨0, [], List.replicate ml ⟨.StackTypeInt, .nil⟩, [], []⟩ (by simp) with h1 | ⟨m', h1, _⟩
    · have : RunCodeAttr jvm (.mk ms ml cl code exc attrs)
          = runLoop jvm code code.length
              ⟨0, [], List.replicate ml ⟨.StackTypeInt, .nil⟩, [], []⟩ := rfl
      rw [this, h1] at h
      cases h
    · have : RunCodeAttr jvm (.mk ms ml cl code exc attrs)
          = runLoop jvm code code.length
              ⟨0, [], List.replicate ml ⟨.StackTypeInt, .nil⟩, [], []⟩ := rfl
      rw [this, h1] at h
      cases h

end GoJvm
